import Mathlib

/-!
# pugihtml (cpp-html) parser: a shallow embedding of `src/parser.cpp`

Conventions of the embedding.

* A byte (`char_type`) is a natural number `0..255`; a `string_type` is a list of bytes.
* A `const char_type*` into the NUL-terminated buffer `str_html.c_str()` is the list of
  bytes from the pointed byte up to (excluding) the terminating NUL.  So `*s` is the
  head of the list (`0` for the empty list, the terminator), `s[i]` is `peek s i`,
  `++s` is `s.drop 1` and the difference `p - q` of two pointers into the same buffer
  is `q.length - p.length` (`ptr_sub`).
* The tree is mutated through `current_node_` only.  The state keeps `current_node_`
  together with the chain `parent(), parent()->parent(), ...` up to `document_`; an
  open node is always the last child of its parent, and is stored in that chain
  without this last child.  `get_document` re-attaches the chain.
* Moving a pointer forward is `List.drop`, which stays at the terminating NUL instead
  of leaving the buffer.
* A list may also hold a NUL byte: the loops stop at the first one, as they do on the
  C string.  The list `html ++ 0 :: junk` is the memory in which the bytes `junk`
  follow the terminating NUL of `html`; `advanced` says that a cursor was moved over
  bytes that are not NUL only, and `beyond` relates a run on `html` to the run on
  that memory.
* A C++ `throw` ends the run with `fault.thrown`; dereferencing a null `parent()`
  ends it with `fault.null_deref`; the tree built so far stays in the state.
-/

namespace cpphtml

abbrev char_type := Nat
abbrev string_type := List Nat

/-- Bytes of an ASCII literal of the source. -/
def ascii (str : String) : string_type := str.toList.map Char.toNat

/-- The table `chartype_table[256]` (parser.cpp, lines 23-41). -/
def chartype_table : List Nat := [
  55,  0,   0,   0,   0,   0,   0,   0,      0,   12,  12,  0,   0,   62,  0,   0,
  0,   0,   0,   0,   0,   0,   0,   0,      0,   0,   0,   0,   0,   0,   0,   0,
  10,   0,   4,   0,   0,   0,   4,   4,      0,   0,   0,   0,   0,   96,  64,  0,
  64,  64,  64,  64,  64,  64,  64,  64,     64,  64,  192, 0,   1,   0,   50,  0,
  0,   192, 192, 192, 192, 192, 192, 192,    192, 192, 192, 192, 192, 192, 192, 192,
  192, 192, 192, 192, 192, 192, 192, 192,    192, 192, 192, 0,   0,   16,  0,   192,
  0,   192, 192, 192, 192, 192, 192, 192,    192, 192, 192, 192, 192, 192, 192, 192,
  192, 192, 192, 192, 192, 192, 192, 192,    192, 192, 192, 0, 0, 0, 0, 0,

  192, 192, 192, 192, 192, 192, 192, 192,    192, 192, 192, 192, 192, 192, 192, 192,
  192, 192, 192, 192, 192, 192, 192, 192,    192, 192, 192, 192, 192, 192, 192, 192,
  192, 192, 192, 192, 192, 192, 192, 192,    192, 192, 192, 192, 192, 192, 192, 192,
  192, 192, 192, 192, 192, 192, 192, 192,    192, 192, 192, 192, 192, 192, 192, 192,
  192, 192, 192, 192, 192, 192, 192, 192,    192, 192, 192, 192, 192, 192, 192, 192,
  192, 192, 192, 192, 192, 192, 192, 192,    192, 192, 192, 192, 192, 192, 192, 192,
  192, 192, 192, 192, 192, 192, 192, 192,    192, 192, 192, 192, 192, 192, 192, 192,
  192, 192, 192, 192, 192, 192, 192, 192,    192, 192, 192, 192, 192, 192, 192, 192]

/-- Modelled from the spec: the bit `ct_parse_pcdata` of `enum chartype_t`, declared in
a header that is not under src/.  It is the bit of the table carried by NUL and by the
PCDATA-stop byte `<`. -/
def ct_parse_pcdata : Nat := 1

/-- Modelled from the spec: the bit `ct_parse_attr` of `enum chartype_t` (header not under
src/): of the table's bits it is the one carried by the blank and by `>`, the bytes
the spec names as ending an unquoted attribute value. -/
def ct_parse_attr : Nat := 2

/-- Modelled from the spec: the bit `ct_space` of `enum chartype_t` (header not under
src/): the bit carried by tab, LF, CR and the blank. -/
def ct_space : Nat := 8

/-- Modelled from the spec: the bit `ct_symbol` of `enum chartype_t` (header not under
src/): name characters. -/
def ct_symbol : Nat := 64

/-- Modelled from the spec: the bit `ct_start_symbol` of `enum chartype_t` (header not
under src/): name-start characters. -/
def ct_start_symbol : Nat := 128

/-- The function `is_chartype` (non-wchar mode): `chartype_table[(unsigned char) ch] & char_type`. -/
def is_chartype (ch : char_type) (char_type : Nat) : Bool :=
  (chartype_table.getD ch 0 &&& char_type) != 0

/-- Read `s[i]`; the byte at the end of the buffer is the terminating NUL. -/
def peek (s : List Nat) (i : Nat) : Nat := s.getD i 0

/-- Pointer difference `p - q` (a `ptrdiff_t`) of two pointers into the same buffer. -/
def ptr_sub (p q : List Nat) : Int := (q.length : Int) - (p.length : Int)

/-- The constructor `string_type(start, len)`, `len` being a `size_t`.  Every length the
parser passes is the distance from `start` to a cursor that was moved forward from
`start`, so it is never negative and the conversion to `size_t` does not wrap. -/
def mk_string (start : List Nat) (len : Int) : string_type := start.take len.toNat

/-- The function `skip_white_spaces`: `while (is_chartype(*str, ct_space)) ++str;`.
The empty list is the terminating NUL, which is not of class `ct_space`. -/
def skip_white_spaces : List Nat → List Nat
  | [] => []
  | c :: s => if is_chartype c ct_space then skip_white_spaces s else c :: s

/-- The macro `SCANFOR(X)`: `while (*s != 0 && !(X)) ++s;`, `X` reading from `s`. -/
def SCANFOR (X : List Nat → Bool) : List Nat → List Nat
  | [] => []
  | c :: s => if c ≠ 0 ∧ X (c :: s) = false then SCANFOR X s else c :: s

/-- The macro `SCANWHILE(X)` and the bare loops `while (X) ++s;` whose condition reads
`*s` only.  Every condition used is false at the terminating NUL. -/
def SCANWHILE (X : Nat → Bool) : List Nat → List Nat
  | [] => []
  | c :: s => if X c then SCANWHILE X s else c :: s

/-- The list `html_void_elements`. -/
def html_void_elements : List string_type :=
  [ascii "AREA", ascii "BASE", ascii "BR", ascii "COL", ascii "EMBED", ascii "HR",
   ascii "IMG", ascii "INPUT", ascii "KEYGEN", ascii "LINK", ascii "MENUITEM",
   ascii "META", ascii "PARAM", ascii "SOURCE", ascii "TRACK", ascii "WBR"]

/-- The map `no_end_tag_by_sibling`. -/
def no_end_tag_by_sibling : List (string_type × List string_type) :=
  [(ascii "LI", [ascii "LI"]),
   (ascii "TD", [ascii "TD"]),
   (ascii "TR", [ascii "TR", ascii "TD"]),
   (ascii "TH", [ascii "TH"]),
   (ascii "TBODY", [ascii "THEAD"]),
   (ascii "DD", [ascii "DD", ascii "DT"]),
   (ascii "DT", [ascii "DT"])]

/-- The set `no_end_tag_by_child`. -/
def no_end_tag_by_child : List string_type :=
  [ascii "LI", ascii "P", ascii "TD", ascii "TR", ascii "TBODY", ascii "THEAD",
   ascii "TH", ascii "DD"]

/-- The function `autoclose_prev_sibling`. -/
def autoclose_prev_sibling (tag_name prev_sibling_name : string_type) : Bool :=
  match no_end_tag_by_sibling.lookup tag_name with
  | none => false
  | some siblings => siblings.contains prev_sibling_name

/-- The function `autoclose_last_child`. -/
def autoclose_last_child (tag_name : string_type) : Bool :=
  no_end_tag_by_child.contains tag_name

/-- The function `is_void_element`. -/
def is_void_element (tag_name : string_type) : Bool :=
  html_void_elements.contains tag_name

/-- The function `std::toupper(c, loc)` of the default ("C") locale. -/
def toupper (c : Nat) : Nat := if 97 ≤ c ∧ c ≤ 122 then c - 32 else c

/-- The function `str_toupper`. -/
def str_toupper (str : string_type) : string_type := str.map toupper

/-- The statuses of `enum parse_status` that `parser::parse` raises. -/
inductive parse_status
  | status_unrecognized_tag
  | status_bad_comment
  | status_bad_cdata
  | status_bad_doctype
  | status_bad_start_element
  | status_bad_attribute
  | status_bad_end_element
  | status_end_element_mismatch
deriving DecidableEq, Repr

/-- The two constructors of `parse_error`: `parse_error(status)` and
`parse_error(status, str_html, parse_pos, err_msg)`; `parse_pos` is kept as the offset
`parse_pos - str_html.c_str()`. -/
inductive parse_error
  | of_status (status : parse_status)
  | at_pos (status : parse_status) (str_html : string_type) (parse_pos : Nat)
      (err_msg : string_type)
deriving DecidableEq, Repr

/-- The member `parse_error::status()`. -/
def parse_error.status : parse_error → parse_status
  | .of_status st => st
  | .at_pos st _ _ _ => st

/-- How a run ends other than by returning. -/
inductive fault
  | thrown (e : parse_error)
  | null_deref
  | out_of_fuel
deriving DecidableEq, Repr

/-- Modelled from the spec: `enum node_type` of node.hpp (not under src/), the kinds
that `parser.cpp` creates. -/
inductive node_type
  | node_document
  | node_element
  | node_cdata
  | node_comment
  | node_doctype
deriving DecidableEq, Repr

/-- Modelled from the spec: class `attribute` (attribute.hpp, not under src/; the
word is reserved in Lean): a name and a value. -/
structure attr where
  name : string_type
  value : string_type
deriving DecidableEq, Repr

/-- Modelled from the spec: class `node` (node.hpp, not under src/): kind, name, value,
ordered attributes, ordered children. -/
inductive node
  | mk (type : node_type) (name : string_type) (value : string_type)
      (attributes : List attr) (children : List node)
deriving Repr

def node.type : node → node_type
  | .mk t _ _ _ _ => t

def node.name : node → string_type
  | .mk _ n _ _ _ => n

def node.value : node → string_type
  | .mk _ _ v _ _ => v

def node.attributes : node → List attr
  | .mk _ _ _ a _ => a

def node.children : node → List node
  | .mk _ _ _ _ c => c

/-- Modelled from the spec: `node::create(type)` (node.hpp, not under src/): a node of
the given kind with empty name, value, attributes and children. -/
def node.create (t : node_type) : node := .mk t [] [] [] []

/-- Modelled from the spec: `document::create()`: the empty root. -/
def document.create : node := node.create .node_document

/-- Modelled from the spec: the setter `node::name(str)`. -/
def node.set_name : node → string_type → node
  | .mk t _ v a c, n => .mk t n v a c

/-- Modelled from the spec: the setter `node::value(str)`. -/
def node.set_value : node → string_type → node
  | .mk t n _ a c, v => .mk t n v a c

/-- Modelled from the spec: `node::append_child`: insertion order is kept. -/
def node.append_child : node → node → node
  | .mk t n v a c, child => .mk t n v a (c ++ [child])

/-- Modelled from the spec: `node::append_attribute`: insertion order is kept,
duplicates are kept. -/
def node.append_attribute : node → attr → node
  | .mk t n v a c, attr => .mk t n v (a ++ [attr]) c

/-- Modelled from the spec: the option masks `parse_comments`, `parse_cdata` and
`parse_doctype` of parser.hpp (not under src/) are distinct bits of `options_`; the
record holds `option_set(mask)` for each of them. -/
structure parse_options where
  parse_comments : Bool
  parse_cdata : Bool
  parse_doctype : Bool
deriving DecidableEq, Repr

/-- Modelled from the spec: the default value of the parameter `endch` of
`parse_exclamation` (declared in parser.hpp, not under src/); `parse` passes no
`endch`, and an input that ends inside a declaration is an error. -/
def default_endch : Nat := 0

/-- Modelled from the spec: the default value of the parameter `top_level` of
`advance_doctype_group` (declared in parser.hpp, not under src/). -/
def default_top_level : Bool := true

/-- The macro `ENDSWITH(c, e)`. -/
def ENDSWITH (endch c e : Nat) : Bool := c == e || (c == 0 && endch == e)

/-- The function `parser::advance_doctype_primitive`. -/
def advance_doctype_primitive (s : List Nat) : Except fault (List Nat) :=
  if peek s 0 = 34 ∨ peek s 0 = 39 then
    let ch := peek s 0
    let s := s.drop 1
    let s := SCANFOR (fun s => peek s 0 == ch) s
    if peek s 0 = 0 then .error (.thrown (.of_status .status_bad_doctype))
    else .ok (s.drop 1)
  else if peek s 0 = 60 ∧ peek s 1 = 63 then
    let s := s.drop 2
    let s := SCANFOR (fun s => peek s 0 == 63 && peek s 1 == 62) s
    if peek s 0 = 0 then .error (.thrown (.of_status .status_bad_doctype))
    else .ok (s.drop 2)
  else if peek s 0 = 60 ∧ peek s 1 = 33 ∧ peek s 2 = 45 ∧ peek s 3 = 45 then
    let s := s.drop 4
    let s := SCANFOR (fun s => peek s 0 == 45 && peek s 1 == 45 && peek s 2 == 62) s
    if peek s 0 = 0 then .error (.thrown (.of_status .status_bad_doctype))
    else .ok (s.drop 4)
  else .error (.thrown (.of_status .status_bad_doctype))

/-- The `while (*s)` loop of `parser::advance_doctype_ignore` and the `THROW_ERROR` after
it.  A nested call `advance_doctype_ignore(s)` is `++s` followed by this loop.  One
unit of fuel is spent per iteration and per nested call. -/
def advance_doctype_ignore_loop : Nat → List Nat → Except fault (List Nat)
  | 0, _ => .error .out_of_fuel
  | fuel + 1, s =>
    if peek s 0 = 0 then .error (.thrown (.of_status .status_bad_doctype))
    else if peek s 0 = 60 ∧ peek s 1 = 33 ∧ peek s 2 = 91 then
      match advance_doctype_ignore_loop fuel (s.drop 1) with
      | .ok s1 => advance_doctype_ignore_loop fuel s1
      | .error f => .error f
    else if peek s 0 = 93 ∧ peek s 1 = 93 ∧ peek s 2 = 62 then .ok (s.drop 3)
    else advance_doctype_ignore_loop fuel (s.drop 1)

/-- The function `parser::advance_doctype_ignore`: `++s`, then the loop. -/
def advance_doctype_ignore (fuel : Nat) (s : List Nat) : Except fault (List Nat) :=
  advance_doctype_ignore_loop fuel (s.drop 1)

/-- The `while (*s)` loop of `parser::advance_doctype_group` and the code after it.  A
nested call `advance_doctype_group(s, endch, false)` is `++s` followed by this loop
with `top_level = false`. -/
def advance_doctype_group_loop (endch : Nat) :
    Nat → List Nat → Bool → Except fault (List Nat)
  | 0, _, _ => .error .out_of_fuel
  | fuel + 1, s, top_level =>
    if peek s 0 = 0 then
      if top_level = false ∨ endch ≠ 62 then
        .error (.thrown (.of_status .status_bad_doctype))
      else .ok s
    else if peek s 0 = 60 ∧ peek s 1 = 33 then
      if peek s 2 = 91 then
        match advance_doctype_ignore fuel s with
        | .ok s1 => advance_doctype_group_loop endch fuel s1 top_level
        | .error f => .error f
      else
        match advance_doctype_group_loop endch fuel (s.drop 1) false with
        | .ok s1 => advance_doctype_group_loop endch fuel s1 top_level
        | .error f => .error f
    else if peek s 0 = 60 ∨ peek s 0 = 34 ∨ peek s 0 = 39 then
      match advance_doctype_primitive s with
      | .ok s1 => advance_doctype_group_loop endch fuel s1 top_level
      | .error f => .error f
    else if peek s 0 = 62 then .ok (s.drop 1)
    else advance_doctype_group_loop endch fuel (s.drop 1) top_level

/-- The function `parser::advance_doctype_group`: `++s`, then the loop. -/
def advance_doctype_group (fuel : Nat) (s : List Nat) (endch : Nat) (top_level : Bool) :
    Except fault (List Nat) :=
  advance_doctype_group_loop endch fuel (s.drop 1) top_level

/-- The function `parser::parse_exclamation`, called with `s` at the `<` of `<!`.  It
returns the new cursor and `current_node_` with what it appended. -/
def parse_exclamation (options_ : parse_options) (current_node_ : node) (s0 : List Nat)
    (endch : Nat) : Except fault (List Nat × node) :=
  let s := s0.drop 2
  if peek s 0 = 45 then
    let s := s.drop 1
    if peek s 0 ≠ 45 then .error (.thrown (.of_status .status_bad_comment))
    else
      let s := s.drop 1
      let comment_start := s
      let s := SCANFOR (fun s => peek s 0 == 45 && peek s 1 == 45
        && ENDSWITH endch (peek s 2) 62) s
      if peek s 0 = 0 then .error (.thrown (.of_status .status_bad_comment))
      else
        let current_node_ :=
          if options_.parse_comments then
            let comment_len := ptr_sub s comment_start - 1 + 1
            let comment := mk_string comment_start comment_len
            let comment_node := (node.create .node_comment).set_value comment
            current_node_.append_child comment_node
          else current_node_
        .ok (s.drop (if peek s 2 = 62 then 3 else 2), current_node_)
  else if peek s 0 = 91 then
    if ¬ (peek s 1 = 67 ∧ peek s 2 = 68 ∧ peek s 3 = 65 ∧ peek s 4 = 84
        ∧ peek s 5 = 65 ∧ peek s 6 = 91) then
      .error (.thrown (.of_status .status_bad_cdata))
    else
      let s := s.drop 6
      let s := s.drop 1
      let cdata_start := s
      let s := SCANFOR (fun s => peek s 0 == 93 && peek s 1 == 93
        && ENDSWITH endch (peek s 2) 62) s
      if peek s 0 = 0 then .error (.thrown (.of_status .status_bad_cdata))
      else
        let current_node_ :=
          if options_.parse_cdata then
            let cdata_len := ptr_sub s cdata_start + 1
            let cdata := mk_string cdata_start cdata_len
            let node := (node.create .node_cdata).set_value cdata
            current_node_.append_child node
          else current_node_
        let s := s.drop 1
        .ok (s.drop (if peek s 1 = 62 then 2 else 1), current_node_)
  else if peek s 0 = 68 ∧ peek s 1 = 79 ∧ peek s 2 = 67 ∧ peek s 3 = 84
      ∧ peek s 4 = 89 ∧ peek s 5 = 80 ∧ ENDSWITH endch (peek s 6) 69 = true then
    let s := s0
    let doctype_start := s.drop 9
    match advance_doctype_group (s.length + 1) s endch default_top_level with
    | .error f => .error f
    | .ok s =>
      let current_node_ :=
        if options_.parse_doctype then
          let doctype_start := skip_white_spaces doctype_start
          let doctype_len := ptr_sub s doctype_start - 2 + 1
          let doctype := mk_string doctype_start doctype_len
          let node := (node.create .node_doctype).set_value doctype
          current_node_.append_child node
        else current_node_
      .ok (s, current_node_)
  else if peek s 0 = 0 ∧ endch = 45 then .error (.thrown (.of_status .status_bad_comment))
  else if peek s 0 = 0 ∧ endch = 91 then .error (.thrown (.of_status .status_bad_cdata))
  else .error (.thrown (.of_status .status_unrecognized_tag))

/-- The variables the lambdas of `parser::parse` share: the cursor `s`, `current_node_`
with its chain of parents (nearest first, `document_` last; empty when `current_node_`
has no parent), and the flag `last_element_void`. -/
structure parse_state where
  s : List Nat
  current_node_ : node
  ancestors : List node
  last_element_void : Bool
deriving Repr

/-- A run either goes on with a state or ends with a fault, the state being the one
reached when the fault arose. -/
inductive outcome
  | ok (st : parse_state)
  | fail (f : fault) (st : parse_state)
deriving Repr

/-- Sequencing: a fault ends the run. -/
def outcome.and_then (r : outcome) (k : parse_state → outcome) : outcome :=
  match r with
  | .ok st => k st
  | .fail f st => .fail f st

/-- The tree `document_` of a state: every open node re-attached as the last child of
its parent. -/
def attach_chain : node → List node → node
  | n, [] => n
  | n, p :: rest => attach_chain (p.append_child n) rest

/-- The member `parser::get_document` on a state. -/
def get_document (st : parse_state) : node := attach_chain st.current_node_ st.ancestors

/-- The offset `s - str_html.c_str()` of the cursor. -/
def offset (str_html s : List Nat) : Nat := str_html.length - s.length

/-- The statement `this->current_node_ = this->current_node_->parent();`, `none` when
the parent is null. -/
def to_parent (st : parse_state) : Option parse_state :=
  match st.ancestors with
  | [] => none
  | p :: rest =>
    some { st with current_node_ := p.append_child st.current_node_, ancestors := rest }

/-- The `while` loop of `find_parent_node_for_new_tag`, `parent` given with its own
chain of parents. -/
def find_parent_walk (new_tag_name : string_type) : node → List node → node × List node
  | parent, [] => (parent, [])
  | parent, gp :: rest =>
    if autoclose_prev_sibling new_tag_name parent.name then
      find_parent_walk new_tag_name (gp.append_child parent) rest
    else (parent, gp :: rest)

/-- The function `find_parent_node_for_new_tag`: the node that becomes the parent of the
new tag, with its chain of parents. -/
def find_parent_node_for_new_tag (current_node : node) (ancestors : List node)
    (new_tag_name : string_type) : node × List node :=
  match ancestors with
  | [] => (current_node, [])
  | parent :: rest =>
    if autoclose_prev_sibling new_tag_name current_node.name then
      find_parent_walk new_tag_name (parent.append_child current_node) rest
    else (current_node, parent :: rest)

/-- The statement `if (last_element_void) { current_node_ = current_node_->parent();
last_element_void = false; }` that opens `on_tag_start` and `on_pcdata`; `none` when
the parent is null. -/
def leave_void_element (st : parse_state) : Option parse_state :=
  if st.last_element_void then
    (to_parent st).map (fun st1 => { st1 with last_element_void := false })
  else some st

/-- The lambda `on_tag_start`. -/
def on_tag_start (tag_name : string_type) (st : parse_state) : outcome :=
  match leave_void_element st with
  | none => .fail .null_deref st
  | some st1 =>
    let node := (node.create .node_element).set_name tag_name
    let new_tag_parent := find_parent_node_for_new_tag st1.current_node_ st1.ancestors tag_name
    .ok { st1 with current_node_ := node,
                   ancestors := new_tag_parent.1 :: new_tag_parent.2 }

/-- The loop `while (autoclose_last_child(current_node_->name())) current_node_ =
current_node_->parent();` of `on_closing_tag`; `none` when it steps to a null parent. -/
def autoclose_walk : node → List node → Option (node × List node)
  | current, [] => if autoclose_last_child current.name then none else some (current, [])
  | current, parent :: rest =>
    if autoclose_last_child current.name then
      autoclose_walk (parent.append_child current) rest
    else some (current, parent :: rest)

/-- The first `if` statement of `on_closing_tag` (lines 410-423): the auto-close of the
open elements; `none` when it steps to a null parent. -/
def autoclose_on_closing_tag (tag_name : string_type) (st : parse_state) :
    Option parse_state :=
  if tag_name ≠ st.current_node_.name
      ∧ (autoclose_last_child st.current_node_.name = true ∨ st.last_element_void = true) then
    if st.last_element_void then
      (to_parent st).map (fun st1 => { st1 with last_element_void := false })
    else
      (autoclose_walk st.current_node_ st.ancestors).map
        (fun r => { st with current_node_ := r.1, ancestors := r.2,
                            last_element_void := false })
  else some st

/-- The lambda `on_closing_tag`. -/
def on_closing_tag (str_html : string_type) (tag_name : string_type) (st : parse_state) :
    outcome :=
  match autoclose_on_closing_tag tag_name st with
  | none => .fail .null_deref st
  | some st1 =>
    let expected_name := st1.current_node_.name
    if expected_name ≠ tag_name then
      let err_msg := ascii "Expected: '" ++ expected_name ++ ascii "', found: '"
        ++ tag_name ++ ascii "'"
      .fail (.thrown (.at_pos .status_end_element_mismatch str_html
        (offset str_html st1.s) err_msg)) st1
    else
      match to_parent st1 with
      | some st2 => .ok { st2 with last_element_void := false }
      | none => .ok st1

/-- The lambda `on_pcdata`. -/
def on_pcdata (pcdata : string_type) (st : parse_state) : outcome :=
  match leave_void_element st with
  | none => .fail .null_deref st
  | some st1 =>
    let node := (node.create .node_cdata).set_value pcdata
    .ok { st1 with current_node_ := st1.current_node_.append_child node }

/-- The lambda `on_attribute`. -/
def on_attribute (attr_name attr_val : string_type) (st : parse_state) : outcome :=
  .ok { st with current_node_ := st.current_node_.append_attribute ⟨attr_name, attr_val⟩ }

/-- The lambda `on_script`. -/
def on_script (script_value : string_type) (st : parse_state) : outcome :=
  let node := (node.create .node_cdata).set_value script_value
  .ok { st with current_node_ := st.current_node_.append_child node }

/-- The lambda `parse_pcdata`. -/
def parse_pcdata (st : parse_state) : outcome :=
  let pcdata_start := st.s
  let s := SCANWHILE (fun c => !is_chartype c ct_parse_pcdata) st.s
  let pcdata_len := ptr_sub s pcdata_start - 1 + 1
  let pcdata := mk_string pcdata_start pcdata_len
  on_pcdata pcdata { st with s := s }

/-- The loop of `parse_script`: it yields the cursor and the difference
`script_value_end - script_value_start`; `script_value_end` is set to `s - 1` at the
`break` and otherwise stays at `script_value_start`. -/
def parse_script_loop (script_value_start : List Nat) : List Nat → List Nat × Int
  | [] => ([], 0)
  | c :: s =>
    if c = 0 then (c :: s, 0)
    else if (c :: s).take 9 = ascii "</script>" then
      (c :: s, ptr_sub (c :: s) script_value_start - 1)
    else parse_script_loop script_value_start s

/-- The lambda `parse_script`; `strncmp(s, "</script>", 9) == 0` holds when the nine
bytes at `s` are the literal. -/
def parse_script (st : parse_state) : outcome :=
  let script_value_start := st.s
  let r := parse_script_loop script_value_start st.s
  let script_value_len := r.2 + 1
  let script_value := mk_string script_value_start script_value_len
  on_script script_value { st with s := r.1 }

/-- The lambda `on_attribute_name_state`. -/
def on_attribute_name_state (str_html : string_type) (st : parse_state) : outcome :=
  let attr_name_start := st.s
  let s := SCANWHILE (fun c => is_chartype c ct_symbol) st.s
  if peek s 0 = 0 then
    .fail (.thrown (.at_pos .status_bad_attribute str_html (offset str_html s) []))
      { st with s := s }
  else
    let attr_name_len := ptr_sub s attr_name_start - 1 + 1
    let attr_name := str_toupper (mk_string attr_name_start attr_name_len)
    let s := skip_white_spaces s
    if peek s 0 = 0 then
      .fail (.thrown (.at_pos .status_bad_attribute str_html (offset str_html s) []))
        { st with s := s }
    else if peek s 0 = 61 then
      let s := s.drop 1
      let s := skip_white_spaces s
      if peek s 0 = 34 ∨ peek s 0 = 39 then
        let quote_symbol := peek s 0
        let s := s.drop 1
        let attr_val_start := s
        let s := SCANWHILE (fun c => c != 0 && c != quote_symbol) s
        if peek s 0 ≠ quote_symbol then
          .fail (.thrown (.at_pos .status_bad_attribute str_html (offset str_html s)
            (ascii "Bad attribute value closing symbol."))) { st with s := s }
        else
          let attr_val_len := ptr_sub s attr_val_start - 1 + 1
          let attr_val := mk_string attr_val_start attr_val_len
          let s := s.drop 1
          on_attribute attr_name attr_val { st with s := s }
      else
        let attr_val_start := s
        let s := SCANWHILE (fun c => !is_chartype c ct_parse_attr) s
        let attr_val_len := ptr_sub s attr_val_start - 1 + 1
        let attr_val := mk_string attr_val_start attr_val_len
        let s := skip_white_spaces s
        on_attribute attr_name attr_val { st with s := s }
    else
      let s := skip_white_spaces s
      if peek s 0 = 0 then
        .fail (.thrown (.at_pos .status_bad_attribute str_html (offset str_html s) []))
          { st with s := s }
      else on_attribute attr_name [] { st with s := s }

/-- The lambda `on_self_closing_start_tag_state`. -/
def on_self_closing_start_tag_state (str_html : string_type) (st : parse_state) : outcome :=
  let s := st.s.drop 1
  if peek s 0 ≠ 62 then
    .fail (.thrown (.at_pos .status_bad_start_element str_html (offset str_html s) []))
      { st with s := s }
  else .ok { st with s := s, last_element_void := true }

/-- The `while (true)` loop of `on_tag_open_state` that reads the attributes of a start
tag; it ends at its `break`, before the `++s` that follows the loop. -/
def attribute_loop (str_html : string_type) : Nat → parse_state → outcome
  | 0, st => .fail .out_of_fuel st
  | fuel + 1, st =>
    let st := { st with s := skip_white_spaces st.s }
    if is_chartype (peek st.s 0) ct_start_symbol then
      (on_attribute_name_state str_html st).and_then (attribute_loop str_html fuel)
    else if peek st.s 0 = 47 then on_self_closing_start_tag_state str_html st
    else if peek st.s 0 = 62 then
      .ok { st with last_element_void := is_void_element st.current_node_.name }
    else
      .fail (.thrown (.at_pos .status_bad_start_element str_html
        (offset str_html st.s) [])) st

/-- The lambda `on_tag_open_state`, entered with the cursor at `<`. -/
def on_tag_open_state (options_ : parse_options) (str_html : string_type)
    (st : parse_state) : outcome :=
  let s := st.s.drop 1
  if is_chartype (peek s 0) ct_start_symbol then
    let tag_name_start := s
    let s := SCANWHILE (fun c => is_chartype c ct_symbol) s
    let tag_name_len := ptr_sub s tag_name_start - 1 + 1
    let tag_name := str_toupper (mk_string tag_name_start tag_name_len)
    (on_tag_start tag_name { st with s := s }).and_then fun st =>
    let after : outcome :=
      if peek st.s 0 = 62 then
        .ok { st with last_element_void := is_void_element st.current_node_.name }
      else if is_chartype (peek st.s 0) ct_space then
        attribute_loop str_html (st.s.length + 1) st
      else if peek st.s 0 = 47 then on_self_closing_start_tag_state str_html st
      else
        .fail (.thrown (.at_pos .status_bad_start_element str_html
          (offset str_html st.s) [])) st
    after.and_then fun st => .ok { st with s := st.s.drop 1 }
  else if peek s 0 = 47 then
    let s := s.drop 1
    let tag_name_start := s
    let s := SCANWHILE (fun c => is_chartype c ct_symbol) s
    let tag_name_len := ptr_sub s tag_name_start - 1 + 1
    let tag_name := str_toupper (mk_string tag_name_start tag_name_len)
    (on_closing_tag str_html tag_name { st with s := s }).and_then fun st =>
    let s := skip_white_spaces st.s
    if peek s 0 ≠ 62 then
      .fail (.thrown (.of_status .status_bad_end_element)) { st with s := s }
    else .ok { st with s := s.drop 1 }
  else if peek s 0 = 33 then
    match parse_exclamation options_ st.current_node_ st.s default_endch with
    | .ok r => .ok { st with s := r.1, current_node_ := r.2 }
    | .error f => .fail f { st with s := s }
  else
    .fail (.thrown (.at_pos .status_unrecognized_tag str_html (offset str_html s) []))
      { st with s := s }

/-- The body of the loop `while (*s != 0)` of `parser::parse`. -/
def parse_step (options_ : parse_options) (str_html : string_type) (st : parse_state) :
    outcome :=
  if peek st.s 0 = 60 then on_tag_open_state options_ str_html st
  else if st.current_node_.name = ascii "SCRIPT" then parse_script st
  else parse_pcdata st

/-- The loop `while (*s != 0)` of `parser::parse`, one unit of fuel per iteration. -/
def parse_loop (options_ : parse_options) (str_html : string_type) :
    Nat → parse_state → outcome
  | 0, st => .fail .out_of_fuel st
  | fuel + 1, st =>
    if peek st.s 0 = 0 then .ok st
    else (parse_step options_ str_html st).and_then (parse_loop options_ str_html fuel)

/-- The state in which a fresh parser enters the loop: the cursor at `str_html.c_str()`,
`current_node_ = document_`, `last_element_void = false`. -/
def initial_state (str_html : string_type) : parse_state :=
  { s := str_html, current_node_ := document.create, ancestors := [],
    last_element_void := false }

/-- The function `parser::parse` on a fresh parser, as the state it ends in.  Every
iteration of the loop that goes on moves the cursor forward, so `size + 1` iterations
are enough. -/
def parse_run (options_ : parse_options) (str_html : string_type) : outcome :=
  if str_html.length = 0 then .ok (initial_state str_html)
  else parse_loop options_ str_html (str_html.length + 1) (initial_state str_html)

/-- What `parser::parse` gives its caller: the `document_` it returns, or the fault it
ends with together with the `document_` that `get_document()` still yields. -/
inductive parse_result
  | returned (document : node)
  | failed (f : fault) (document : node)
deriving Repr

/-- The function `parser::parse` on a fresh parser. -/
def parse (options_ : parse_options) (str_html : string_type) : parse_result :=
  match parse_run options_ str_html with
  | .ok st => .returned (get_document st)
  | .fail f st => .failed f (get_document st)

/-! ## Inputs and trees that the statements below speak about -/

/-- The text `"<li>" + t_1 + ... + "<li>" + t_n`. -/
def li_items : List string_type → List Nat
  | [] => []
  | t :: ts => ascii "<li>" ++ t ++ li_items ts

/-- A node of kind `node_cdata` with the given value: what `on_pcdata` and `on_script`
append. -/
def text_node (t : string_type) : node := .mk .node_cdata [] t [] []

/-- An element without attributes. -/
def element_node (name : string_type) (children : List node) : node :=
  .mk .node_element name [] [] children

/-- A document with the given children. -/
def document_node (children : List node) : node :=
  .mk .node_document [] [] [] children

/-- A node of kind `node_comment` with the given value. -/
def comment_node (c : string_type) : node := .mk .node_comment [] c [] []

/-- A node of kind `node_doctype` with the given value. -/
def doctype_node (c : string_type) : node := .mk .node_doctype [] c [] []

/-- The state right after the start tag of a void element named `name` was read while
`E` was the current node, its parents being `ancestors`: the void element is the current
node, still without a child, `E` is its parent, `last_element_void` is set. -/
def after_void_element (name : string_type) (E : node) (ancestors : List node)
    (s : List Nat) : parse_state :=
  { s := s, current_node_ := element_node name [], ancestors := E :: ancestors,
    last_element_void := true }

/-! ## The message of a `parse_error` -/

/-- The function `parser::status_description`, on the statuses that `parse` raises. -/
def status_description : parse_status → string_type
  | .status_unrecognized_tag => ascii "Could not determine tag type."
  | .status_bad_comment => ascii "Error parsing comment."
  | .status_bad_cdata => ascii "Error parsing CDATA section."
  | .status_bad_doctype => ascii "Error parsing document type declaration."
  | .status_bad_start_element => ascii "Error parsing start element tag."
  | .status_bad_attribute => ascii "Error parsing element attribute."
  | .status_bad_end_element => ascii "Error parsing end element tag."
  | .status_end_element_mismatch => ascii "Start-end tags mismatch."

/-- What `operator<<` writes for a `size_t`: its decimal digits. -/
def decimal (n : Nat) : string_type := (Nat.toDigits 10 n).map Char.toNat

/-- The loop of `std::find_if(start, pos, ...)` in the lambda `find_newline`, on offsets
into `html`: the first offset from `start` on that holds `\n`, or `pos` when there is
none before `pos`.  The fuel is the distance `pos - start`. -/
def find_if_newline (html : string_type) (pos : Nat) : Nat → Nat → Nat
  | 0, _ => pos
  | fuel + 1, start =>
    if start = pos then pos
    else if peek html start = 10 then start
    else find_if_newline html pos fuel (start + 1)

/-- The lambda `find_newline` of `format_error_msg`. -/
def find_newline (html : string_type) (pos : Nat) (start : Nat) : Nat :=
  find_if_newline html pos (pos - start) start

/-- The loop `while (it < pos)` of `format_error_msg`; it yields `last_newline` and
`line_nr`. -/
def newline_loop (html : string_type) (pos : Nat) : Nat → Nat → Nat → Nat → Nat × Nat
  | 0, _, last_newline, line_nr => (last_newline, line_nr)
  | fuel + 1, it, last_newline, line_nr =>
    if it < pos then
      newline_loop html pos fuel (find_newline html pos (it + 1)) it (line_nr + 1)
    else (last_newline, line_nr)

/-- The function `parse_error::format_error_msg`, `pos` being the offset of the pointer
`pos` from `html.c_str()`.  The loop runs at most once per byte before `pos`. -/
def format_error_msg (status : parse_status) (html : string_type) (pos : Nat)
    (err_msg : string_type) : string_type :=
  let r := newline_loop html pos (pos + 1) (find_newline html pos 0) 0 0
  let line_nr := r.2
  let row_nr := pos - r.1
  let chars_to_print := if html.length - pos ≥ 20 then 20 else html.length - pos
  status_description status ++ ascii " Line: " ++ decimal line_nr ++ ascii ", column: "
    ++ decimal row_nr ++ ascii ": '" ++ (html.drop pos).take chars_to_print
    ++ ascii "...'. " ++ err_msg

/-- The C string at `str.c_str()`: the bytes of `str` before its first NUL byte. -/
def c_str (str : string_type) : string_type := str.takeWhile (fun c => c != 0)

/-- The message `what()` of a `parse_error`: the C string of the `std::string` that its
constructor hands to `std::runtime_error`.  It ends at the first NUL byte that
`format_error_msg` copied from the input. -/
def parse_error.what : parse_error → string_type
  | .of_status status => c_str (status_description status)
  | .at_pos status str_html parse_pos err_msg =>
    c_str (format_error_msg status str_html parse_pos err_msg)

/-- The offsets below `p` at which `h` holds the byte `\n`, in increasing order. -/
def newline_offsets (h : string_type) (p : Nat) : List Nat :=
  (List.range p).filter (fun i => peek h i = 10)

/-- The line of the position `p`, in the words of the specification: the number of `\n`
bytes of `h` at indices strictly less than `p`. -/
def line_of (h : string_type) (p : Nat) : Nat := (newline_offsets h p).length

/-- The column of the position `p`, in the words of the specification: `p` minus the
index of the last `\n` before `p`, and `p` itself when there is none. -/
def column_of (h : string_type) (p : Nat) : Nat :=
  match (newline_offsets h p).getLast? with
  | some i => p - i
  | none => p

/-! ## What holds in every state of a parse -/

mutual
/-- The names found in a tree: the name of every element and the name of every attribute,
of the node and of all its descendants. -/
def node.names : node → List string_type
  | .mk t n _ a c =>
    (if t = .node_element then [n] else []) ++ (a.map (fun x => x.name) ++ names_of_children c)
/-- The names found in a sequence of trees. -/
def names_of_children : List node → List string_type
  | [] => []
  | x :: xs => x.names ++ names_of_children xs
end

/-- A name that is the ASCII-uppercased form of a run of bytes written in `html`. -/
def uppercase_of_input (html n : string_type) : Prop :=
  ∃ w : List Nat, w <:+: html ∧ n = str_toupper w

/-- The cursor `s1` is `s` moved forward over bytes none of which is NUL: it never went
past a NUL byte of the buffer. -/
def advanced (s s1 : List Nat) : Prop := ∃ pre : List Nat, s = pre ++ s1 ∧ 0 ∉ pre

/-- The chain from `current_node_` up: its last node is the document (kind
`node_document`, empty name), every other node is an element. -/
def chain_ok : node → List node → Prop
  | current, [] => current.type = .node_document ∧ current.name = []
  | current, parent :: rest => current.type = .node_element ∧ chain_ok parent rest

/-- What holds of the state whenever the loop of `parse` is entered on the buffer
`html`: the cursor has passed no NUL, the chain of open nodes hangs from the document,
the flag `last_element_void` is set only on a node that has a parent, and every name in
the tree is the uppercase form of bytes of the input. -/
structure state_ok (html : string_type) (st : parse_state) : Prop where
  cursor : advanced html st.s
  chain : chain_ok st.current_node_ st.ancestors
  void : st.last_element_void = true → st.ancestors ≠ []
  names : ∀ n : string_type,
    n ∈ st.current_node_.names ∨ (∃ a ∈ st.ancestors, n ∈ a.names) → uppercase_of_input html n

/-- What holds of a fault of `parse` on `html`, in the state `st` where it arose: it is a
`parse_error`; one built with the position carries `html`, the offset of the cursor and
one of four statuses; one built by `THROW_ERROR` carries one of five statuses. -/
def fault_ok (html : string_type) (st : parse_state) : fault → Prop
  | .thrown (.at_pos status h p _) =>
    h = html ∧ p = offset html st.s
      ∧ (status = .status_unrecognized_tag ∨ status = .status_bad_start_element
          ∨ status = .status_bad_attribute ∨ status = .status_end_element_mismatch)
  | .thrown (.of_status status) =>
    status = .status_unrecognized_tag ∨ status = .status_bad_comment
      ∨ status = .status_bad_cdata ∨ status = .status_bad_doctype
      ∨ status = .status_bad_end_element
  | .null_deref => False
  | .out_of_fuel => False

/-- What holds of the outcome of a piece of `parse` entered with the cursor at or before
`s0`: either a state that is fine, its cursor moved forward from `s0`, or a fault that
is fine in a state that is fine. -/
def outcome_ok (html : string_type) (s0 : List Nat) : outcome → Prop
  | .ok st => state_ok html st ∧ advanced s0 st.s
  | .fail f st => state_ok html st ∧ fault_ok html st f

/-- What holds of the result of a scanner started at `s`: a cursor moved forward over
bytes that are not NUL, strictly when `strict` is set, or the fault `status`. -/
def scan_ok (s : List Nat) (strict : Prop) (status : parse_status) :
    Except fault (List Nat) → Prop
  | .ok s1 => advanced s s1 ∧ (strict → s1.length < s.length)
  | .error f => f = .thrown (.of_status status)

/-! ## The same parse in a buffer that goes on after the terminating NUL -/

/-- The state `st` with its cursor in a buffer that holds the bytes `junk` after the
terminating NUL. -/
def parse_state.beyond (junk : List Nat) (st : parse_state) : parse_state :=
  { st with s := st.s ++ 0 :: junk }

/-- The `parse_error` raised on a buffer that holds the bytes `junk` after the
terminating NUL: the input it carries, if any, is that buffer. -/
def parse_error.beyond (junk : List Nat) : parse_error → parse_error
  | .of_status status => .of_status status
  | .at_pos status str_html parse_pos err_msg =>
    .at_pos status (str_html ++ 0 :: junk) parse_pos err_msg

/-- A fault on a buffer that holds the bytes `junk` after the terminating NUL. -/
def fault.beyond (junk : List Nat) : fault → fault
  | .thrown e => .thrown (e.beyond junk)
  | .null_deref => .null_deref
  | .out_of_fuel => .out_of_fuel

/-- An outcome on a buffer that holds the bytes `junk` after the terminating NUL. -/
def outcome.beyond (junk : List Nat) : outcome → outcome
  | .ok st => .ok (st.beyond junk)
  | .fail f st => .fail (f.beyond junk) (st.beyond junk)

/-- The result of a scanner on a buffer that holds the bytes `junk` after the
terminating NUL. -/
def scan_beyond (junk : List Nat) : Except fault (List Nat) → Except fault (List Nat)
  | .ok s => .ok (s ++ 0 :: junk)
  | .error f => .error f

/-! ## The states of the loop of `parse` -/

/-- The states in which the loop `while (*s != 0)` of `parse` is entered on `str_html`:
the initial one, and the one that each iteration that raises no failure leaves. -/
inductive reachable (options_ : parse_options) (str_html : string_type) :
    parse_state → Prop
  | start : reachable options_ str_html (initial_state str_html)
  | step (st st1 : parse_state) : reachable options_ str_html st → peek st.s 0 ≠ 0 →
      parse_step options_ str_html st = .ok st1 → reachable options_ str_html st1

/-- The current node is an element that has a parent and in which no element was opened
yet: it holds at most comments, character data and doctype nodes. -/
def just_created (st : parse_state) : Prop :=
  st.current_node_.type = .node_element ∧ st.ancestors ≠ []
    ∧ ∀ c ∈ st.current_node_.children, c.type ≠ .node_element

/-- What holds of the detail `err_msg` of a fault of `parse` raised with the position, in
the state `st` where it arose: a mismatch names the current node and the closing tag,
a bad attribute has no detail or the one on the closing quote, the other statuses have
none. -/
def detail_ok (st : parse_state) : fault → Prop
  | .thrown (.at_pos status _ _ err_msg) =>
    (status = .status_end_element_mismatch
      ∧ ∃ tag_name : string_type, 0 ∉ tag_name
        ∧ err_msg = ascii "Expected: '" ++ st.current_node_.name ++ ascii "', found: '"
            ++ tag_name ++ ascii "'")
    ∨ (status = .status_bad_attribute
      ∧ (err_msg = [] ∨ err_msg = ascii "Bad attribute value closing symbol."))
    ∨ ((status = .status_unrecognized_tag ∨ status = .status_bad_start_element)
      ∧ err_msg = [])
  | _ => True

/-! ## Inputs in which every element is closed -/

/-- The node `n` after `append_child` was called on it with each of `cs`, in order. -/
def node.append_children (n : node) (cs : List node) : node := cs.foldl node.append_child n

/-- The content of an element named `parent_name` (of the document when `parent_name` is
empty) in which every element is closed: `well_nested parent_name c trees` says that
the bytes `c` are a sequence of text runs, of elements `<n>...</m>` with their own
closing tag (`m` being `n` up to letter case) around such a content, and of void
elements `<v>`, and that `trees` are the nodes this markup stands for.  A text run is
not empty, holds neither `<` nor NUL and ends at a `<` or at the end of the content; an
element name is not void, not `SCRIPT`, and does not close its parent by the sibling
rule; a void element is not the last thing of the content of the document, where
nothing would follow it. -/
inductive well_nested : string_type → List Nat → List node → Prop
  | nil (parent_name : string_type) : well_nested parent_name [] []
  | text (parent_name : string_type) (t rest : List Nat) (trees : List node) :
      t ≠ [] → (∀ c ∈ t, c ≠ 0 ∧ c ≠ 60) → (rest = [] ∨ rest.head? = some 60) →
      well_nested parent_name rest trees →
      well_nested parent_name (t ++ rest) (text_node t :: trees)
  | element (parent_name : string_type) (a : Nat) (nm m body rest : List Nat)
      (children trees : List node) :
      is_chartype a ct_start_symbol = true →
      (∀ c ∈ a :: nm, is_chartype c ct_symbol = true) →
      (∀ c ∈ m, is_chartype c ct_symbol = true) →
      str_toupper m = str_toupper (a :: nm) →
      is_void_element (str_toupper (a :: nm)) = false →
      str_toupper (a :: nm) ≠ ascii "SCRIPT" →
      autoclose_prev_sibling (str_toupper (a :: nm)) parent_name = false →
      well_nested (str_toupper (a :: nm)) body children →
      well_nested parent_name rest trees →
      well_nested parent_name
        (ascii "<" ++ (a :: nm) ++ ascii ">" ++ body ++ ascii "</" ++ m ++ ascii ">" ++ rest)
        (element_node (str_toupper (a :: nm)) children :: trees)
  | void (parent_name : string_type) (v rest : List Nat) (trees : List node) :
      is_void_element (str_toupper v) = true → (rest ≠ [] ∨ parent_name ≠ []) →
      well_nested parent_name rest trees →
      well_nested parent_name (ascii "<" ++ v ++ ascii ">" ++ rest)
        (element_node (str_toupper v) [] :: trees)

/-- The loop of `parse` on `str_html` goes from the state `st` to the state `st1` in some
number of iterations, none of which raises a failure. -/
inductive runs (options_ : parse_options) (str_html : string_type) :
    parse_state → parse_state → Prop
  | refl (st : parse_state) : runs options_ str_html st st
  | step (st st1 st2 : parse_state) : peek st.s 0 ≠ 0 →
      parse_step options_ str_html st = .ok st1 → runs options_ str_html st1 st2 →
      runs options_ str_html st st2

/-- The state `st` has its cursor at `s` and stands at the node `E`, whose parents are
`ancestors`: either `E` is the current node and the flag `last_element_void` is unset,
or the current node is a void element just opened in `E`, still without a child, and
the flag is set. -/
def stands_at (st : parse_state) (E : node) (ancestors : List node) (s : List Nat) : Prop :=
  st = { s := s, current_node_ := E, ancestors := ancestors, last_element_void := false }
  ∨ ∃ (V : string_type) (E0 : node), is_void_element V = true
      ∧ E = E0.append_child (element_node V [])
      ∧ st = after_void_element V E0 ancestors s

end cpphtml

/-! # Lemmas and theorems -/

namespace cpphtml

/-! ## Character classes -/

set_option maxRecDepth 100000 in
theorem chartype_table_length : chartype_table.length = 256 := by decide

theorem is_chartype_of_ge (c ct : Nat) (h : 256 ≤ c) : is_chartype c ct = false := by
  unfold is_chartype
  rw [List.getD_eq_default _ _ (by rw [chartype_table_length]; exact h)]
  simp

set_option maxRecDepth 100000 in
theorem pcdata_lt : ∀ c < 256, c ≠ 0 → c ≠ 60 → is_chartype c ct_parse_pcdata = false := by
  decide

theorem is_chartype_pcdata (c : Nat) (h0 : c ≠ 0) (h1 : c ≠ 60) :
    is_chartype c ct_parse_pcdata = false := by
  by_cases h : c < 256
  · exact pcdata_lt c h h0 h1
  · exact is_chartype_of_ge c _ (by omega)

set_option maxRecDepth 100000 in
theorem space_lt : ∀ c < 256, is_chartype c ct_space = true →
    c = 9 ∨ c = 10 ∨ c = 13 ∨ c = 32 := by
  decide

theorem is_chartype_space (c : Nat) (h : is_chartype c ct_space = true) :
    c = 9 ∨ c = 10 ∨ c = 13 ∨ c = 32 := by
  by_cases hc : c < 256
  · exact space_lt c hc h
  · rw [is_chartype_of_ge c _ (by omega)] at h; cases h

/-! ## Scanning loops and pointer arithmetic -/

theorem peek_cons_zero (c : Nat) (s : List Nat) : peek (c :: s) 0 = c := by simp [peek]

theorem peek_cons_succ (c : Nat) (s : List Nat) (i : Nat) :
    peek (c :: s) (i + 1) = peek s i := by simp [peek]

theorem SCANWHILE_append (p : Nat → Bool) (a s : List Nat) (ha : ∀ c ∈ a, p c = true)
    (hs : SCANWHILE p s = s) : SCANWHILE p (a ++ s) = s := by
  induction a with
  | nil => simpa using hs
  | cons c a ih =>
    have hc : p c = true := ha c (by simp)
    simp only [List.cons_append, SCANWHILE, hc, if_true]
    exact ih (fun d hd => ha d (by simp [hd]))

theorem SCANWHILE_stop (p : Nat → Bool) (c : Nat) (s : List Nat) (hc : p c = false) :
    SCANWHILE p (c :: s) = c :: s := by
  simp [SCANWHILE, hc]

theorem skip_white_spaces_append (a s : List Nat) (ha : ∀ c ∈ a, is_chartype c ct_space = true)
    (hs : skip_white_spaces s = s) : skip_white_spaces (a ++ s) = s := by
  induction a with
  | nil => simpa using hs
  | cons c a ih =>
    have hc : is_chartype c ct_space = true := ha c (by simp)
    simp only [List.cons_append, skip_white_spaces, hc, if_true]
    exact ih (fun d hd => ha d (by simp [hd]))

theorem skip_white_spaces_stop (c : Nat) (s : List Nat) (hc : is_chartype c ct_space = false) :
    skip_white_spaces (c :: s) = c :: s := by
  simp [skip_white_spaces, hc]

theorem mk_string_scan (a s : List Nat) :
    mk_string (a ++ s) (ptr_sub s (a ++ s) - 1 + 1) = a := by
  unfold mk_string ptr_sub
  have : ((((a ++ s).length : Nat) : Int) - (s.length : Int) - 1 + 1).toNat = a.length := by
    simp [List.length_append]
  rw [this]
  simp

/-! ## One tag at a time -/

theorem to_parent_s (st st1 : parse_state) (h : to_parent st = some st1) : st1.s = st.s := by
  unfold to_parent at h
  cases ha : st.ancestors with
  | nil => simp [ha] at h
  | cons p r => simp [ha] at h; rw [← h]

theorem leave_void_element_s (st st1 : parse_state) (h : leave_void_element st = some st1) :
    st1.s = st.s := by
  unfold leave_void_element at h
  split at h
  · cases htp : to_parent st with
    | none => simp [htp] at h
    | some st3 => simp [htp] at h; rw [← h]; exact to_parent_s st st3 htp
  · simp at h; rw [h]

theorem on_tag_start_s (tn : string_type) (st st1 : parse_state)
    (h : on_tag_start tn st = .ok st1) : st1.s = st.s := by
  unfold on_tag_start at h
  cases hl : leave_void_element st with
  | none => simp [hl] at h
  | some st2 => simp [hl] at h; rw [← h]; exact leave_void_element_s st st2 hl

theorem on_tag_open_state_start (o : parse_options) (h : string_type) (a : Nat)
    (nm rest : List Nat) (st : parse_state)
    (ha : is_chartype a ct_start_symbol = true)
    (hnm : ∀ c ∈ a :: nm, is_chartype c ct_symbol = true)
    (hs : st.s = 60 :: a :: (nm ++ 62 :: rest)) :
    on_tag_open_state o h st =
      (on_tag_start (str_toupper (a :: nm)) { st with s := 62 :: rest }).and_then
        (fun st1 => .ok { st1 with
          s := rest, last_element_void := is_void_element st1.current_node_.name }) := by
  have h62 : is_chartype 62 ct_symbol = false := by decide
  have hscan : SCANWHILE (fun c => is_chartype c ct_symbol) (a :: nm ++ 62 :: rest)
      = 62 :: rest :=
    SCANWHILE_append _ (a :: nm) (62 :: rest) hnm (SCANWHILE_stop _ 62 rest h62)
  have hstr : mk_string (a :: nm ++ 62 :: rest)
      (ptr_sub (62 :: rest) (a :: nm ++ 62 :: rest) - 1 + 1) = a :: nm :=
    mk_string_scan (a :: nm) (62 :: rest)
  unfold on_tag_open_state
  simp only [hs, List.drop_succ_cons, List.drop_zero, peek_cons_zero, ha, if_true]
  rw [← List.cons_append, hscan, hstr]
  cases hst : on_tag_start (str_toupper (a :: nm)) { st with s := 62 :: rest } with
  | fail f st1 => simp [outcome.and_then]
  | ok st1 =>
    have h1 : st1.s = 62 :: rest := on_tag_start_s _ _ _ hst
    simp [outcome.and_then, h1, peek_cons_zero]

theorem autoclose_on_closing_tag_s (tn : string_type) (st st1 : parse_state)
    (h : autoclose_on_closing_tag tn st = some st1) : st1.s = st.s := by
  unfold autoclose_on_closing_tag at h
  split at h
  · split at h
    · cases htp : to_parent st with
      | none => simp [htp] at h
      | some st3 => simp [htp] at h; rw [← h]; exact to_parent_s st st3 htp
    · cases hw : autoclose_walk st.current_node_ st.ancestors with
      | none => simp [hw] at h
      | some r => simp [hw] at h; rw [← h]
  · simp at h; rw [h]

theorem on_closing_tag_s (h : string_type) (tn : string_type) (st st1 : parse_state)
    (hr : on_closing_tag h tn st = .ok st1) : st1.s = st.s := by
  unfold on_closing_tag at hr
  cases ha : autoclose_on_closing_tag tn st with
  | none => simp [ha] at hr
  | some st2 =>
    have h2 := autoclose_on_closing_tag_s _ _ _ ha
    simp only [ha] at hr
    split at hr
    · cases hr
    · cases htp : to_parent st2 with
      | none => simp [htp] at hr; rw [← hr, h2]
      | some st3 => simp [htp] at hr; rw [← hr]; simp; rw [to_parent_s _ _ htp, h2]

theorem on_tag_open_state_close (o : parse_options) (h : string_type)
    (nm rest : List Nat) (st : parse_state)
    (hnm : ∀ c ∈ nm, is_chartype c ct_symbol = true)
    (hs : st.s = 60 :: 47 :: (nm ++ 62 :: rest)) :
    on_tag_open_state o h st =
      (on_closing_tag h (str_toupper nm) { st with s := 62 :: rest }).and_then
        (fun st1 => .ok { st1 with s := rest }) := by
  have h62 : is_chartype 62 ct_symbol = false := by decide
  have h62s : is_chartype 62 ct_space = false := by decide
  have h47 : is_chartype 47 ct_start_symbol = false := by decide
  have hscan : SCANWHILE (fun c => is_chartype c ct_symbol) (nm ++ 62 :: rest)
      = 62 :: rest :=
    SCANWHILE_append _ nm (62 :: rest) hnm (SCANWHILE_stop _ 62 rest h62)
  have hstr : mk_string (nm ++ 62 :: rest)
      (ptr_sub (62 :: rest) (nm ++ 62 :: rest) - 1 + 1) = nm :=
    mk_string_scan nm (62 :: rest)
  unfold on_tag_open_state
  simp only [hs, List.drop_succ_cons, List.drop_zero, peek_cons_zero, h47, if_true]
  rw [hscan, hstr]
  cases hst : on_closing_tag h (str_toupper nm) { st with s := 62 :: rest } with
  | fail f st1 => simp [outcome.and_then]
  | ok st1 =>
    have h1 : st1.s = 62 :: rest := on_closing_tag_s _ _ _ _ hst
    simp [outcome.and_then, h1, peek_cons_zero, skip_white_spaces_stop _ _ h62s]

/-! ## The main loop -/

theorem parse_loop_done (o : parse_options) (h : string_type) (f : Nat) (st : parse_state)
    (h0 : peek st.s 0 = 0) : parse_loop o h (f + 1) st = .ok st := by
  simp [parse_loop, h0]

theorem parse_loop_step (o : parse_options) (h : string_type) (f : Nat) (st st1 : parse_state)
    (hne : peek st.s 0 ≠ 0) (hstep : parse_step o h st = .ok st1) :
    parse_loop o h (f + 1) st = parse_loop o h f st1 := by
  simp [parse_loop, hne, hstep, outcome.and_then]

theorem parse_loop_fail (o : parse_options) (h : string_type) (f : Nat) (st st1 : parse_state)
    (e : fault) (hne : peek st.s 0 ≠ 0) (hstep : parse_step o h st = .fail e st1) :
    parse_loop o h (f + 1) st = .fail e st1 := by
  simp [parse_loop, hne, hstep, outcome.and_then]

theorem parse_pcdata_text (t rest : List Nat) (st : parse_state)
    (ht : ∀ c ∈ t, c ≠ 0 ∧ c ≠ 60)
    (hrest : SCANWHILE (fun c => !is_chartype c ct_parse_pcdata) rest = rest)
    (hs : st.s = t ++ rest) :
    parse_pcdata st = on_pcdata t { st with s := rest } := by
  unfold parse_pcdata
  have hscan : SCANWHILE (fun c => !is_chartype c ct_parse_pcdata) (t ++ rest) = rest :=
    SCANWHILE_append _ t rest
      (fun c hc => by simp [is_chartype_pcdata c (ht c hc).1 (ht c hc).2]) hrest
  simp only [hs, hscan, mk_string_scan]

theorem pcdata_stop_lt (rest : List Nat) :
    SCANWHILE (fun c => !is_chartype c ct_parse_pcdata) (60 :: rest) = 60 :: rest :=
  SCANWHILE_stop _ 60 rest (by decide)

/-! ## C1: list items closed by their sibling -/

theorem parse_step_text (o : parse_options) (h : string_type) (c : Nat) (t rest : List Nat)
    (cur : node) (anc : List node) (fl : Bool)
    (ht : ∀ d ∈ c :: t, d ≠ 0 ∧ d ≠ 60)
    (hrest : SCANWHILE (fun c => !is_chartype c ct_parse_pcdata) rest = rest)
    (hn : cur.name ≠ ascii "SCRIPT") :
    parse_step o h { s := c :: t ++ rest, current_node_ := cur, ancestors := anc,
                     last_element_void := fl }
      = on_pcdata (c :: t) { s := rest, current_node_ := cur, ancestors := anc,
                             last_element_void := fl } := by
  have hc := (ht c (by simp)).2
  unfold parse_step
  simp only [List.cons_append, peek_cons_zero, hc, if_false, hn]
  rw [parse_pcdata_text (c :: t) rest _ ht hrest rfl]

theorem ascii_li : ascii "<li>" = [60, 108, 105, 62] := rfl

theorem ascii_close_ul : ascii "</ul>" = [60, 47, 117, 108, 62] := rfl

theorem li_items_stop (ts : List string_type) :
    SCANWHILE (fun c => !is_chartype c ct_parse_pcdata) (li_items ts ++ ascii "</ul>")
      = li_items ts ++ ascii "</ul>" := by
  cases ts with
  | nil => exact pcdata_stop_lt _
  | cons t ts => exact pcdata_stop_lt _

/-- From an open `LI` under `UL`, the rest of the list is read up to `</ul>`. -/
theorem li_loop (o : parse_options) (h : string_type) :
    ∀ (ts : List string_type) (done : List node) (t : string_type) (f : Nat),
      (∀ t ∈ ts, t ≠ [] ∧ 60 ∉ t ∧ 0 ∉ t) →
      (li_items ts ++ ascii "</ul>").length + 1 ≤ f →
      parse_loop o h f
        { s := li_items ts ++ ascii "</ul>",
          current_node_ := element_node (ascii "LI") [text_node t],
          ancestors := [element_node (ascii "UL") done, document_node []],
          last_element_void := false }
      = .ok { s := [],
              current_node_ := document_node [element_node (ascii "UL")
                (done ++ element_node (ascii "LI") [text_node t]
                  :: ts.map (fun t => element_node (ascii "LI") [text_node t]))],
              ancestors := [], last_element_void := false } := by
  intro ts
  induction ts with
  | nil =>
    intro done t f _ hf
    obtain ⟨f, rfl⟩ : ∃ g, f = g + 2 :=
      ⟨f - 2, by simp [li_items, ascii_close_ul] at hf; omega⟩
    rw [parse_loop_step o h (f + 1) _
      { s := [], current_node_ := document_node [element_node (ascii "UL")
          (done ++ [element_node (ascii "LI") [text_node t]])],
        ancestors := [], last_element_void := false }
      (by simp [li_items, ascii_close_ul, peek])]
    · rw [parse_loop_done _ _ _ _ (by simp [peek])]; simp
    · unfold parse_step
      rw [if_pos (by rfl)]
      rw [on_tag_open_state_close o h [117, 108] [] _ (by decide) rfl]
      rfl
  | cons t1 ts ih =>
    intro done t f hts hf
    have ht1 := hts t1 (by simp)
    obtain ⟨c, t1, rfl⟩ : ∃ c t', t1 = c :: t' := by
      cases t1 with
      | nil => exact absurd rfl ht1.1
      | cons c t' => exact ⟨c, t', rfl⟩
    have hlen : (li_items ((c :: t1) :: ts) ++ ascii "</ul>").length
        = 5 + t1.length + (li_items ts ++ ascii "</ul>").length := by
      simp [li_items, ascii_li]; omega
    obtain ⟨f, rfl⟩ : ∃ g, f = g + 2 := ⟨f - 2, by omega⟩
    -- the start tag `<li>`
    rw [parse_loop_step o h (f + 1) _
      { s := c :: t1 ++ (li_items ts ++ ascii "</ul>"),
        current_node_ := element_node (ascii "LI") [],
        ancestors := [element_node (ascii "UL")
          (done ++ [element_node (ascii "LI") [text_node t]]), document_node []],
        last_element_void := false }
      (by simp [li_items, ascii_li, peek])]
    · -- the text
      rw [parse_loop_step o h f _
        { s := li_items ts ++ ascii "</ul>",
          current_node_ := element_node (ascii "LI") [text_node (c :: t1)],
          ancestors := [element_node (ascii "UL")
            (done ++ [element_node (ascii "LI") [text_node t]]), document_node []],
          last_element_void := false }]
      · rw [ih _ _ f (fun t ht => hts t (by simp [ht])) (by omega)]
        simp
      · have hc0 : c ≠ 0 := fun h0 => ht1.2.2 (by simp [h0])
        simpa [peek] using hc0
      · rw [parse_step_text o h c t1 _ _ _ _ _ (li_items_stop ts) (by decide)]
        · rfl
        · intro d hd
          exact ⟨fun h0 => ht1.2.2 (h0 ▸ hd), fun h0 => ht1.2.1 (h0 ▸ hd)⟩
    · unfold parse_step
      rw [if_pos (by rfl)]
      rw [on_tag_open_state_start o h 108 [105] (c :: t1 ++ (li_items ts ++ ascii "</ul>")) _
        (by decide) (by decide)
        (by simp [li_items, ascii_li])]
      rfl

/-- C1.  For every non-empty sequence of texts, each non-empty and free of `<` and NUL,
parsing `<ul><li>t_1...<li>t_n</ul>` returns a document whose only child is the element
`UL`, whose children are exactly the `n` elements `LI` in source order, the i-th one
holding exactly one child, of value `t_i`: no `LI` is nested in another. -/
theorem C1_sibling_autoclose_list_items (o : parse_options) (ts : List string_type)
    (hne : ts ≠ []) (hts : ∀ t ∈ ts, t ≠ [] ∧ 60 ∉ t ∧ 0 ∉ t) :
    parse o (ascii "<ul>" ++ li_items ts ++ ascii "</ul>")
      = .returned (document_node [element_node (ascii "UL")
          (ts.map (fun t => element_node (ascii "LI") [text_node t]))]) := by
  obtain ⟨t1, ts, rfl⟩ : ∃ t1 ts', ts = t1 :: ts' := by
    cases ts with
    | nil => exact absurd rfl hne
    | cons t1 ts' => exact ⟨t1, ts', rfl⟩
  have ht1 := hts t1 (by simp)
  obtain ⟨c, t1, rfl⟩ : ∃ c t', t1 = c :: t' := by
    cases t1 with
    | nil => exact absurd rfl ht1.1
    | cons c t' => exact ⟨c, t', rfl⟩
  generalize hh : ascii "<ul>" ++ li_items ((c :: t1) :: ts) ++ ascii "</ul>" = html
  have hhtml : html = 60 :: 117 :: ([108] ++ 62 :: (60 :: 108 :: ([105] ++ 62 ::
      (c :: t1 ++ (li_items ts ++ ascii "</ul>"))))) := by
    rw [← hh]; simp [li_items, ascii_li]; rfl
  have hlen : html.length = 9 + t1.length + (li_items ts ++ ascii "</ul>").length := by
    rw [hhtml]; simp; omega
  have hrun : parse_run o html = .ok
      { s := [],
        current_node_ := document_node [element_node (ascii "UL")
          (element_node (ascii "LI") [text_node (c :: t1)]
            :: ts.map (fun t => element_node (ascii "LI") [text_node t]))],
        ancestors := [], last_element_void := false } := by
    unfold parse_run
    rw [if_neg (by omega)]
    obtain ⟨f, hf⟩ : ∃ g, html.length + 1 = g + 3 := ⟨html.length - 2, by omega⟩
    rw [hf]
    unfold initial_state
    rw [parse_loop_step o html (f + 2) _
      { s := 60 :: 108 :: ([105] ++ 62 :: (c :: t1 ++ (li_items ts ++ ascii "</ul>"))),
        current_node_ := element_node (ascii "UL") [],
        ancestors := [document_node []], last_element_void := false }
      (by rw [hhtml]; simp [peek])]
    · rw [parse_loop_step o html (f + 1) _
        { s := c :: t1 ++ (li_items ts ++ ascii "</ul>"),
          current_node_ := element_node (ascii "LI") [],
          ancestors := [element_node (ascii "UL") [], document_node []],
          last_element_void := false }
        (by simp [peek])]
      · rw [parse_loop_step o html f _
          { s := li_items ts ++ ascii "</ul>",
            current_node_ := element_node (ascii "LI") [text_node (c :: t1)],
            ancestors := [element_node (ascii "UL") [], document_node []],
            last_element_void := false }]
        · rw [li_loop o html ts [] (c :: t1) f (fun t ht => hts t (by simp [ht])) (by omega)]
          simp
        · have hc0 : c ≠ 0 := fun h0 => ht1.2.2 (by simp [h0])
          simpa [peek] using hc0
        · rw [parse_step_text o html c t1 _ _ _ _ _ (li_items_stop ts) (by decide)]
          · rfl
          · intro d hd
            exact ⟨fun h0 => ht1.2.2 (h0 ▸ hd), fun h0 => ht1.2.1 (h0 ▸ hd)⟩
      · unfold parse_step
        rw [if_pos (by rfl)]
        rw [on_tag_open_state_start o html 108 [105] _ _ (by decide) (by decide) rfl]
        rfl
    · unfold parse_step
      rw [if_pos (by rw [hhtml]; rfl)]
      rw [on_tag_open_state_start o html 117 [108] _ _ (by decide) (by decide) hhtml]
      rfl
  unfold parse
  rw [hrun]
  rfl

/-- C1 at the spec's instance `<ul><li>one<li>two</ul>`. -/
theorem C1_sibling_autoclose_list_items_witness :
    ([ascii "one", ascii "two"] ≠ [] ∧
      ∀ t ∈ [ascii "one", ascii "two"], t ≠ [] ∧ 60 ∉ t ∧ 0 ∉ t) ∧
    parse ⟨false, false, false⟩ (ascii "<ul>" ++ li_items [ascii "one", ascii "two"]
        ++ ascii "</ul>")
      = .returned (document_node [element_node (ascii "UL")
          ([ascii "one", ascii "two"].map
            (fun t => element_node (ascii "LI") [text_node t]))]) :=
  ⟨⟨by decide, by decide⟩,
   C1_sibling_autoclose_list_items ⟨false, false, false⟩ [ascii "one", ascii "two"]
     (by decide) (by decide)⟩

/-! ## C5: a closing tag that matches nothing -/

/-- C5.  For tag names `A` (a name-start byte followed by name bytes) and `B` (name
bytes) whose uppercase forms differ, `uppercase(A)` being neither a void element nor
in `no_end_tag_by_child`, parsing `<A></B>` throws `status_end_element_mismatch` with
the detail `Expected: 'uppercase(A)', found: 'uppercase(B)'`, at the offset that
follows the name `B`; the tree built so far holds the element `uppercase(A)`. -/
theorem C5_end_element_mismatch (o : parse_options) (a : Nat) (A B : List Nat)
    (ha : is_chartype a ct_start_symbol = true)
    (hA : ∀ c ∈ a :: A, is_chartype c ct_symbol = true)
    (hB : ∀ c ∈ B, is_chartype c ct_symbol = true)
    (hne : str_toupper (a :: A) ≠ str_toupper B)
    (hv : is_void_element (str_toupper (a :: A)) = false)
    (hc : autoclose_last_child (str_toupper (a :: A)) = false) :
    parse o (ascii "<" ++ (a :: A) ++ ascii "></" ++ B ++ ascii ">")
      = .failed (.thrown (.at_pos .status_end_element_mismatch
          (ascii "<" ++ (a :: A) ++ ascii "></" ++ B ++ ascii ">")
          ((a :: A).length + B.length + 4)
          (ascii "Expected: '" ++ str_toupper (a :: A) ++ ascii "', found: '"
            ++ str_toupper B ++ ascii "'")))
        (document_node [element_node (str_toupper (a :: A)) []]) := by
  generalize hh : ascii "<" ++ (a :: A) ++ ascii "></" ++ B ++ ascii ">" = html
  have hhtml : html = 60 :: a :: (A ++ 62 :: (60 :: 47 :: (B ++ 62 :: []))) := by
    rw [← hh]
    have e1 : ascii "<" = [60] := rfl
    have e2 : ascii "></" = [62, 60, 47] := rfl
    have e3 : ascii ">" = [62] := rfl
    simp [e1, e2, e3]
  have hlen : html.length = A.length + B.length + 6 := by
    rw [hhtml]; simp; omega
  have hoff : offset html [62] = (a :: A).length + B.length + 4 := by
    simp [offset, hlen]; omega
  have hrun : parse_run o html = .fail (.thrown (.at_pos .status_end_element_mismatch
        html ((a :: A).length + B.length + 4)
        (ascii "Expected: '" ++ str_toupper (a :: A) ++ ascii "', found: '"
          ++ str_toupper B ++ ascii "'")))
      { s := [62], current_node_ := element_node (str_toupper (a :: A)) [],
        ancestors := [document_node []], last_element_void := false } := by
    unfold parse_run
    rw [if_neg (by omega)]
    obtain ⟨f, hf⟩ : ∃ g, html.length + 1 = g + 2 := ⟨html.length - 1, by omega⟩
    rw [hf]
    unfold initial_state
    rw [parse_loop_step o html (f + 1) _
      { s := 60 :: 47 :: (B ++ 62 :: []),
        current_node_ := element_node (str_toupper (a :: A)) [],
        ancestors := [document_node []], last_element_void := false }
      (by rw [hhtml]; simp [peek])]
    · apply parse_loop_fail
      · simp [peek]
      · unfold parse_step
        rw [if_pos (by rfl)]
        rw [on_tag_open_state_close o html B [] _ hB rfl]
        simp only [on_closing_tag, autoclose_on_closing_tag, element_node, node.name, hc,
          Bool.false_eq_true, or_self, and_false, if_false, ne_eq, hne, not_false_eq_true,
          if_true, outcome.and_then, hoff]
    · unfold parse_step
      rw [if_pos (by rw [hhtml]; rfl)]
      rw [on_tag_open_state_start o html a A _ _ ha hA hhtml]
      simp [on_tag_start, leave_void_element, find_parent_node_for_new_tag, outcome.and_then,
        node.create, node.set_name, document.create, node.name, hv, element_node,
        document_node]
  unfold parse
  rw [hrun]
  rfl

/-- C5 at the spec's instance `<div></span>`. -/
theorem C5_end_element_mismatch_witness :
    parse ⟨false, false, false⟩ (ascii "<" ++ ascii "div" ++ ascii "></" ++ ascii "span"
        ++ ascii ">")
      = .failed (.thrown (.at_pos .status_end_element_mismatch
          (ascii "<div></span>") 11 (ascii "Expected: 'DIV', found: 'SPAN'")))
        (document_node [element_node (ascii "DIV") []]) :=
  C5_end_element_mismatch ⟨false, false, false⟩ 100 [105, 118] (ascii "span")
    (by decide) (by decide) (by decide) (by decide) (by decide) (by decide)

/-! ## C6: comments -/

theorem SCANFOR_hit (X : List Nat → Bool) (s : List Nat) (h : X s = true) :
    SCANFOR X s = s := by
  cases s with
  | nil => rfl
  | cons c s => simp [SCANFOR, h]

theorem SCANFOR_skip (X : List Nat → Bool) (s : List Nat) :
    ∀ c : List Nat, 0 ∉ c → (∀ i < c.length, X (c.drop i ++ s) = false) →
      SCANFOR X (c ++ s) = SCANFOR X s := by
  intro c
  induction c with
  | nil => intro _ _; rfl
  | cons x c ih =>
    intro h0 hX
    have hx : x ≠ 0 := fun h => h0 (by simp [h])
    have h1 : X (x :: (c ++ s)) = false := by simpa using hX 0 (by simp)
    have e : SCANFOR X (x :: c ++ s) = SCANFOR X (c ++ s) := by
      show SCANFOR X (x :: (c ++ s)) = _
      rw [SCANFOR, if_pos ⟨hx, h1⟩]
    rw [e]
    apply ih (fun h => h0 (by simp [h]))
    intro i hi
    simpa using hX (i + 1) (by simpa using hi)

theorem ascii_comment_end : ascii "-->" = [45, 45, 62] := rfl

theorem ascii_comment_start : ascii "<!--" = [60, 33, 45, 45] := rfl

theorem isInfix_of_drop (pat c : List Nat) (i : Nat) (h : pat <+: c.drop i) :
    pat <:+: c := by
  obtain ⟨t, ht⟩ := h
  exact ⟨c.take i, t, by rw [List.append_assoc, ht, List.take_append_drop]⟩

theorem comment_end_not_before (endch : Nat) (hend : endch ≠ 62) (c rest : List Nat)
    (hc : ¬ ascii "-->" <:+: c) (i : Nat) (hi : i < c.length) :
    (fun s => peek s 0 == 45 && peek s 1 == 45 && ENDSWITH endch (peek s 2) 62)
      (c.drop i ++ (45 :: 45 :: 62 :: rest)) = false := by
  have hpre : ¬ ascii "-->" <+: c.drop i := fun h => hc (isInfix_of_drop _ _ _ h)
  rw [ascii_comment_end] at hpre
  rcases hd : c.drop i with _ | ⟨x, _ | ⟨y, _ | ⟨z, t⟩⟩⟩
  · have := List.length_drop i c
    rw [hd] at this
    simp at this; omega
  · simp [peek, ENDSWITH]
  · simp [peek, ENDSWITH]
  · rw [hd] at hpre
    simp only [peek, ENDSWITH, List.cons_append, List.getD_cons_zero, List.getD_cons_succ]
    by_contra hcon
    simp at hcon
    obtain ⟨hx, hy, hz⟩ := hcon
    subst hx hy
    by_cases hz62 : z = 62
    · exact hpre ⟨t, by simp [hz62]⟩
    · exact hend (hz hz62).2

/-- The step taken at `<!--c-->`, for any state. -/
theorem parse_step_comment (o : parse_options) (h : string_type) (c rest : List Nat)
    (h0 : 0 ∉ c) (hc : ¬ ascii "-->" <:+: c) (st : parse_state)
    (hs : st.s = ascii "<!--" ++ c ++ ascii "-->" ++ rest) :
    parse_step o h st = .ok { st with
      s := rest,
      current_node_ := if o.parse_comments then st.current_node_.append_child (comment_node c)
        else st.current_node_ } := by
  have hs' : st.s = 60 :: 33 :: 45 :: 45 :: (c ++ (45 :: 45 :: 62 :: rest)) := by
    rw [hs, ascii_comment_start, ascii_comment_end]; simp
  have hscan : SCANFOR (fun s => peek s 0 == 45 && peek s 1 == 45
      && ENDSWITH default_endch (peek s 2) 62) (c ++ (45 :: 45 :: 62 :: rest))
      = 45 :: 45 :: 62 :: rest := by
    rw [SCANFOR_skip _ _ c h0 (comment_end_not_before default_endch (by decide) c rest hc)]
    exact SCANFOR_hit _ _ (by simp [peek, ENDSWITH])
  unfold parse_step
  rw [if_pos (by rw [hs']; rfl)]
  unfold on_tag_open_state
  have h33 : is_chartype 33 ct_start_symbol = false := by decide
  simp only [hs', List.drop_succ_cons, List.drop_zero, peek_cons_zero, h33, if_false]
  unfold parse_exclamation
  simp only [List.drop_succ_cons, List.drop_zero, peek_cons_zero, if_true, ne_eq,
    not_true_eq_false, if_false, hscan, peek_cons_succ, mk_string_scan]
  cases o.parse_comments <;> simp [comment_node, node.create, node.set_value]

/-- C6.  For every text `c` without NUL and without `-->`: at `<!--c-->` followed by any
input `rest`, one step of the loop leaves the cursor at `rest`, just after `-->`, and
appends to the current node one comment node of value exactly `c` when `parse_comments`
is set, and nothing otherwise; the flag and the open elements are untouched.  Parsing
`<!--c-->` alone returns the document with that one comment, or the empty document when
the option is unset. -/
theorem C6_comment_capture (o : parse_options) (c : List Nat)
    (h0 : 0 ∉ c) (hc : ¬ ascii "-->" <:+: c) :
    (∀ (h rest : List Nat) (st : parse_state),
      st.s = ascii "<!--" ++ c ++ ascii "-->" ++ rest →
      parse_step o h st = .ok { st with
        s := rest,
        current_node_ :=
          if o.parse_comments then st.current_node_.append_child (comment_node c)
          else st.current_node_ })
    ∧ parse o (ascii "<!--" ++ c ++ ascii "-->")
      = .returned (document_node (if o.parse_comments then [comment_node c] else [])) := by
  refine ⟨fun h rest st hs => parse_step_comment o h c rest h0 hc st hs, ?_⟩
  generalize hh : ascii "<!--" ++ c ++ ascii "-->" = html
  have hlen : html.length = c.length + 7 := by
    rw [← hh, ascii_comment_start, ascii_comment_end]; simp
  have hstep := parse_step_comment o html c [] h0 hc (initial_state html)
    (by simp [initial_state, hh])
  unfold parse parse_run
  rw [if_neg (by omega)]
  obtain ⟨f, hf⟩ : ∃ g, html.length + 1 = g + 2 := ⟨html.length - 1, by omega⟩
  rw [hf, parse_loop_step o html (f + 1) _ _ _ hstep, parse_loop_done _ _ _ _ (by rfl)]
  · cases o.parse_comments <;> rfl
  · rw [← hh, ascii_comment_start]; simp [initial_state, peek]

/-- C6 at the spec's instance `<!-- hello -->`, with the option set: the hypotheses, the
step when `<p>` follows the comment, and the parse of the comment alone. -/
theorem C6_comment_capture_witness :
    (0 ∉ ascii " hello " ∧ ¬ ascii "-->" <:+: ascii " hello ")
    ∧ parse_step ⟨true, false, false⟩ (ascii "<!-- hello --><p>")
        { s := ascii "<!--" ++ ascii " hello " ++ ascii "-->" ++ ascii "<p>",
          current_node_ := document_node [], ancestors := [], last_element_void := false }
      = .ok { s := ascii "<p>",
              current_node_ := document_node [comment_node (ascii " hello ")],
              ancestors := [], last_element_void := false }
    ∧ parse ⟨true, false, false⟩ (ascii "<!--" ++ ascii " hello " ++ ascii "-->")
      = .returned (document_node [comment_node (ascii " hello ")]) :=
  have h0 : 0 ∉ ascii " hello " := by decide
  have hc : ¬ ascii "-->" <:+: ascii " hello " := by decide
  have w := C6_comment_capture ⟨true, false, false⟩ (ascii " hello ") h0 hc
  ⟨⟨h0, hc⟩, w.1 (ascii "<!-- hello --><p>") (ascii "<p>") _ rfl, w.2⟩

/-! ## C3, C4: the code at the inputs where it leaves the specification -/

/-- C3.  What the code does at `<table><tr><td><p>x</td></tr></table>`: at `</td>` the
auto-close walk leaves `P`, then also `TD` and `TR`, whose names are in
`no_end_tag_by_child` too, and stops at `TABLE`; the closing tag is then compared with
`TABLE` and `status_end_element_mismatch` is thrown, although the element `TD` named by
the closing tag is the parent of `P`. -/
theorem C3_autoclose_walk_passes_matching_ancestor (o : parse_options) :
    parse o (ascii "<table><tr><td><p>x</td></tr></table>")
      = .failed (.thrown (.at_pos .status_end_element_mismatch
          (ascii "<table><tr><td><p>x</td></tr></table>") 23
          (ascii "Expected: 'TABLE', found: 'TD'")))
        (document_node [element_node (ascii "TABLE") [element_node (ascii "TR")
          [element_node (ascii "TD") [element_node (ascii "P") [text_node (ascii "x")]]]]]) := by
  rfl

/-- C4.  What the code does at `<a b=c` TAB `d>`: the unquoted value does not end at the
tab (nor would it at a line feed), since the table gives the bit `ct_parse_attr` to
neither; the element gets the single attribute `("B", "c\td")` where the written items
are `b=c` and `d`.  With a blank between the items the two attributes are read. -/
theorem C4_unquoted_value_runs_over_tab (o : parse_options) :
    parse o (ascii "<a b=c\td>")
      = .returned (document_node
          [.mk .node_element (ascii "A") [] [⟨ascii "B", ascii "c\td"⟩] []])
    ∧ parse o (ascii "<a b=c d>")
      = .returned (document_node
          [.mk .node_element (ascii "A") [] [⟨ascii "B", ascii "c"⟩, ⟨ascii "D", []⟩] []])
    ∧ is_chartype 9 ct_space = true ∧ is_chartype 9 ct_parse_attr = false
    ∧ is_chartype 10 ct_space = true ∧ is_chartype 10 ct_parse_attr = false := by
  refine ⟨by rfl, by rfl, by decide, by decide, by decide, by decide⟩

/-! ## C8, C9: the DOCTYPE scanner -/

theorem peek_mem (s : List Nat) (i : Nat) (h : peek s i ≠ 0) : peek s i ∈ s := by
  induction s generalizing i with
  | nil => simp [peek] at h
  | cons c s ih =>
    cases i with
    | zero => simp [peek]
    | succ i =>
      rw [peek_cons_succ] at h ⊢
      exact List.mem_cons_of_mem _ (ih i h)

theorem peek_ne_of_not_mem (s : List Nat) (i c : Nat) (hc : c ≠ 0) (h : c ∉ s) :
    peek s i ≠ c := by
  intro he
  exact h (he ▸ peek_mem s i (by rw [he]; exact hc))

theorem length_pos_of_peek (s : List Nat) (h : peek s 0 ≠ 0) : 0 < s.length := by
  cases s with
  | nil => simp [peek] at h
  | cons c s => simp

theorem SCANFOR_suffix (X : List Nat → Bool) (s : List Nat) : SCANFOR X s <:+ s := by
  induction s with
  | nil => exact List.suffix_refl _
  | cons c s ih =>
    rw [SCANFOR]
    split
    · exact ih.trans (List.suffix_cons c s)
    · exact List.suffix_refl _

theorem SCANFOR_stop (X : List Nat → Bool) (s : List Nat) :
    peek (SCANFOR X s) 0 = 0 ∨ X (SCANFOR X s) = true := by
  induction s with
  | nil => left; rfl
  | cons c s ih =>
    rw [SCANFOR]
    split
    · exact ih
    · rename_i hn
      by_cases hc : c = 0
      · left; simp [peek, hc]
      · right
        by_contra hx
        exact hn ⟨hc, by simpa using hx⟩

theorem drop_suffix_not_mem (s t : List Nat) (n : Nat) (c : Nat) (h : t <:+ s) (hc : c ∉ s) :
    c ∉ t.drop n :=
  fun hm => hc (h.subset ((List.drop_suffix n t).subset hm))

theorem advance_doctype_ignore_loop_unterminated :
    ∀ (f : Nat) (s : List Nat), 62 ∉ s → s.length < f →
      advance_doctype_ignore_loop f s = .error (.thrown (.of_status .status_bad_doctype)) := by
  intro f
  induction f with
  | zero => intro s _ h; omega
  | succ f ih =>
    intro s h62 hlen
    rw [advance_doctype_ignore_loop]
    by_cases h0 : peek s 0 = 0
    · simp [h0]
    · have hpos := length_pos_of_peek s h0
      have hd : (s.drop 1).length < f := by simp; omega
      have hd62 : 62 ∉ s.drop 1 := drop_suffix_not_mem s s 1 62 (List.suffix_refl _) h62
      have hrec := ih (s.drop 1) hd62 hd
      have h2 : peek s 2 ≠ 62 := peek_ne_of_not_mem s 2 62 (by decide) h62
      rw [List.drop_one] at hrec
      simp [h0, hrec, h2]

theorem advance_doctype_primitive_unterminated (s : List Nat) (h62 : 62 ∉ s) :
    advance_doctype_primitive s = .error (.thrown (.of_status .status_bad_doctype))
    ∨ ∃ s1, advance_doctype_primitive s = .ok s1 ∧ s1.length < s.length ∧ 62 ∉ s1 := by
  unfold advance_doctype_primitive
  have hp : ∀ (X : List Nat → Bool) (n : Nat), (∀ t, 62 ∉ t → X t = false) →
      peek (SCANFOR X (s.drop n)) 0 = 0 := by
    intro X n hX
    have hsuf : SCANFOR X (s.drop n) <:+ s := (SCANFOR_suffix X _).trans (List.drop_suffix n s)
    rcases SCANFOR_stop X (s.drop n) with h | h
    · exact h
    · rw [hX _ (fun hm => h62 (hsuf.subset hm))] at h; cases h
  split
  · rename_i hq
    simp only []
    split
    · left; rfl
    · rename_i hne
      right
      refine ⟨_, rfl, ?_, ?_⟩
      · have hsuf : SCANFOR (fun s1 => peek s1 0 == peek s 0) (s.drop 1) <:+ s.drop 1 :=
          SCANFOR_suffix _ _
        have h1 := hsuf.length_le
        have hs0 : peek s 0 ≠ 0 := by rcases hq with h | h <;> rw [h] <;> decide
        have := length_pos_of_peek s hs0
        simp at h1 ⊢
        omega
      · exact drop_suffix_not_mem s _ 1 62
          ((SCANFOR_suffix _ _).trans (List.drop_suffix 1 s)) h62
  · split
    · left
      simp only []
      rw [if_pos (hp _ 2 (fun t ht => by
        have := peek_ne_of_not_mem t 1 62 (by decide) ht
        simp [this]))]
    · split
      · left
        simp only []
        rw [if_pos (hp _ 4 (fun t ht => by
          have := peek_ne_of_not_mem t 2 62 (by decide) ht
          simp [this]))]
      · left; rfl

theorem advance_doctype_group_loop_unterminated (endch : Nat) (hend : endch ≠ 62) :
    ∀ (f : Nat) (s : List Nat) (top_level : Bool), 62 ∉ s → s.length < f →
      advance_doctype_group_loop endch f s top_level
        = .error (.thrown (.of_status .status_bad_doctype)) := by
  intro f
  induction f with
  | zero => intro s _ _ h; omega
  | succ f ih =>
    intro s tl h62 hlen
    rw [advance_doctype_group_loop]
    by_cases h0 : peek s 0 = 0
    · simp [h0, hend]
    · have hpos := length_pos_of_peek s h0
      have hd : (s.drop 1).length < f := by simp; omega
      have hd62 : 62 ∉ s.drop 1 := drop_suffix_not_mem s s 1 62 (List.suffix_refl _) h62
      have hign : advance_doctype_ignore f s
          = .error (.thrown (.of_status .status_bad_doctype)) :=
        advance_doctype_ignore_loop_unterminated f (s.drop 1) hd62 hd
      have hgrp := ih (s.drop 1) false hd62 hd
      have hnext := ih (s.drop 1) tl hd62 hd
      have hne62 : peek s 0 ≠ 62 := peek_ne_of_not_mem s 0 62 (by decide) h62
      rw [if_neg h0]
      split
      · split
        · rw [hign]
        · rw [hgrp]
      · split
        · rcases advance_doctype_primitive_unterminated s h62 with hp | ⟨s1, hp, hl, hm⟩
          · rw [hp]
          · rw [hp]
            exact ih s1 tl hm (by omega)
        · exact hnext

theorem ascii_doctype : ascii "<!DOCTYPE" = [60, 33, 68, 79, 67, 84, 89, 80, 69] := rfl

/-- C9.  For every body `b` without the byte `>` (whatever else it holds: nesting,
quotes, ignore sections, even a NUL), parsing `<!DOCTYPE` followed by `b` throws
`status_bad_doctype`, for every option set; nothing is added to the document. -/
theorem C9_unterminated_doctype (o : parse_options) (b : List Nat) (hb : 62 ∉ b) :
    parse o (ascii "<!DOCTYPE" ++ b)
      = .failed (.thrown (.of_status .status_bad_doctype)) (document_node []) := by
  generalize hh : ascii "<!DOCTYPE" ++ b = html
  have hhtml : html = 60 :: 33 :: 68 :: 79 :: 67 :: 84 :: 89 :: 80 :: 69 :: b := by
    rw [← hh, ascii_doctype]; rfl
  have hgrp : advance_doctype_group (html.length + 1) html default_endch default_top_level
      = .error (.thrown (.of_status .status_bad_doctype)) := by
    unfold advance_doctype_group
    apply advance_doctype_group_loop_unterminated default_endch (by decide)
    · rw [hhtml]; simpa using hb
    · simp; omega
  have hstep : parse_step o html (initial_state html)
      = .fail (.thrown (.of_status .status_bad_doctype))
          { initial_state html with s := html.drop 1 } := by
    unfold parse_step
    rw [if_pos (by rw [hhtml]; rfl)]
    unfold on_tag_open_state
    have h33 : is_chartype 33 ct_start_symbol = false := by decide
    have hpe : parse_exclamation o (initial_state html).current_node_ html default_endch
        = .error (.thrown (.of_status .status_bad_doctype)) := by
      unfold parse_exclamation
      simp only [hgrp]
      rw [hhtml]
      simp [peek, ENDSWITH]
    have hs : (initial_state html).s = html := rfl
    rw [hs, hpe]
    rw [hhtml]
    simp [peek, h33]
  unfold parse parse_run
  rw [if_neg (by rw [hhtml]; simp)]
  rw [parse_loop_fail o html _ _ _ _ (by rw [hhtml]; simp [initial_state, peek]) hstep]
  rfl

/-- C9 at the spec's instance `<!DOCTYPE html [`. -/
theorem C9_unterminated_doctype_witness :
    62 ∉ ascii " html [" ∧
    parse ⟨false, false, true⟩ (ascii "<!DOCTYPE" ++ ascii " html [")
      = .failed (.thrown (.of_status .status_bad_doctype)) (document_node []) :=
  ⟨by decide, C9_unterminated_doctype ⟨false, false, true⟩ (ascii " html [") (by decide)⟩

theorem advance_doctype_group_loop_plain (endch : Nat) :
    ∀ (x rest : List Nat) (f : Nat) (top_level : Bool),
      (∀ c ∈ x, c ≠ 0 ∧ c ≠ 60 ∧ c ≠ 34 ∧ c ≠ 39 ∧ c ≠ 62) → x.length < f →
      advance_doctype_group_loop endch f (x ++ 62 :: rest) top_level = .ok rest := by
  intro x
  induction x with
  | nil =>
    intro rest f tl _ hf
    obtain ⟨f, rfl⟩ : ∃ g, f = g + 1 := ⟨f - 1, by omega⟩
    simp [advance_doctype_group_loop, peek]
  | cons c x ih =>
    intro rest f tl hx hf
    obtain ⟨f, rfl⟩ : ∃ g, f = g + 1 := ⟨f - 1, by omega⟩
    obtain ⟨h0, h60, h34, h39, h62⟩ := hx c (by simp)
    rw [List.cons_append, advance_doctype_group_loop]
    simp only [peek_cons_zero, h0, h60, h34, h39, h62, if_false, false_and, false_or,
      List.drop_succ_cons, List.drop_zero]
    exact ih rest f tl (fun d hd => hx d (by simp [hd])) (by simpa using hf)

theorem mk_string_doctype (b rest : List Nat) (c : Nat) :
    mk_string (b ++ c :: rest) (ptr_sub rest (b ++ c :: rest) - 2 + 1) = b := by
  unfold mk_string ptr_sub
  have : ((((b ++ c :: rest).length : Nat) : Int) - (rest.length : Int) - 2 + 1).toNat
      = b.length := by
    simp [List.length_append]; omega
  rw [this]
  simp

theorem space_not_special (c : Nat) (h : is_chartype c ct_space = true) :
    c ≠ 0 ∧ c ≠ 60 ∧ c ≠ 34 ∧ c ≠ 39 ∧ c ≠ 62 := by
  rcases is_chartype_space c h with h | h | h | h <;> subst h <;> decide

/-- The step taken at `<!DOCTYPE w b >`, for any state. -/
theorem parse_step_doctype (o : parse_options) (h : string_type) (w b rest : List Nat)
    (hw : ∀ c ∈ w, is_chartype c ct_space = true)
    (hb0 : ∀ c, b.head? = some c → is_chartype c ct_space = false)
    (hb : ∀ c ∈ b, c ≠ 0 ∧ c ≠ 60 ∧ c ≠ 34 ∧ c ≠ 39 ∧ c ≠ 62)
    (st : parse_state)
    (hs : st.s = ascii "<!DOCTYPE" ++ w ++ b ++ ascii ">" ++ rest) :
    parse_step o h st = .ok { st with
      s := rest,
      current_node_ := if o.parse_doctype then st.current_node_.append_child (doctype_node b)
        else st.current_node_ } := by
  have hs' : st.s = 60 :: 33 :: 68 :: 79 :: 67 :: 84 :: 89 :: 80 :: 69 ::
      (w ++ (b ++ 62 :: rest)) := by
    rw [hs, ascii_doctype]
    have e : ascii ">" = [62] := rfl
    simp [e]
  have hgrp : advance_doctype_group (st.s.length + 1) st.s default_endch default_top_level
      = .ok rest := by
    unfold advance_doctype_group
    rw [hs']
    have e : List.drop 1 (60 :: 33 :: 68 :: 79 :: 67 :: 84 :: 89 :: 80 :: 69 ::
        (w ++ (b ++ 62 :: rest))) = ([33, 68, 79, 67, 84, 89, 80, 69] ++ w ++ b) ++ 62 :: rest := by
      simp
    rw [e]
    apply advance_doctype_group_loop_plain
    · intro c hc
      simp only [List.append_assoc, List.mem_append] at hc
      rcases hc with hc | hc | hc
      · revert c; decide
      · exact space_not_special c (hw c hc)
      · exact hb c hc
    · simp; omega
  have hskip : skip_white_spaces (w ++ (b ++ 62 :: rest)) = b ++ 62 :: rest := by
    apply skip_white_spaces_append _ _ hw
    cases b with
    | nil => exact skip_white_spaces_stop 62 rest (by decide)
    | cons c b => exact skip_white_spaces_stop c _ (hb0 c rfl)
  unfold parse_step
  rw [if_pos (by rw [hs']; rfl)]
  unfold on_tag_open_state
  have h33 : is_chartype 33 ct_start_symbol = false := by decide
  have hpe : parse_exclamation o st.current_node_ st.s default_endch
      = .ok (rest, if o.parse_doctype then st.current_node_.append_child (doctype_node b)
          else st.current_node_) := by
    unfold parse_exclamation
    simp only [hgrp]
    rw [hs']
    simp only [List.drop_succ_cons, List.drop_zero, peek_cons_zero, peek_cons_succ, hskip,
      mk_string_doctype]
    simp [ENDSWITH, doctype_node, node.create, node.set_value]
  rw [hpe]
  rw [hs']
  simp [peek, h33]

/-- C8.  For every whitespace run `w` and every body `b` that does not begin with
whitespace and holds none of `<`, `>`, `"`, `'`, NUL: at `<!DOCTYPE w b >` followed by
any input `rest`, one step of the loop leaves the cursor at `rest`, just after the `>`,
and appends to the current node one doctype node of value exactly `b` when
`parse_doctype` is set, and nothing otherwise.  Parsing `<!DOCTYPE w b >` alone returns
the document with that one node, or the empty document when the option is unset. -/
theorem C8_doctype_capture (o : parse_options) (w b : List Nat)
    (hw : ∀ c ∈ w, is_chartype c ct_space = true)
    (hb0 : ∀ c, b.head? = some c → is_chartype c ct_space = false)
    (hb : ∀ c ∈ b, c ≠ 0 ∧ c ≠ 60 ∧ c ≠ 34 ∧ c ≠ 39 ∧ c ≠ 62) :
    (∀ (h rest : List Nat) (st : parse_state),
      st.s = ascii "<!DOCTYPE" ++ w ++ b ++ ascii ">" ++ rest →
      parse_step o h st = .ok { st with
        s := rest,
        current_node_ :=
          if o.parse_doctype then st.current_node_.append_child (doctype_node b)
          else st.current_node_ })
    ∧ parse o (ascii "<!DOCTYPE" ++ w ++ b ++ ascii ">")
      = .returned (document_node (if o.parse_doctype then [doctype_node b] else [])) := by
  refine ⟨fun h rest st hs => parse_step_doctype o h w b rest hw hb0 hb st hs, ?_⟩
  generalize hh : ascii "<!DOCTYPE" ++ w ++ b ++ ascii ">" = html
  have hlen : html.length = w.length + b.length + 10 := by
    have e : ascii ">" = [62] := rfl
    rw [← hh, ascii_doctype, e]; simp; omega
  have hstep := parse_step_doctype o html w b [] hw hb0 hb (initial_state html)
    (by simp [initial_state, ← hh])
  unfold parse parse_run
  rw [if_neg (by omega)]
  obtain ⟨f, hf⟩ : ∃ g, html.length + 1 = g + 2 := ⟨html.length - 1, by omega⟩
  rw [hf, parse_loop_step o html (f + 1) _ _ _ hstep, parse_loop_done _ _ _ _ (by rfl)]
  · cases o.parse_doctype <;> rfl
  · rw [← hh, ascii_doctype]; simp [initial_state, peek]

/-- C8 at the instance `<!DOCTYPE html>`, with the option set: the step when `<p>`
follows the declaration, and the parse of the declaration alone. -/
theorem C8_doctype_capture_witness :
    parse_step ⟨false, false, true⟩ (ascii "<!DOCTYPE html><p>")
        { s := ascii "<!DOCTYPE" ++ ascii " " ++ ascii "html" ++ ascii ">" ++ ascii "<p>",
          current_node_ := document_node [], ancestors := [], last_element_void := false }
      = .ok { s := ascii "<p>",
              current_node_ := document_node [doctype_node (ascii "html")],
              ancestors := [], last_element_void := false }
    ∧ parse ⟨false, false, true⟩ (ascii "<!DOCTYPE" ++ ascii " " ++ ascii "html" ++ ascii ">")
      = .returned (document_node [doctype_node (ascii "html")]) :=
  have w := C8_doctype_capture ⟨false, false, true⟩ (ascii " ") (ascii "html")
    (by decide) (by decide) (by decide)
  ⟨w.1 (ascii "<!DOCTYPE html><p>") (ascii "<p>") _ rfl, w.2⟩

/-! ## C10: the content of SCRIPT -/

theorem ascii_script_end : ascii "</script>" = [60, 47, 115, 99, 114, 105, 112, 116, 62] := rfl

theorem ascii_script_start : ascii "<script>" = [60, 115, 99, 114, 105, 112, 116, 62] := rfl

/-- The literal `</script>` does not begin inside a text that does not hold it. -/
theorem script_end_not_before (c rest : List Nat) (hc : ¬ ascii "</script>" <:+: c)
    (i : Nat) (hi : i < c.length) :
    (c.drop i ++ (ascii "</script>" ++ rest)).take 9 ≠ ascii "</script>" := by
  intro h
  have hm : 0 < (c.drop i).length := by simp; omega
  by_cases h9 : 9 ≤ (c.drop i).length
  · rw [List.take_append_of_le_length h9] at h
    exact hc (isInfix_of_drop _ c i (h ▸ List.take_prefix 9 _))
  · have hlt : (c.drop i).length < 9 := by omega
    have h1 : ((c.drop i ++ (ascii "</script>" ++ rest)).take 9)[(c.drop i).length]?
        = some 60 := by
      rw [List.getElem?_take_of_lt hlt, List.getElem?_append_right (Nat.le_refl _)]
      simp [ascii_script_end]
    rw [h, ascii_script_end] at h1
    generalize (c.drop i).length = m at hm hlt h1
    interval_cases m <;> simp at h1

theorem parse_script_loop_found (start rest : List Nat) :
    ∀ c : List Nat, 0 ∉ c → (∀ i < c.length,
        (c.drop i ++ (ascii "</script>" ++ rest)).take 9 ≠ ascii "</script>") →
      parse_script_loop start (c ++ (ascii "</script>" ++ rest))
        = (ascii "</script>" ++ rest, ptr_sub (ascii "</script>" ++ rest) start - 1) := by
  intro c
  induction c with
  | nil =>
    intro _ _
    have e : ascii "</script>" ++ rest = 60 :: (47 :: 115 :: 99 :: 114 :: 105 :: 112 :: 116 ::
        62 :: rest) := by rw [ascii_script_end]; rfl
    rw [List.nil_append, e, parse_script_loop, if_neg (by decide), if_pos (by simp [ascii_script_end])]
  | cons x c ih =>
    intro h0 hX
    have hx : x ≠ 0 := fun h => h0 (by simp [h])
    have h1 : (x :: (c ++ (ascii "</script>" ++ rest))).take 9 ≠ ascii "</script>" := by
      simpa using hX 0 (by simp)
    rw [List.cons_append, parse_script_loop, if_neg hx, if_neg h1]
    apply ih (fun h => h0 (by simp [h]))
    intro i hi
    simpa using hX (i + 1) (by simpa using hi)

/-- C10: the content `<b>x` is non-empty and holds neither `</script>` nor NUL, yet in
`<script><b>x</script>` its `<b>` is read as a start tag: the loop of `parse` looks for
`<` before it looks at the name of the current node, so the element `B` is opened
inside `SCRIPT` and `</script>` is then a mismatch.  Once `parse_script` is entered it
keeps every `<` as it is written: `<script>x<b></script>` gives the single cdata node
`x<b>`. -/
theorem C10_script_content_starting_with_lt :
    (ascii "<b>x" ≠ [] ∧ 0 ∉ ascii "<b>x" ∧ ¬ ascii "</script>" <:+: ascii "<b>x") ∧
    parse ⟨false, false, false⟩ (ascii "<script>" ++ ascii "<b>x" ++ ascii "</script>")
      = .failed (.thrown (.at_pos .status_end_element_mismatch
          (ascii "<script><b>x</script>") 20 (ascii "Expected: 'B', found: 'SCRIPT'")))
        (document_node [element_node (ascii "SCRIPT")
          [element_node (ascii "B") [text_node (ascii "x")]]])
    ∧ parse ⟨false, false, false⟩ (ascii "<script>" ++ ascii "x<b>" ++ ascii "</script>")
      = .returned (document_node [element_node (ascii "SCRIPT")
          [text_node (ascii "x<b>")]]) := by
  refine ⟨⟨by decide, by decide, by decide⟩, by rfl, by rfl⟩

/-- The path of `parse_script`, for every content.  For every non-empty content `c` that
does not begin with `<` and holds neither the literal `</script>` nor NUL, parsing
`<script>c</script>` returns a document whose element `SCRIPT` has exactly one child, a
cdata-kind node whose value is exactly `c`: no `<` inside `c` is read as markup. -/
theorem script_content_kept_raw (o : parse_options) (c : List Nat)
    (hne : c ≠ []) (hlt : c.head? ≠ some 60) (h0 : 0 ∉ c)
    (hc : ¬ ascii "</script>" <:+: c) :
    parse o (ascii "<script>" ++ c ++ ascii "</script>")
      = .returned (document_node [element_node (ascii "SCRIPT") [text_node c]]) := by
  obtain ⟨x, c, rfl⟩ : ∃ x c', c = x :: c' := by
    cases c with
    | nil => exact absurd rfl hne
    | cons x c' => exact ⟨x, c', rfl⟩
  have hx60 : x ≠ 60 := fun h => hlt (by simp [h])
  have hx0 : x ≠ 0 := fun h => h0 (by simp [h])
  generalize hh : ascii "<script>" ++ (x :: c) ++ ascii "</script>" = html
  have hhtml : html = 60 :: 115 :: ([99, 114, 105, 112, 116] ++ 62 ::
      ((x :: c) ++ (ascii "</script>" ++ []))) := by
    rw [← hh, ascii_script_start]; simp
  have hlen : html.length = c.length + 18 := by
    rw [hhtml, ascii_script_end]; simp
  have hrun : parse_run o html = .ok
      { s := [],
        current_node_ := document_node [element_node (ascii "SCRIPT") [text_node (x :: c)]],
        ancestors := [], last_element_void := false } := by
    unfold parse_run
    rw [if_neg (by omega)]
    obtain ⟨f, hf⟩ : ∃ g, html.length + 1 = g + 4 := ⟨html.length - 3, by omega⟩
    rw [hf]
    unfold initial_state
    rw [parse_loop_step o html (f + 3) _
      { s := (x :: c) ++ (ascii "</script>" ++ []),
        current_node_ := element_node (ascii "SCRIPT") [],
        ancestors := [document_node []], last_element_void := false }
      (by rw [hhtml]; simp [peek])]
    · rw [parse_loop_step o html (f + 2) _
        { s := 60 :: 47 :: ([115, 99, 114, 105, 112, 116] ++ 62 :: []),
          current_node_ := element_node (ascii "SCRIPT") [text_node (x :: c)],
          ancestors := [document_node []], last_element_void := false }
        (by simpa [peek] using hx0)]
      · rw [parse_loop_step o html (f + 1) _
          { s := [],
            current_node_ := document_node
              [element_node (ascii "SCRIPT") [text_node (x :: c)]],
            ancestors := [], last_element_void := false }
          (by simp [peek])]
        · exact parse_loop_done _ _ _ _ (by rfl)
        · unfold parse_step
          rw [if_pos (by rfl)]
          rw [on_tag_open_state_close o html [115, 99, 114, 105, 112, 116] [] _ (by decide) rfl]
          rfl
      · unfold parse_step
        rw [if_neg (by simpa [peek] using hx60), if_pos (by rfl)]
        unfold parse_script
        simp only []
        rw [parse_script_loop_found _ [] (x :: c) h0
          (fun i hi => script_end_not_before (x :: c) [] hc i hi)]
        simp only [mk_string_scan]
        rfl
    · unfold parse_step
      rw [if_pos (by rw [hhtml]; rfl)]
      rw [on_tag_open_state_start o html 115 [99, 114, 105, 112, 116] _ _ (by decide)
        (by decide) hhtml]
      rfl
  unfold parse
  rw [hrun]
  rfl

/-- The path of `parse_script` at the content `var a = 1 < 2; <b>`. -/
theorem script_content_kept_raw_sample :
    parse ⟨false, false, false⟩ (ascii "<script>" ++ ascii "var a = 1 < 2; <b>"
        ++ ascii "</script>")
      = .returned (document_node [element_node (ascii "SCRIPT")
          [text_node (ascii "var a = 1 < 2; <b>")]]) :=
  script_content_kept_raw ⟨false, false, false⟩ (ascii "var a = 1 < 2; <b>")
    (by decide) (by decide) (by decide) (by decide)

/-! ## C2: void elements -/

theorem is_void_element_iff (n : string_type) :
    is_void_element n = true ↔ n ∈ html_void_elements := by
  simp [is_void_element]

set_option maxRecDepth 100000 in
theorem void_names_upper : ∀ n ∈ html_void_elements,
    n ≠ [] ∧ (∀ c ∈ n, 65 ≤ c ∧ c ≤ 90) ∧ no_end_tag_by_sibling.lookup n = none
      ∧ n ≠ ascii "SCRIPT" := by
  decide

set_option maxRecDepth 100000 in
theorem letter_lt : ∀ c < 256, (65 ≤ c ∧ c ≤ 90) ∨ (97 ≤ c ∧ c ≤ 122) →
    is_chartype c ct_symbol = true ∧ is_chartype c ct_start_symbol = true := by
  decide

theorem letter_of_toupper (c : Nat) (h : 65 ≤ toupper c ∧ toupper c ≤ 90) :
    is_chartype c ct_symbol = true ∧ is_chartype c ct_start_symbol = true := by
  by_cases hc : 97 ≤ c ∧ c ≤ 122
  · have hlt : c < 256 := by omega
    exact letter_lt c hlt (Or.inr hc)
  · rw [toupper, if_neg hc] at h
    have hlt : c < 256 := by omega
    exact letter_lt c hlt (Or.inl h)

/-- The bytes of a name whose uppercase form is a void element. -/
theorem void_name_bytes (X : List Nat) (hX : is_void_element (str_toupper X) = true) :
    ∃ a nm, X = a :: nm ∧ is_chartype a ct_start_symbol = true
      ∧ ∀ c ∈ a :: nm, is_chartype c ct_symbol = true := by
  obtain ⟨hne, hup, _, _⟩ := void_names_upper _ ((is_void_element_iff _).1 hX)
  have hall : ∀ c ∈ X, is_chartype c ct_symbol = true ∧ is_chartype c ct_start_symbol = true := by
    intro c hc
    exact letter_of_toupper c (hup (toupper c) (by
      unfold str_toupper; exact List.mem_map_of_mem _ hc))
  cases X with
  | nil => exact absurd rfl hne
  | cons a nm =>
    exact ⟨a, nm, rfl, (hall a (by simp)).2, fun c hc => (hall c hc).1⟩

theorem void_no_sibling_rule (n m : string_type) (hn : is_void_element n = true) :
    autoclose_prev_sibling n m = false := by
  obtain ⟨_, _, hl, _⟩ := void_names_upper _ ((is_void_element_iff _).1 hn)
  simp [autoclose_prev_sibling, hl]

theorem find_parent_node_for_new_tag_self (E : node) (anc : List node) (n : string_type)
    (h : autoclose_prev_sibling n E.name = false) :
    find_parent_node_for_new_tag E anc n = (E, anc) := by
  cases anc with
  | nil => rfl
  | cons p r => simp [find_parent_node_for_new_tag, h]

theorem name_append_child (E n : node) : (E.append_child n).name = E.name := by
  cases E; rfl

theorem name_element_node (n : string_type) (c : List node) : (element_node n c).name = n := rfl

theorem ascii_lt : ascii "<" = [60] := rfl

theorem ascii_gt : ascii ">" = [62] := rfl

theorem ascii_lt_slash : ascii "</" = [60, 47] := rfl

/-- C2, the claim as stated fails: in `<ul><li><br><li>` the void element `BR` is read
inside the open element `LI`, and the element of the start tag `<li>` that follows it
is not appended to that `LI` after `BR`: the sibling rule closes `LI` and the new `LI`
becomes a child of `UL`. -/
theorem C2_start_tag_after_void_leaves_parent :
    parse ⟨false, false, false⟩ (ascii "<ul><li><br><li>")
      = .returned (document_node [element_node (ascii "UL")
          [element_node (ascii "LI") [element_node (ascii "BR") []],
           element_node (ascii "LI") []]]) := by
  rfl

theorem find_parent_walk_chain (tn : string_type) :
    ∀ (anc : List node) (p : node), ∃ k, k ≤ anc.length
      ∧ find_parent_walk tn p anc = (attach_chain p (anc.take k), anc.drop k) := by
  intro anc
  induction anc with
  | nil => intro p; exact ⟨0, Nat.le_refl _, rfl⟩
  | cons gp rest ih =>
    intro p
    rw [find_parent_walk]
    split
    · obtain ⟨k, hk, e⟩ := ih (gp.append_child p)
      exact ⟨k + 1, by simpa using hk, by rw [e]; rfl⟩
    · exact ⟨0, Nat.zero_le _, rfl⟩

/-- The node `find_parent_node_for_new_tag` selects is the current node or one of its
parents, and the part of the tree below it is left as it was. -/
theorem find_parent_node_for_new_tag_chain (tn : string_type) (cur : node) (anc : List node) :
    ∃ k, k ≤ anc.length
      ∧ find_parent_node_for_new_tag cur anc tn = (attach_chain cur (anc.take k), anc.drop k) := by
  unfold find_parent_node_for_new_tag
  cases anc with
  | nil => exact ⟨0, Nat.le_refl _, rfl⟩
  | cons p rest =>
    simp only []
    split
    · obtain ⟨k, hk, e⟩ := find_parent_walk_chain tn rest (p.append_child cur)
      exact ⟨k + 1, by simpa using hk, by rw [e]; rfl⟩
    · exact ⟨0, Nat.zero_le _, rfl⟩

/-- C2, amended.  Let `X` be a void-element name in any letter case and `E` the current
node, the flag `last_element_void` unset.  The start tag `<X>` makes a childless
element `uppercase(X)` the current node, with parent `E`, and sets the flag.  After
it: a non-empty text run is appended to `E`, right after `X`; the element of a start
tag is attached to the node `find_parent_node_for_new_tag` selects starting from `E`,
which is `E` itself (the new element then follows `X`) unless the tag's name closes
the name of `E` by the sibling rule, and which in every case is `E` or one of its
parents, the tree below it left as it was; a closing tag first returns the cursor to
`E`: one that names `X` closes `X` itself, one that names `E` then closes `E`.  In each
case the element `X` is left without a child.  On the test's input the parse stops at
`</hmtl>`, and in the tree built `P` is the child of `BODY` that follows `BR`, its child
holding `Hello world`. -/
theorem C2_void_element_gets_no_child (o : parse_options) (h : string_type) (X : List Nat)
    (hX : is_void_element (str_toupper X) = true) (E : node) (anc : List node) :
    (∀ rest : List Nat,
      parse_step o h { s := ascii "<" ++ X ++ ascii ">" ++ rest, current_node_ := E,
                       ancestors := anc, last_element_void := false }
        = .ok (after_void_element (str_toupper X) E anc rest))
    ∧ (∀ t rest : List Nat, t ≠ [] → (∀ c ∈ t, c ≠ 0 ∧ c ≠ 60) →
        (rest = [] ∨ rest.head? = some 60) →
        parse_step o h (after_void_element (str_toupper X) E anc (t ++ rest))
          = .ok { s := rest,
                  current_node_ := (E.append_child (element_node (str_toupper X) [])).append_child
                    (text_node t),
                  ancestors := anc, last_element_void := false })
    ∧ (∀ (b : Nat) (Y rest : List Nat), is_chartype b ct_start_symbol = true →
        (∀ c ∈ b :: Y, is_chartype c ct_symbol = true) →
        parse_step o h (after_void_element (str_toupper X) E anc
            (ascii "<" ++ (b :: Y) ++ ascii ">" ++ rest))
          = .ok { s := rest,
                  current_node_ := element_node (str_toupper (b :: Y)) [],
                  ancestors :=
                    (find_parent_node_for_new_tag
                      (E.append_child (element_node (str_toupper X) [])) anc
                      (str_toupper (b :: Y))).1 ::
                    (find_parent_node_for_new_tag
                      (E.append_child (element_node (str_toupper X) [])) anc
                      (str_toupper (b :: Y))).2,
                  last_element_void := is_void_element (str_toupper (b :: Y)) }
        ∧ (autoclose_prev_sibling (str_toupper (b :: Y)) E.name = false →
            find_parent_node_for_new_tag
              (E.append_child (element_node (str_toupper X) [])) anc (str_toupper (b :: Y))
              = (E.append_child (element_node (str_toupper X) []), anc))
        ∧ ∃ k, k ≤ anc.length
            ∧ find_parent_node_for_new_tag
                (E.append_child (element_node (str_toupper X) [])) anc (str_toupper (b :: Y))
              = (attach_chain (E.append_child (element_node (str_toupper X) []))
                  (anc.take k), anc.drop k))
    ∧ (∀ T rest : List Nat, (∀ c ∈ T, is_chartype c ct_symbol = true) →
        (str_toupper T ≠ str_toupper X →
          ∀ s : List Nat,
            autoclose_on_closing_tag (str_toupper T)
                (after_void_element (str_toupper X) E anc s)
              = some { s := s,
                       current_node_ := E.append_child (element_node (str_toupper X) []),
                       ancestors := anc, last_element_void := false })
        ∧ (str_toupper T = str_toupper X →
            parse_step o h (after_void_element (str_toupper X) E anc
                (ascii "</" ++ T ++ ascii ">" ++ rest))
              = .ok { s := rest,
                      current_node_ := E.append_child (element_node (str_toupper X) []),
                      ancestors := anc, last_element_void := false })
        ∧ (str_toupper T ≠ str_toupper X → E.name = str_toupper T →
            parse_step o h (after_void_element (str_toupper X) E anc
                (ascii "</" ++ T ++ ascii ">" ++ rest))
              = match anc with
                | [] =>
                  .ok { s := rest,
                        current_node_ := E.append_child (element_node (str_toupper X) []),
                        ancestors := [], last_element_void := false }
                | p :: r =>
                  .ok { s := rest,
                        current_node_ := p.append_child
                          (E.append_child (element_node (str_toupper X) [])),
                        ancestors := r, last_element_void := false }))
    ∧ parse o (ascii "<html><body><br><p>Hello world</p></body></hmtl>")
        = .failed (.thrown (.at_pos .status_end_element_mismatch
            (ascii "<html><body><br><p>Hello world</p></body></hmtl>") 47
            (ascii "Expected: 'HTML', found: 'HMTL'")))
          (document_node [element_node (ascii "HTML") [element_node (ascii "BODY")
            [element_node (ascii "BR") [],
             element_node (ascii "P") [text_node (ascii "Hello world")]]]]) := by
  obtain ⟨a, nm, rfl, ha, hnm⟩ := void_name_bytes X hX
  obtain ⟨_, _, _, hscript⟩ := void_names_upper _ ((is_void_element_iff _).1 hX)
  have hsib : ∀ m, autoclose_prev_sibling (str_toupper (a :: nm)) m = false :=
    fun m => void_no_sibling_rule _ m hX
  refine ⟨?_, ?_, ?_, ?_, by rfl⟩
  · intro rest
    unfold parse_step
    rw [if_pos (by rw [ascii_lt]; rfl)]
    rw [on_tag_open_state_start o h a nm rest _ ha hnm (by simp [ascii_lt, ascii_gt])]
    simp [on_tag_start, leave_void_element, find_parent_node_for_new_tag_self _ _ _ (hsib _),
      outcome.and_then, node.create, node.set_name, node.name, hX, after_void_element,
      element_node]
  · intro t rest hne ht hrest
    obtain ⟨c, t, rfl⟩ : ∃ c t', t = c :: t' := by
      cases t with
      | nil => exact absurd rfl hne
      | cons c t' => exact ⟨c, t', rfl⟩
    have hstop : SCANWHILE (fun c => !is_chartype c ct_parse_pcdata) rest = rest := by
      rcases hrest with hr | hr
      · rw [hr]; rfl
      · cases rest with
        | nil => rfl
        | cons d r =>
          simp at hr
          rw [hr]; exact pcdata_stop_lt r
    unfold after_void_element
    rw [parse_step_text o h c t rest _ _ _ ht hstop
      (by simpa [element_node, node.name] using hscript)]
    simp [on_pcdata, leave_void_element, to_parent, node.create, node.set_value, text_node]
  · intro b Y rest hb hY
    refine ⟨?_, fun hno => find_parent_node_for_new_tag_self _ _ _
      (by rw [name_append_child]; exact hno), find_parent_node_for_new_tag_chain _ _ _⟩
    unfold parse_step after_void_element
    rw [if_pos (by rw [ascii_lt]; rfl)]
    rw [on_tag_open_state_start o h b Y rest _ hb hY (by simp [ascii_lt, ascii_gt])]
    simp [on_tag_start, leave_void_element, to_parent, outcome.and_then, node.create,
      node.set_name, node.name, element_node]
  · intro T rest hT
    refine ⟨fun hTX s => ?_, fun hTX => ?_, fun hTX hE => ?_⟩
    · unfold after_void_element
      simp [autoclose_on_closing_tag, to_parent, name_element_node, hTX]
    · unfold parse_step after_void_element
      rw [if_pos (by rw [ascii_lt_slash]; rfl)]
      rw [on_tag_open_state_close o h T rest _ hT (by simp [ascii_lt_slash, ascii_gt])]
      simp [on_closing_tag, autoclose_on_closing_tag, to_parent, outcome.and_then,
        name_element_node, hTX]
    · unfold parse_step after_void_element
      rw [if_pos (by rw [ascii_lt_slash]; rfl)]
      rw [on_tag_open_state_close o h T rest _ hT (by simp [ascii_lt_slash, ascii_gt])]
      cases anc with
      | nil =>
        simp [on_closing_tag, autoclose_on_closing_tag, to_parent, outcome.and_then,
          name_element_node, hTX, hE, name_append_child]
      | cons p r =>
        simp [on_closing_tag, autoclose_on_closing_tag, to_parent, outcome.and_then,
          name_element_node, hTX, hE, name_append_child]

/-- C2 amended, at `X = br` read inside `BODY` (itself inside `HTML`): the start tag, a
text after it and a start tag `<p>` after it. -/
theorem C2_void_element_gets_no_child_witness :
    is_void_element (str_toupper (ascii "br")) = true
    ∧ parse_step ⟨false, false, false⟩ (ascii "<html><body><br><p>")
        { s := ascii "<" ++ ascii "br" ++ ascii ">" ++ ascii "<p>",
          current_node_ := element_node (ascii "BODY") [],
          ancestors := [element_node (ascii "HTML") [], document_node []],
          last_element_void := false }
      = .ok { s := ascii "<p>", current_node_ := element_node (ascii "BR") [],
              ancestors := [element_node (ascii "BODY") [], element_node (ascii "HTML") [],
                document_node []],
              last_element_void := true }
    ∧ parse_step ⟨false, false, false⟩ (ascii "<html><body><br><p>")
        { s := ascii "x" ++ ascii "<p>", current_node_ := element_node (ascii "BR") [],
          ancestors := [element_node (ascii "BODY") [], element_node (ascii "HTML") [],
            document_node []],
          last_element_void := true }
      = .ok { s := ascii "<p>",
              current_node_ := element_node (ascii "BODY")
                [element_node (ascii "BR") [], text_node (ascii "x")],
              ancestors := [element_node (ascii "HTML") [], document_node []],
              last_element_void := false }
    ∧ parse_step ⟨false, false, false⟩ (ascii "<html><body><br><p>")
        { s := ascii "<" ++ ascii "p" ++ ascii ">" ++ [],
          current_node_ := element_node (ascii "BR") [],
          ancestors := [element_node (ascii "BODY") [], element_node (ascii "HTML") [],
            document_node []],
          last_element_void := true }
      = .ok { s := [], current_node_ := element_node (ascii "P") [],
              ancestors := [element_node (ascii "BODY") [element_node (ascii "BR") []],
                element_node (ascii "HTML") [], document_node []],
              last_element_void := false } :=
  have hX : is_void_element (str_toupper (ascii "br")) = true := by decide
  have w := C2_void_element_gets_no_child ⟨false, false, false⟩ (ascii "<html><body><br><p>")
    (ascii "br") hX (element_node (ascii "BODY") [])
    [element_node (ascii "HTML") [], document_node []]
  ⟨hX, w.1 (ascii "<p>"),
   w.2.1 (ascii "x") (ascii "<p>") (by decide) (by decide) (Or.inr rfl),
   (w.2.2.1 112 [] [] (by decide) (by decide)).1⟩

/-! ## C7 for every content -/

theorem ascii_cdata_start : ascii "<![CDATA[" = [60, 33, 91, 67, 68, 65, 84, 65, 91] := rfl

theorem ascii_cdata_end : ascii "]]>" = [93, 93, 62] := rfl

theorem cdata_end_not_before (endch : Nat) (hend : endch ≠ 62) (c rest : List Nat)
    (hc : ¬ ascii "]]>" <:+: c) (i : Nat) (hi : i < c.length) :
    (fun s => peek s 0 == 93 && peek s 1 == 93 && ENDSWITH endch (peek s 2) 62)
      (c.drop i ++ (93 :: 93 :: 62 :: rest)) = false := by
  have hpre : ¬ ascii "]]>" <+: c.drop i := fun h => hc (isInfix_of_drop _ _ _ h)
  rw [ascii_cdata_end] at hpre
  rcases hd : c.drop i with _ | ⟨x, _ | ⟨y, _ | ⟨z, t⟩⟩⟩
  · have := List.length_drop i c
    rw [hd] at this
    simp at this; omega
  · simp [peek, ENDSWITH]
  · simp [peek, ENDSWITH]
  · rw [hd] at hpre
    simp only [peek, ENDSWITH, List.cons_append, List.getD_cons_zero, List.getD_cons_succ]
    by_contra hcon
    simp at hcon
    obtain ⟨hx, hy, hz⟩ := hcon
    subst hx hy
    by_cases hz62 : z = 62
    · exact hpre ⟨t, by simp [hz62]⟩
    · exact hend (hz hz62).2

theorem mk_string_cdata (c rest : List Nat) (d : Nat) :
    mk_string (c ++ d :: rest) (ptr_sub (d :: rest) (c ++ d :: rest) + 1) = c ++ [d] := by
  unfold mk_string ptr_sub
  have : ((((c ++ d :: rest).length : Nat) : Int) - ((d :: rest).length : Int) + 1).toNat
      = (c ++ [d]).length := by
    simp [List.length_append]
  rw [this]
  have e : c ++ d :: rest = (c ++ [d]) ++ rest := by simp
  rw [e, List.take_left]

/-- C7.  What the code does at `<![CDATA[c]]>` with `parse_cdata` set, for every content
`c` without NUL and without `]]>`: the length `s - cdata_start + 1` takes one byte more
than the content, so the value of the node is `c` followed by `]`, the first byte of the
closing `]]>`; it is never exactly `c`.  At `c = abc` the value is `abc]`. -/
theorem C7_cdata_value_has_closing_bracket (o : parse_options) (hopt : o.parse_cdata = true)
    (c : List Nat) (h0 : 0 ∉ c) (hc : ¬ ascii "]]>" <:+: c) :
    parse o (ascii "<![CDATA[" ++ c ++ ascii "]]>")
      = .returned (document_node [text_node (c ++ ascii "]")])
    ∧ c ++ ascii "]" ≠ c := by
  refine ⟨?_, by simp [ascii]⟩
  generalize hh : ascii "<![CDATA[" ++ c ++ ascii "]]>" = html
  have hhtml : html = 60 :: 33 :: 91 :: 67 :: 68 :: 65 :: 84 :: 65 :: 91 ::
      (c ++ (93 :: 93 :: 62 :: [])) := by
    rw [← hh, ascii_cdata_start, ascii_cdata_end]; simp
  have hlen : html.length = c.length + 12 := by rw [hhtml]; simp
  have hscan : SCANFOR (fun s => peek s 0 == 93 && peek s 1 == 93
      && ENDSWITH default_endch (peek s 2) 62) (c ++ (93 :: 93 :: 62 :: []))
      = 93 :: 93 :: 62 :: [] := by
    rw [SCANFOR_skip _ _ c h0 (cdata_end_not_before default_endch (by decide) c [] hc)]
    exact SCANFOR_hit _ _ (by simp [peek, ENDSWITH])
  have hstep : parse_step o html (initial_state html)
      = .ok { s := [], current_node_ := document_node [text_node (c ++ ascii "]")],
              ancestors := [], last_element_void := false } := by
    unfold parse_step
    rw [if_pos (by rw [hhtml]; rfl)]
    unfold on_tag_open_state
    have h33 : is_chartype 33 ct_start_symbol = false := by decide
    have hpe : parse_exclamation o document.create html default_endch
        = .ok ([], document_node [text_node (c ++ ascii "]")]) := by
      unfold parse_exclamation
      rw [hhtml]
      simp only [List.drop_succ_cons, List.drop_zero, peek_cons_zero, peek_cons_succ,
        hscan, mk_string_cdata, hopt]
      simp [peek, document.create, document_node, text_node, node.create, node.set_value,
        node.append_child, ascii]
    have hs : (initial_state html).s = html := rfl
    have hcur : (initial_state html).current_node_ = document.create := rfl
    rw [hs, hcur, hpe]
    rw [hhtml]
    simp [peek, h33, initial_state]
  unfold parse parse_run
  rw [if_neg (by omega)]
  obtain ⟨f, hf⟩ : ∃ g, html.length + 1 = g + 2 := ⟨html.length - 1, by omega⟩
  rw [hf, parse_loop_step o html (f + 1) _ _ (by rw [hhtml]; simp [initial_state, peek]) hstep,
    parse_loop_done _ _ _ _ (by rfl)]
  rfl

/-- C7 at `<![CDATA[abc]]>`: the value is `abc]`. -/
theorem C7_cdata_value_has_closing_bracket_witness :
    parse ⟨false, true, false⟩ (ascii "<![CDATA[" ++ ascii "abc" ++ ascii "]]>")
      = .returned (document_node [text_node (ascii "abc]")]) :=
  (C7_cdata_value_has_closing_bracket ⟨false, true, false⟩ rfl (ascii "abc")
    (by decide) (by decide)).1

/-! ## C11: text runs -/

/-- C11.  A non-empty text `t` without `<` and NUL, met while the current node is `E`
(not named `SCRIPT`, the flag `last_element_void` unset) and lasting up to the next
`<` or the end of the input, appends exactly one node as the last child of `E`, of
value exactly `t`; the open elements are untouched.  With no element open, `t` becomes
the child of the document.  On the test's input the parse stops at `</hmtl>`, and in the
tree built the first child of `HTML > BODY > P` has the value `Hello world`. -/
theorem C11_text_run_appended (o : parse_options) (t : List Nat)
    (hne : t ≠ []) (ht : ∀ c ∈ t, c ≠ 0 ∧ c ≠ 60) :
    (∀ (h rest : List Nat) (E : node) (anc : List node),
      (rest = [] ∨ rest.head? = some 60) → E.name ≠ ascii "SCRIPT" →
      parse_step o h { s := t ++ rest, current_node_ := E, ancestors := anc,
                       last_element_void := false }
        = .ok { s := rest, current_node_ := E.append_child (text_node t),
                ancestors := anc, last_element_void := false })
    ∧ parse o t = .returned (document_node [text_node t])
    ∧ parse o (ascii "<html><body><p>Hello world</p></body></hmtl>")
        = .failed (.thrown (.at_pos .status_end_element_mismatch
            (ascii "<html><body><p>Hello world</p></body></hmtl>") 43
            (ascii "Expected: 'HTML', found: 'HMTL'")))
          (document_node [element_node (ascii "HTML") [element_node (ascii "BODY")
            [element_node (ascii "P") [text_node (ascii "Hello world")]]]]) := by
  obtain ⟨c, t, rfl⟩ : ∃ c t', t = c :: t' := by
    cases t with
    | nil => exact absurd rfl hne
    | cons c t' => exact ⟨c, t', rfl⟩
  have hstep : ∀ (h rest : List Nat) (E : node) (anc : List node),
      (rest = [] ∨ rest.head? = some 60) → E.name ≠ ascii "SCRIPT" →
      parse_step o h { s := c :: t ++ rest, current_node_ := E, ancestors := anc,
                       last_element_void := false }
        = .ok { s := rest, current_node_ := E.append_child (text_node (c :: t)),
                ancestors := anc, last_element_void := false } := by
    intro h rest E anc hrest hE
    have hstop : SCANWHILE (fun c => !is_chartype c ct_parse_pcdata) rest = rest := by
      rcases hrest with hr | hr
      · rw [hr]; rfl
      · cases rest with
        | nil => rfl
        | cons d r =>
          simp at hr
          rw [hr]; exact pcdata_stop_lt r
    rw [parse_step_text o h c t rest _ _ _ ht hstop hE]
    simp [on_pcdata, leave_void_element, node.create, node.set_value, text_node]
  refine ⟨hstep, ?_, by rfl⟩
  have h1 := hstep (c :: t) [] document.create [] (Or.inl rfl) (by decide)
  rw [List.append_nil] at h1
  have hc0 : c ≠ 0 := (ht c (by simp)).1
  unfold parse parse_run
  rw [if_neg (by simp)]
  show (match parse_loop o (c :: t) ((c :: t).length + 1) (initial_state (c :: t)) with
    | .ok st => parse_result.returned (get_document st)
    | .fail f st => parse_result.failed f (get_document st)) = _
  have e : (c :: t).length + 1 = t.length + 1 + 1 := by simp
  rw [e, parse_loop_step o (c :: t) (t.length + 1) (initial_state (c :: t)) _
    (by simpa [initial_state, peek] using hc0) h1, parse_loop_done _ _ _ _ (by rfl)]
  rfl

/-- C11 at the text `Hello world` inside `P`, followed by `</p>`. -/
theorem C11_text_run_appended_witness :
    parse_step ⟨false, false, false⟩ (ascii "<p>Hello world</p>")
        { s := ascii "Hello world" ++ ascii "</p>", current_node_ := element_node (ascii "P") [],
          ancestors := [document_node []], last_element_void := false }
      = .ok { s := ascii "</p>",
              current_node_ := element_node (ascii "P") [text_node (ascii "Hello world")],
              ancestors := [document_node []], last_element_void := false }
    ∧ parse ⟨false, false, false⟩ (ascii "Hello world")
      = .returned (document_node [text_node (ascii "Hello world")]) :=
  have w := C11_text_run_appended ⟨false, false, false⟩ (ascii "Hello world")
    (by decide) (by decide)
  ⟨w.1 (ascii "<p>Hello world</p>") (ascii "</p>") (element_node (ascii "P") [])
      [document_node []] (Or.inr rfl) (by decide),
   w.2.1⟩

/-! ## C13, C15, C18, C19: the code at the inputs where it leaves the specification -/

/-- C13.  What the code does at `<br><!-- x -->` with `parse_comments` set (likewise for a
CDATA section or a doctype with their options): `parse_exclamation` appends to
`current_node_` without the reset of `last_element_void` that `on_tag_start`,
`on_pcdata` and `on_closing_tag` perform, so the comment becomes a child of the void
element `BR`.  A text in the same place goes to the parent. -/
theorem C13_comment_lands_in_void_element :
    parse ⟨true, false, false⟩ (ascii "<br><!-- x -->")
      = .returned (document_node [element_node (ascii "BR") [comment_node (ascii " x ")]])
    ∧ parse ⟨false, true, false⟩ (ascii "<br><![CDATA[x]]>")
      = .returned (document_node [element_node (ascii "BR") [text_node (ascii "x]")]])
    ∧ parse ⟨false, false, true⟩ (ascii "<br><!DOCTYPE x>")
      = .returned (document_node [element_node (ascii "BR") [doctype_node (ascii "x")]])
    ∧ parse ⟨true, false, false⟩ (ascii "<br>x")
      = .returned (document_node [element_node (ascii "BR") [], text_node (ascii "x")])
    ∧ is_void_element (ascii "BR") = true := by
  refine ⟨by rfl, by rfl, by rfl, by rfl, by decide⟩

set_option maxRecDepth 100000 in
theorem parse_attr_lt : ∀ c : Nat, c < 256 →
    (is_chartype c ct_parse_attr = true ↔ c = 0 ∨ c = 13 ∨ c = 32 ∨ c = 62) := by
  decide

/-- C15.  What the code does at `<a href=x` TAB `id=y>` and at `<a href=x` LF `id=y>`: the
table gives tab and LF the bit `ct_space` but not `ct_parse_attr`, so neither ends the
unquoted value, and the element has the single attribute `HREF` whose value runs up
to the `>`.  The blank, CR and `>` do end the value. -/
theorem C15_tab_and_lf_do_not_end_unquoted_value (o : parse_options) :
    parse o (ascii "<a href=x\tid=y>")
      = .returned (document_node
          [.mk .node_element (ascii "A") [] [⟨ascii "HREF", ascii "x\tid=y"⟩] []])
    ∧ parse o (ascii "<a href=x\nid=y>")
      = .returned (document_node
          [.mk .node_element (ascii "A") [] [⟨ascii "HREF", ascii "x\nid=y"⟩] []])
    ∧ parse o (ascii "<a href=x id=y>")
      = .returned (document_node
          [.mk .node_element (ascii "A") [] [⟨ascii "HREF", ascii "x"⟩, ⟨ascii "ID", ascii "y"⟩] []])
    ∧ parse o (ascii "<a href=x\rid=y>")
      = .returned (document_node
          [.mk .node_element (ascii "A") [] [⟨ascii "HREF", ascii "x"⟩, ⟨ascii "ID", ascii "y"⟩] []])
    ∧ (∀ c : Nat, is_chartype c ct_parse_attr = true ↔ c = 0 ∨ c = 13 ∨ c = 32 ∨ c = 62) := by
  refine ⟨by rfl, by rfl, by rfl, by rfl, ?_⟩
  intro c
  by_cases hc : c < 256
  · exact parse_attr_lt c hc
  · have hge : 256 ≤ c := Nat.le_of_not_lt hc
    rw [is_chartype_of_ge c _ hge]
    constructor
    · intro h; cases h
    · intro h; exfalso; omega

/-- C18.  What the code does at `<ul><li>a<br></ul>`: in `on_closing_tag` the walk over
`no_end_tag_by_child` is the `else` of `if (last_element_void)`, so after leaving the
void element `BR` the element `LI` is not auto-closed; `</ul>` is compared with `LI` and
`status_end_element_mismatch` is thrown.  Without the `<br>` the same input parses. -/
theorem C18_no_autoclose_after_void_element (o : parse_options) :
    parse o (ascii "<ul><li>a<br></ul>")
      = .failed (.thrown (.at_pos .status_end_element_mismatch
          (ascii "<ul><li>a<br></ul>") 17 (ascii "Expected: 'LI', found: 'UL'")))
        (document_node [element_node (ascii "UL")
          [element_node (ascii "LI") [text_node (ascii "a"), element_node (ascii "BR") []]]])
    ∧ parse o (ascii "<ul><li>a</ul>")
      = .returned (document_node [element_node (ascii "UL")
          [element_node (ascii "LI") [text_node (ascii "a")]]]) := by
  refine ⟨by rfl, by rfl⟩

/-- C19.  What the code does at `<!DOCTYPE a [<!-- > -->]>` with `parse_doctype` set: in
`advance_doctype_group` every `<!` that is not followed by `[` opens a nested group, so
the branch of `advance_doctype_primitive` that scans `<!-- ... -->` is never reached;
the nested group ends at the `>` inside the comment and the declaration ends at the
`>` of `-->`.  The doctype node has the value `a [<!-- > --` and the rest `]>` is read
as text. -/
theorem C19_comment_in_doctype_ends_at_first_gt :
    parse ⟨false, false, true⟩ (ascii "<!DOCTYPE a [<!-- > -->]>")
      = .returned (document_node [doctype_node (ascii "a [<!-- > --"), text_node (ascii "]>")])
    ∧ advance_doctype_group 30 (ascii "<!-- > -->]>") default_endch false
      = .ok (ascii " -->]>")
    ∧ advance_doctype_primitive (ascii "<!-- > -->]>") = .ok (ascii ">") := by
  refine ⟨by rfl, by rfl, by rfl⟩

/-! ## C16: line and column -/

theorem newline_offsets_succ (h : string_type) (k : Nat) :
    newline_offsets h (k + 1)
      = if peek h k = 10 then newline_offsets h k ++ [k] else newline_offsets h k := by
  unfold newline_offsets
  rw [List.range_succ, List.filter_append]
  by_cases hk : peek h k = 10 <;> simp [hk]

theorem newline_offsets_skip (h : string_type) (k : Nat) :
    ∀ r : Nat, k ≤ r → (∀ i, k ≤ i → i < r → peek h i ≠ 10) →
      newline_offsets h r = newline_offsets h k := by
  intro r
  induction r with
  | zero => intro hk _; have : k = 0 := by omega
            rw [this]
  | succ r ih =>
    intro hk hno
    by_cases hkr : k = r + 1
    · rw [hkr]
    · rw [newline_offsets_succ, if_neg (hno r (by omega) (by omega))]
      exact ih (by omega) (fun i h1 h2 => hno i h1 (by omega))

theorem find_if_newline_spec (h : string_type) (pos : Nat) :
    ∀ (fuel start : Nat), start ≤ pos → fuel = pos - start →
      start ≤ find_if_newline h pos fuel start
      ∧ find_if_newline h pos fuel start ≤ pos
      ∧ (∀ i, start ≤ i → i < find_if_newline h pos fuel start → peek h i ≠ 10)
      ∧ (find_if_newline h pos fuel start < pos →
          peek h (find_if_newline h pos fuel start) = 10) := by
  intro fuel
  induction fuel with
  | zero =>
    intro start hs hf
    have : start = pos := by omega
    subst this
    simp [find_if_newline]
    intro i h1 h2; omega
  | succ fuel ih =>
    intro start hs hf
    rw [find_if_newline]
    have hne : start ≠ pos := by omega
    rw [if_neg hne]
    by_cases h10 : peek h start = 10
    · rw [if_pos h10]
      exact ⟨Nat.le_refl _, hs, fun i h1 h2 => by omega, fun _ => h10⟩
    · rw [if_neg h10]
      obtain ⟨a, b, c, d⟩ := ih (start + 1) (by omega) (by omega)
      refine ⟨by omega, b, ?_, d⟩
      intro i h1 h2
      by_cases hi : i = start
      · rw [hi]; exact h10
      · exact c i (by omega) h2

theorem newline_loop_spec (h : string_type) (pos : Nat) :
    ∀ (fuel k it last n : Nat), k ≤ pos → it = find_newline h pos k → pos - k < fuel →
      n = (newline_offsets h k).length → last = (newline_offsets h k).getLast?.getD 0 →
      newline_loop h pos fuel it last n
        = ((newline_offsets h pos).getLast?.getD 0, (newline_offsets h pos).length) := by
  intro fuel
  induction fuel with
  | zero => intro k it last n _ _ hf; omega
  | succ fuel ih =>
    intro k it last n hk hit hf hn hlast
    obtain ⟨a, b, c, d⟩ := find_if_newline_spec h pos (pos - k) k hk rfl
    have hit' : it = find_if_newline h pos (pos - k) k := hit
    rw [← hit'] at a b c d
    rw [newline_loop]
    by_cases hlt : it < pos
    · rw [if_pos hlt]
      have hskip := newline_offsets_skip h k it a c
      have hsucc : newline_offsets h (it + 1) = newline_offsets h k ++ [it] := by
        rw [newline_offsets_succ, if_pos (d hlt), hskip]
      apply ih (it + 1) _ it (n + 1) (by omega) rfl (by omega)
      · rw [hsucc, hn]; simp
      · rw [hsucc]; simp
    · rw [if_neg hlt]
      have he : it = pos := by omega
      rw [he] at c
      rw [newline_offsets_skip h k pos hk c, hn, hlast]

theorem format_error_msg_spec (status : parse_status) (h : string_type) (p : Nat)
    (msg : string_type) :
    format_error_msg status h p msg
      = status_description status ++ ascii " Line: " ++ decimal (line_of h p)
        ++ ascii ", column: " ++ decimal (column_of h p) ++ ascii ": '"
        ++ (h.drop p).take 20 ++ ascii "...'. " ++ msg := by
  have hloop := newline_loop_spec h p (p + 1) 0 (find_newline h p 0) 0 0 (Nat.zero_le _) rfl
    (by omega) (by simp [newline_offsets]) (by simp [newline_offsets])
  have hcol : p - (newline_offsets h p).getLast?.getD 0 = column_of h p := by
    unfold column_of
    cases (newline_offsets h p).getLast? <;> simp
  have htake : (h.drop p).take (if h.length - p ≥ 20 then 20 else h.length - p)
      = (h.drop p).take 20 := by
    split
    · rfl
    · rw [List.take_of_length_le (by simp), List.take_of_length_le (by simp; omega)]
  unfold format_error_msg
  simp only [hloop, hcol, htake, line_of]

theorem line_of_eq_count (h : string_type) :
    ∀ p : Nat, p ≤ h.length → line_of h p = (h.take p).count 10 := by
  intro p
  induction p with
  | zero => intro _; simp [line_of, newline_offsets]
  | succ p ih =>
    intro hp
    have hlt : p < h.length := by omega
    have hpeek : peek h p = h[p] := by
      simp [peek, List.getD, List.getElem?_eq_getElem hlt]
    unfold line_of at ih ⊢
    rw [newline_offsets_succ, List.take_succ, List.count_append, ← ih (by omega),
      List.getElem?_eq_getElem hlt, hpeek]
    by_cases h10 : h[p] = 10
    · simp [h10]
    · have h10' : ¬ (h[p] == 10) = true := by simpa using h10
      simp [h10, List.count_cons, h10']

/-- C16.  For every input text `h`, every position `p ≤ length(h)`, every status and
detail, the message of `format_error_msg` is the description of the status, then
` Line: ` and the number of `\n` bytes of `h` at indices below `p`, then `, column: `
and `p` minus the index of the last such `\n` (`p` itself when there is none), then the
up to 20 bytes of `h` from `p` on between `: '` and `...'. `, then the detail.  The
line is the count of `\n` in the first `p` bytes. -/
theorem C16_line_and_column (status : parse_status) (h : string_type) (p : Nat)
    (msg : string_type) (hp : p ≤ h.length) :
    format_error_msg status h p msg
      = status_description status ++ ascii " Line: " ++ decimal (line_of h p)
        ++ ascii ", column: " ++ decimal (column_of h p) ++ ascii ": '"
        ++ (h.drop p).take 20 ++ ascii "...'. " ++ msg
    ∧ line_of h p = (h.take p).count 10 :=
  ⟨format_error_msg_spec status h p msg, line_of_eq_count h p hp⟩

/-- C16 at the position 10 of a text with `\n` at the offsets 2 and 5: line 2, column 5. -/
theorem C16_line_and_column_witness :
    format_error_msg .status_bad_attribute (ascii "ab\ncd\nefg<a b") 10 []
      = ascii "Error parsing element attribute. Line: 2, column: 5: 'a b...'. "
    ∧ line_of (ascii "ab\ncd\nefg<a b") 10 = 2
    ∧ column_of (ascii "ab\ncd\nefg<a b") 10 = 5 :=
  have w := C16_line_and_column .status_bad_attribute (ascii "ab\ncd\nefg<a b") 10 []
    (by decide)
  ⟨w.1.trans (by rfl), by rfl, by rfl⟩

/-! ## Cursor movements -/

theorem advanced_refl (s : List Nat) : advanced s s := ⟨[], rfl, by simp⟩

theorem advanced_trans {s s1 s2 : List Nat} (h1 : advanced s s1) (h2 : advanced s1 s2) :
    advanced s s2 := by
  obtain ⟨p1, e1, n1⟩ := h1
  obtain ⟨p2, e2, n2⟩ := h2
  refine ⟨p1 ++ p2, by rw [e1, e2, List.append_assoc], ?_⟩
  intro hm
  rcases List.mem_append.1 hm with h | h
  · exact n1 h
  · exact n2 h

theorem advanced_length {s s1 : List Nat} (h : advanced s s1) : s1.length ≤ s.length := by
  obtain ⟨p, e, _⟩ := h
  rw [e]; simp

theorem advanced_cons (c : Nat) (s : List Nat) (hc : c ≠ 0) : advanced (c :: s) s :=
  ⟨[c], rfl, by simpa using fun h => hc h.symm⟩

theorem advanced_drop_one (s : List Nat) (h : peek s 0 ≠ 0) : advanced s (s.drop 1) := by
  cases s with
  | nil => simp [peek] at h
  | cons c s => exact advanced_cons c s (by simpa [peek] using h)

theorem advanced_drop (n : Nat) : ∀ s : List Nat, (∀ i, i < n → peek s i ≠ 0) →
    advanced s (s.drop n) := by
  induction n with
  | zero => intro s _; exact advanced_refl s
  | succ n ih =>
    intro s h
    cases s with
    | nil => have := h 0 (by omega); simp [peek] at this
    | cons c s =>
      have hc : c ≠ 0 := by simpa [peek] using h 0 (by omega)
      have := ih s (fun i hi => by simpa [peek] using h (i + 1) (by omega))
      exact advanced_trans (advanced_cons c s hc) (by simpa using this)

theorem advanced_SCANFOR (X : List Nat → Bool) (s : List Nat) : advanced s (SCANFOR X s) := by
  induction s with
  | nil => exact advanced_refl _
  | cons c s ih =>
    rw [SCANFOR]
    split
    · rename_i h
      exact advanced_trans (advanced_cons c s h.1) ih
    · exact advanced_refl _

theorem advanced_SCANWHILE (p : Nat → Bool) (h0 : p 0 = false) (s : List Nat) :
    advanced s (SCANWHILE p s) := by
  induction s with
  | nil => exact advanced_refl _
  | cons c s ih =>
    rw [SCANWHILE]
    split
    · rename_i h
      have hc : c ≠ 0 := by
        intro hc; rw [hc, h0] at h; cases h
      exact advanced_trans (advanced_cons c s hc) ih
    · exact advanced_refl _

theorem advanced_skip_white_spaces (s : List Nat) : advanced s (skip_white_spaces s) := by
  induction s with
  | nil => exact advanced_refl _
  | cons c s ih =>
    rw [skip_white_spaces]
    split
    · rename_i h
      have hc : c ≠ 0 := by
        intro hc; rw [hc] at h; revert h; decide
      exact advanced_trans (advanced_cons c s hc) ih
    · exact advanced_refl _

theorem offset_of_advanced {html s : List Nat} (h : advanced html s) :
    offset html s ≤ html.length ∧ html.drop (offset html s) = s := by
  obtain ⟨p, e, _⟩ := h
  unfold offset
  rw [e]
  simp

/-- The string between a pointer and the cursor moved forward from it. -/
theorem mk_string_of_advanced {start s : List Nat} (h : advanced start s) :
    ∃ pre : List Nat, start = pre ++ s ∧ mk_string start (ptr_sub s start - 1 + 1) = pre := by
  obtain ⟨p, e, _⟩ := h
  refine ⟨p, e, ?_⟩
  rw [e]; exact mk_string_scan p s

/-! ## Names -/

/-- A string cut between two cursors of the buffer gives a name of the input. -/
theorem uppercase_of_input_scan {html start s : List Nat} (h1 : advanced html start)
    (h2 : advanced start s) :
    uppercase_of_input html (str_toupper (mk_string start (ptr_sub s start - 1 + 1))) := by
  obtain ⟨pre, e, hmk⟩ := mk_string_of_advanced h2
  obtain ⟨p0, e0, _⟩ := h1
  rw [hmk]
  exact ⟨pre, ⟨p0, s, by rw [e0, e, List.append_assoc]⟩, rfl⟩

theorem names_of_children_append (c d : List node) :
    names_of_children (c ++ d) = names_of_children c ++ names_of_children d := by
  induction c with
  | nil => simp [names_of_children]
  | cons x xs ih => simp [names_of_children, ih]

theorem names_append_child (p c : node) (n : string_type) :
    n ∈ (p.append_child c).names ↔ n ∈ p.names ∨ n ∈ c.names := by
  cases p with
  | mk t nm v a ch =>
    simp only [node.append_child, node.names, names_of_children_append, names_of_children,
      List.append_nil, List.mem_append]
    tauto

theorem names_append_attribute (p : node) (x : attr) (n : string_type) :
    n ∈ (p.append_attribute x).names ↔ n ∈ p.names ∨ n = x.name := by
  cases p with
  | mk t nm v a ch =>
    simp only [node.append_attribute, node.names, List.map_append, List.mem_append,
      List.map_cons, List.map_nil, List.mem_singleton]
    tauto

theorem type_append_child (p c : node) : (p.append_child c).type = p.type := by
  cases p; rfl

theorem type_append_attribute (p : node) (x : attr) : (p.append_attribute x).type = p.type := by
  cases p; rfl

theorem name_append_attribute (p : node) (x : attr) : (p.append_attribute x).name = p.name := by
  cases p; rfl

theorem chain_ok_same {cur cur1 : node} {anc : List node} (h : chain_ok cur anc)
    (ht : cur1.type = cur.type) (hn : cur1.name = cur.name) : chain_ok cur1 anc := by
  cases anc with
  | nil => exact ⟨ht ▸ h.1, hn ▸ h.2⟩
  | cons p r => exact ⟨ht ▸ h.1, h.2⟩

theorem chain_ok_parent {cur p : node} {r : List node} (h : chain_ok cur (p :: r)) :
    chain_ok (p.append_child cur) r :=
  chain_ok_same h.2 (type_append_child _ _) (name_append_child _ _)

theorem chain_ok_type_iff {cur : node} {anc : List node} (h : chain_ok cur anc) :
    cur.type = .node_document ↔ anc = [] := by
  cases anc with
  | nil => simp [h.1]
  | cons p r =>
    have := h.1
    simp [this]

/-! ## The tree builder keeps the state fine -/

theorem state_ok_cursor {html : string_type} {st : parse_state} (h : state_ok html st)
    {s1 : List Nat} (ha : advanced st.s s1) : state_ok html { st with s := s1 } :=
  ⟨advanced_trans h.cursor ha, h.chain, h.void, h.names⟩

theorem state_ok_flag {html : string_type} {st : parse_state} (h : state_ok html st)
    (b : Bool) (hb : b = true → st.ancestors ≠ []) :
    state_ok html { st with last_element_void := b } :=
  ⟨h.cursor, h.chain, hb, h.names⟩

theorem state_ok_current {html : string_type} {st : parse_state} (h : state_ok html st)
    (cur1 : node) (ht : cur1.type = st.current_node_.type)
    (hn : cur1.name = st.current_node_.name)
    (hnames : ∀ n ∈ cur1.names, n ∈ st.current_node_.names ∨ uppercase_of_input html n) :
    state_ok html { st with current_node_ := cur1 } := by
  refine ⟨h.cursor, chain_ok_same h.chain ht hn, h.void, ?_⟩
  intro n hn'
  rcases hn' with h1 | h1
  · rcases hnames n h1 with h2 | h2
    · exact h.names n (Or.inl h2)
    · exact h2
  · exact h.names n (Or.inr h1)

/-- A node of the given kind with a value and nothing else holds no name. -/
theorem names_value_node (t : node_type) (v : string_type) (ht : t ≠ .node_element) :
    ((node.create t).set_value v).names = [] := by
  simp [node.create, node.set_value, node.names, names_of_children, ht]

theorem state_ok_append_value {html : string_type} {st : parse_state} (h : state_ok html st)
    (t : node_type) (v : string_type) (ht : t ≠ .node_element) :
    state_ok html { st with
      current_node_ := st.current_node_.append_child ((node.create t).set_value v) } := by
  apply state_ok_current h _ (type_append_child _ _) (name_append_child _ _)
  intro n hn
  rw [names_append_child, names_value_node t v ht] at hn
  exact Or.inl (by simpa using hn)

theorem leave_void_element_ok {html : string_type} {st : parse_state} (h : state_ok html st) :
    ∃ st1, leave_void_element st = some st1 ∧ state_ok html st1 ∧ st1.s = st.s
      ∧ st1.last_element_void = false := by
  unfold leave_void_element
  cases hv : st.last_element_void with
  | false => exact ⟨st, by simp, h, rfl, hv⟩
  | true =>
    have hne := h.void hv
    cases ha : st.ancestors with
    | nil => exact absurd ha hne
    | cons p r =>
      refine ⟨{ st with current_node_ := p.append_child st.current_node_, ancestors := r,
                        last_element_void := false }, by simp [to_parent, ha], ?_, rfl, rfl⟩
      have hch := h.chain
      rw [ha] at hch
      refine ⟨h.cursor, chain_ok_parent hch, by simp, ?_⟩
      intro n hn
      simp only [names_append_child] at hn
      apply h.names n
      rw [ha]
      rcases hn with (h1 | h1) | ⟨a, ha1, ha2⟩
      · exact Or.inr ⟨p, by simp, h1⟩
      · exact Or.inl h1
      · exact Or.inr ⟨a, by simp [ha1], ha2⟩

theorem find_parent_walk_ok (tn : string_type) :
    ∀ (anc : List node) (p : node), chain_ok p anc →
      chain_ok (find_parent_walk tn p anc).1 (find_parent_walk tn p anc).2
      ∧ ∀ n : string_type, n ∈ (find_parent_walk tn p anc).1.names
          ∨ (∃ a ∈ (find_parent_walk tn p anc).2, n ∈ a.names) →
          n ∈ p.names ∨ ∃ a ∈ anc, n ∈ a.names := by
  intro anc
  induction anc with
  | nil => intro p h; exact ⟨h, fun n hn => hn⟩
  | cons gp r ih =>
    intro p h
    rw [find_parent_walk]
    split
    · obtain ⟨h1, h2⟩ := ih (gp.append_child p) (chain_ok_parent h)
      refine ⟨h1, fun n hn => ?_⟩
      rcases h2 n hn with h3 | ⟨a, ha1, ha2⟩
      · rcases (names_append_child _ _ _).1 h3 with h4 | h4
        · exact Or.inr ⟨gp, by simp, h4⟩
        · exact Or.inl h4
      · exact Or.inr ⟨a, by simp [ha1], ha2⟩
    · exact ⟨h, fun n hn => hn⟩

theorem find_parent_node_for_new_tag_ok (tn : string_type) (cur : node) (anc : List node)
    (h : chain_ok cur anc) :
    chain_ok (find_parent_node_for_new_tag cur anc tn).1
        (find_parent_node_for_new_tag cur anc tn).2
      ∧ ∀ n : string_type, n ∈ (find_parent_node_for_new_tag cur anc tn).1.names
          ∨ (∃ a ∈ (find_parent_node_for_new_tag cur anc tn).2, n ∈ a.names) →
          n ∈ cur.names ∨ ∃ a ∈ anc, n ∈ a.names := by
  unfold find_parent_node_for_new_tag
  cases anc with
  | nil => exact ⟨h, fun n hn => hn⟩
  | cons p r =>
    simp only []
    split
    · obtain ⟨h1, h2⟩ := find_parent_walk_ok tn r (p.append_child cur) (chain_ok_parent h)
      refine ⟨h1, fun n hn => ?_⟩
      rcases h2 n hn with h3 | ⟨a, ha1, ha2⟩
      · rcases (names_append_child _ _ _).1 h3 with h4 | h4
        · exact Or.inr ⟨p, by simp, h4⟩
        · exact Or.inl h4
      · exact Or.inr ⟨a, by simp [ha1], ha2⟩
    · exact ⟨h, fun n hn => hn⟩

theorem autoclose_walk_ok :
    ∀ (anc : List node) (cur : node), chain_ok cur anc →
      ∃ r, autoclose_walk cur anc = some r ∧ chain_ok r.1 r.2
        ∧ ∀ n : string_type, n ∈ r.1.names ∨ (∃ a ∈ r.2, n ∈ a.names) →
            n ∈ cur.names ∨ ∃ a ∈ anc, n ∈ a.names := by
  intro anc
  induction anc with
  | nil =>
    intro cur h
    have hn : autoclose_last_child cur.name = false := by rw [h.2]; decide
    exact ⟨(cur, []), by simp [autoclose_walk, hn], h, fun n hn => hn⟩
  | cons p r ih =>
    intro cur h
    rw [autoclose_walk]
    split
    · obtain ⟨res, h1, h2, h3⟩ := ih (p.append_child cur) (chain_ok_parent h)
      refine ⟨res, h1, h2, fun n hn => ?_⟩
      rcases h3 n hn with h4 | ⟨a, ha1, ha2⟩
      · rcases (names_append_child _ _ _).1 h4 with h5 | h5
        · exact Or.inr ⟨p, by simp, h5⟩
        · exact Or.inl h5
      · exact Or.inr ⟨a, by simp [ha1], ha2⟩
    · exact ⟨(cur, p :: r), rfl, h, fun n hn => hn⟩

theorem on_tag_start_ok {html : string_type} {st : parse_state} (h : state_ok html st)
    (tn : string_type) (htn : uppercase_of_input html tn) :
    ∃ st1, on_tag_start tn st = .ok st1 ∧ state_ok html st1 ∧ st1.s = st.s
      ∧ st1.ancestors ≠ [] := by
  obtain ⟨st0, h0, hok, hs, hv⟩ := leave_void_element_ok h
  unfold on_tag_start
  rw [h0]
  obtain ⟨hc, hn⟩ := find_parent_node_for_new_tag_ok tn st0.current_node_ st0.ancestors hok.chain
  refine ⟨_, rfl, ⟨hok.cursor, ⟨rfl, hc⟩, fun _ => by simp, ?_⟩, hs, by simp⟩
  intro n hn'
  rcases hn' with h1 | ⟨a, ha1, ha2⟩
  · simp [node.create, node.set_name, node.names, names_of_children] at h1
    rw [h1]; exact htn
  · simp only [List.mem_cons] at ha1
    rcases ha1 with ha1 | ha1
    · exact hok.names n (hn n (Or.inl (ha1 ▸ ha2)))
    · exact hok.names n (hn n (Or.inr ⟨a, ha1, ha2⟩))

theorem autoclose_on_closing_tag_ok {html : string_type} {st : parse_state}
    (h : state_ok html st) (tn : string_type) :
    ∃ st1, autoclose_on_closing_tag tn st = some st1 ∧ state_ok html st1 ∧ st1.s = st.s := by
  unfold autoclose_on_closing_tag
  split
  · cases hv : st.last_element_void with
    | true =>
      obtain ⟨st0, h0, hok, hs, _⟩ := leave_void_element_ok h
      unfold leave_void_element at h0
      rw [hv] at h0
      simp only [if_true] at h0 ⊢
      exact ⟨st0, h0, hok, hs⟩
    | false =>
      obtain ⟨r, h1, h2, h3⟩ := autoclose_walk_ok st.ancestors st.current_node_ h.chain
      simp only [Bool.false_eq_true, if_false, h1, Option.map_some']
      exact ⟨_, rfl, ⟨h.cursor, h2, by simp, fun n hn => h.names n (h3 n hn)⟩, rfl⟩
  · exact ⟨st, rfl, h, rfl⟩

theorem on_closing_tag_ok {html : string_type} {st : parse_state} (h : state_ok html st)
    (tn : string_type) : outcome_ok html st.s (on_closing_tag html tn st) := by
  obtain ⟨st1, h1, hok, hs⟩ := autoclose_on_closing_tag_ok h tn
  unfold on_closing_tag
  rw [h1]
  simp only []
  split
  · exact ⟨hok, rfl, rfl, Or.inr (Or.inr (Or.inr rfl))⟩
  · cases ha : st1.ancestors with
    | nil =>
      have : to_parent st1 = none := by simp [to_parent, ha]
      rw [this]
      exact ⟨hok, hs ▸ advanced_refl _⟩
    | cons p r =>
      have : to_parent st1 = some { st1 with
          current_node_ := p.append_child st1.current_node_, ancestors := r } := by
        simp [to_parent, ha]
      rw [this]
      have hch := hok.chain
      rw [ha] at hch
      refine ⟨⟨hok.cursor, chain_ok_parent hch, by simp, ?_⟩, hs ▸ advanced_refl _⟩
      intro n hn
      simp only [names_append_child] at hn
      apply hok.names n
      rw [ha]
      rcases hn with (h2 | h2) | ⟨a, ha1, ha2⟩
      · exact Or.inr ⟨p, by simp, h2⟩
      · exact Or.inl h2
      · exact Or.inr ⟨a, by simp [ha1], ha2⟩

theorem on_pcdata_ok {html : string_type} {st : parse_state} (h : state_ok html st)
    (v : string_type) : outcome_ok html st.s (on_pcdata v st) := by
  obtain ⟨st0, h0, hok, hs, _⟩ := leave_void_element_ok h
  unfold on_pcdata
  rw [h0]
  exact ⟨state_ok_append_value hok .node_cdata v (by decide), hs ▸ advanced_refl _⟩

theorem on_script_ok {html : string_type} {st : parse_state} (h : state_ok html st)
    (v : string_type) : outcome_ok html st.s (on_script v st) :=
  ⟨state_ok_append_value h .node_cdata v (by decide), advanced_refl _⟩

theorem on_attribute_ok {html : string_type} {st : parse_state} (h : state_ok html st)
    (n v : string_type) (hn : uppercase_of_input html n) :
    outcome_ok html st.s (on_attribute n v st) := by
  refine ⟨state_ok_current h _ (type_append_attribute _ _) (name_append_attribute _ _) ?_,
    advanced_refl _⟩
  intro m hm
  rcases (names_append_attribute _ _ _).1 hm with h1 | h1
  · exact Or.inl h1
  · exact Or.inr (h1 ▸ hn)

/-- Sequencing keeps outcomes fine. -/
theorem outcome_ok_and_then {html : string_type} {s0 : List Nat} {r : outcome}
    {k : parse_state → outcome} (hr : outcome_ok html s0 r)
    (hk : ∀ st, state_ok html st → advanced s0 st.s → outcome_ok html s0 (k st)) :
    outcome_ok html s0 (r.and_then k) := by
  cases r with
  | ok st => exact hk st hr.1 hr.2
  | fail f st => exact hr

theorem outcome_ok_weaken {html : string_type} {s0 s1 : List Nat} {r : outcome}
    (hr : outcome_ok html s1 r) (h : advanced s0 s1) : outcome_ok html s0 r := by
  cases r with
  | ok st => exact ⟨hr.1, advanced_trans h hr.2⟩
  | fail f st => exact hr

/-! ## The scanners keep the state fine -/

set_option maxRecDepth 100000 in
theorem start_symbol_lt : ∀ c : Nat, c < 256 → is_chartype c ct_start_symbol = true →
    is_chartype c ct_symbol = true ∧ c ≠ 0 := by
  decide

theorem start_symbol_is_symbol (c : Nat) (h : is_chartype c ct_start_symbol = true) :
    is_chartype c ct_symbol = true ∧ c ≠ 0 := by
  by_cases hc : c < 256
  · exact start_symbol_lt c hc h
  · rw [is_chartype_of_ge c _ (Nat.le_of_not_lt hc)] at h; cases h

theorem SCANWHILE_head (p : Nat → Bool) (s : List Nat) (h : p (peek s 0) = true)
    (h0 : p 0 = false) : SCANWHILE p s = SCANWHILE p (s.drop 1) := by
  cases s with
  | nil => simp [peek, h0] at h
  | cons c s => simp [peek] at h; simp [SCANWHILE, h]

theorem leaf_fail_at {html : string_type} {st : parse_state} (h : state_ok html st)
    (s0 s1 : List Nat) (ha : advanced st.s s1) (status : parse_status) (msg : string_type)
    (hs : status = .status_unrecognized_tag ∨ status = .status_bad_start_element
      ∨ status = .status_bad_attribute ∨ status = .status_end_element_mismatch) :
    outcome_ok html s0 (.fail (.thrown (.at_pos status html (offset html s1) msg))
      { st with s := s1 }) :=
  ⟨state_ok_cursor h ha, rfl, rfl, hs⟩

theorem leaf_attribute {html : string_type} {st : parse_state} (h : state_ok html st)
    (s0 s1 : List Nat) (ha : advanced st.s s1) (ha0 : advanced s0 s1) (n v : string_type)
    (hn : uppercase_of_input html n) :
    outcome_ok html s0 (on_attribute n v { st with s := s1 }) :=
  outcome_ok_weaken (on_attribute_ok (state_ok_cursor h ha) n v hn) ha0

theorem on_attribute_name_state_ok {html : string_type} {st : parse_state}
    (h : state_ok html st) (hc : is_chartype (peek st.s 0) ct_start_symbol = true) :
    outcome_ok html (st.s.drop 1) (on_attribute_name_state html st) := by
  have hsym := (start_symbol_is_symbol _ hc).1
  have hne := (start_symbol_is_symbol _ hc).2
  have h0 : is_chartype 0 ct_symbol = false := by decide
  have hd : advanced st.s (st.s.drop 1) := advanced_drop_one _ hne
  have a1 : advanced (st.s.drop 1) (SCANWHILE (fun c => is_chartype c ct_symbol) st.s) := by
    rw [SCANWHILE_head (fun c => is_chartype c ct_symbol) st.s hsym h0]
    exact advanced_SCANWHILE (fun c => is_chartype c ct_symbol) h0 _
  have hname := uppercase_of_input_scan h.cursor (advanced_trans hd a1)
  unfold on_attribute_name_state
  simp only []
  generalize SCANWHILE (fun c => is_chartype c ct_symbol) st.s = s1 at a1 hname ⊢
  have b1 : advanced st.s s1 := advanced_trans hd a1
  have a2 : advanced s1 (skip_white_spaces s1) := advanced_skip_white_spaces s1
  generalize skip_white_spaces s1 = s2 at a2 ⊢
  by_cases c1 : peek s1 0 = 0
  · rw [if_pos c1]
    exact leaf_fail_at h _ s1 b1 _ _ (Or.inr (Or.inr (Or.inl rfl)))
  rw [if_neg c1]
  by_cases c2 : peek s2 0 = 0
  · rw [if_pos c2]
    exact leaf_fail_at h _ s2 (advanced_trans b1 a2) _ _ (Or.inr (Or.inr (Or.inl rfl)))
  rw [if_neg c2]
  by_cases c3 : peek s2 0 = 61
  · rw [if_pos c3]
    have a3 : advanced s2 (skip_white_spaces (s2.drop 1)) :=
      advanced_trans (advanced_drop_one s2 c2) (advanced_skip_white_spaces _)
    generalize skip_white_spaces (s2.drop 1) = s3 at a3 ⊢
    by_cases c4 : peek s3 0 = 34 ∨ peek s3 0 = 39
    · rw [if_pos c4]
      have q0 : peek s3 0 ≠ 0 := by rcases c4 with h | h <;> rw [h] <;> decide
      have a4 : advanced s3 (SCANWHILE (fun c => c != 0 && c != peek s3 0) (s3.drop 1)) :=
        advanced_trans (advanced_drop_one s3 q0)
          (advanced_SCANWHILE (fun c => c != 0 && c != peek s3 0) (by simp) _)
      generalize SCANWHILE (fun c => c != 0 && c != peek s3 0) (s3.drop 1) = s4 at a4 ⊢
      by_cases c5 : peek s4 0 ≠ peek s3 0
      · rw [if_pos c5]
        exact leaf_fail_at h _ s4
          (advanced_trans b1 (advanced_trans a2 (advanced_trans a3 a4))) _ _
          (Or.inr (Or.inr (Or.inl rfl)))
      · rw [if_neg c5]
        have q4 : peek s4 0 ≠ 0 := by
          have : peek s4 0 = peek s3 0 := by simpa using c5
          rw [this]; exact q0
        have a5 : advanced s1 (s4.drop 1) :=
          advanced_trans a2 (advanced_trans a3 (advanced_trans a4 (advanced_drop_one s4 q4)))
        exact leaf_attribute h _ _ (advanced_trans b1 a5) (advanced_trans a1 a5) _ _ hname
    · rw [if_neg c4]
      have a4 : advanced s3 (skip_white_spaces
          (SCANWHILE (fun c => !is_chartype c ct_parse_attr) s3)) :=
        advanced_trans (advanced_SCANWHILE (fun c => !is_chartype c ct_parse_attr)
          (by decide) _) (advanced_skip_white_spaces _)
      have a5 : advanced s1 (skip_white_spaces
          (SCANWHILE (fun c => !is_chartype c ct_parse_attr) s3)) :=
        advanced_trans a2 (advanced_trans a3 a4)
      exact leaf_attribute h _ _ (advanced_trans b1 a5) (advanced_trans a1 a5) _ _ hname
  · rw [if_neg c3]
    have a3 : advanced s2 (skip_white_spaces s2) := advanced_skip_white_spaces s2
    generalize skip_white_spaces s2 = s3 at a3 ⊢
    by_cases c4 : peek s3 0 = 0
    · rw [if_pos c4]
      exact leaf_fail_at h _ s3 (advanced_trans b1 (advanced_trans a2 a3)) _ _
        (Or.inr (Or.inr (Or.inl rfl)))
    · rw [if_neg c4]
      have a5 : advanced s1 s3 := advanced_trans a2 a3
      exact leaf_attribute h _ _ (advanced_trans b1 a5) (advanced_trans a1 a5) _ _ hname

theorem on_attribute_name_state_ancestors (html : string_type) (st st1 : parse_state)
    (h : on_attribute_name_state html st = .ok st1) : st1.ancestors = st.ancestors := by
  unfold on_attribute_name_state at h
  simp only [on_attribute] at h
  split_ifs at h <;> (cases h; rfl)

theorem on_self_closing_start_tag_state_ok {html : string_type} {st : parse_state}
    (h : state_ok html st) (hc : peek st.s 0 = 47) (ha : st.ancestors ≠ []) :
    outcome_ok html (st.s.drop 1) (on_self_closing_start_tag_state html st) := by
  have hd : advanced st.s (st.s.drop 1) := advanced_drop_one _ (by rw [hc]; decide)
  unfold on_self_closing_start_tag_state
  simp only []
  split
  · exact leaf_fail_at h _ _ hd _ _ (Or.inr (Or.inl rfl))
  · exact ⟨⟨advanced_trans h.cursor hd, h.chain, fun _ => ha, h.names⟩, advanced_refl _⟩

theorem attribute_loop_ok {html : string_type} :
    ∀ (fuel : Nat) (st : parse_state), state_ok html st → st.ancestors ≠ [] →
      st.s.length < fuel → outcome_ok html st.s (attribute_loop html fuel st) := by
  intro fuel
  induction fuel with
  | zero => intro st _ _ hf; omega
  | succ fuel ih =>
    intro st h ha hf
    have a1 : advanced st.s (skip_white_spaces st.s) := advanced_skip_white_spaces _
    have h1 : state_ok html { st with s := skip_white_spaces st.s } := state_ok_cursor h a1
    have ha1 : ({ st with s := skip_white_spaces st.s } : parse_state).ancestors ≠ [] := ha
    have hlen := advanced_length a1
    rw [attribute_loop]
    simp only []
    by_cases c1 : is_chartype (peek (skip_white_spaces st.s) 0) ct_start_symbol = true
    · rw [if_pos c1]
      have hattr := on_attribute_name_state_ok h1 c1
      have hne : peek (skip_white_spaces st.s) 0 ≠ 0 := (start_symbol_is_symbol _ c1).2
      have hdrop : ((skip_white_spaces st.s).drop 1).length < (skip_white_spaces st.s).length := by
        have := length_pos_of_peek _ hne
        simp; omega
      cases hr : on_attribute_name_state html { st with s := skip_white_spaces st.s } with
      | fail f st2 =>
        rw [hr] at hattr
        exact hattr
      | ok st2 =>
        rw [hr] at hattr
        have hanc := on_attribute_name_state_ancestors html _ st2 hr
        have hlen2 := advanced_length hattr.2
        have := ih st2 hattr.1 (hanc ▸ ha1) (by
          have e : ({ st with s := skip_white_spaces st.s } : parse_state).s
            = skip_white_spaces st.s := rfl
          rw [e] at hlen2
          omega)
        exact outcome_ok_weaken this
          (advanced_trans a1 (advanced_trans (advanced_drop_one _ hne) hattr.2))
    · rw [if_neg c1]
      by_cases c2 : peek (skip_white_spaces st.s) 0 = 47
      · rw [if_pos c2]
        exact outcome_ok_weaken (on_self_closing_start_tag_state_ok h1 c2 ha1)
          (advanced_trans a1 (advanced_drop_one _ (by rw [c2]; decide)))
      · rw [if_neg c2]
        by_cases c3 : peek (skip_white_spaces st.s) 0 = 62
        · rw [if_pos c3]
          exact ⟨state_ok_flag h1 _ (fun _ => ha1), a1⟩
        · rw [if_neg c3]
          exact leaf_fail_at h1 _ _ (advanced_refl _) _ _ (Or.inr (Or.inl rfl))

/-! ## The DOCTYPE scanners move forward and end -/

theorem advance_doctype_ignore_loop_ok :
    ∀ (fuel : Nat) (s : List Nat), s.length < fuel →
      scan_ok s True .status_bad_doctype (advance_doctype_ignore_loop fuel s) := by
  intro fuel
  induction fuel with
  | zero => intro s h; omega
  | succ fuel ih =>
    intro s hlen
    rw [advance_doctype_ignore_loop]
    by_cases h0 : peek s 0 = 0
    · rw [if_pos h0]; rfl
    rw [if_neg h0]
    have hpos := length_pos_of_peek s h0
    have hd : (s.drop 1).length < fuel := by simp; omega
    have hdl : (s.drop 1).length < s.length := by simp; omega
    have ad : advanced s (s.drop 1) := advanced_drop_one s h0
    have hrec := ih (s.drop 1) hd
    split
    · cases hr : advance_doctype_ignore_loop fuel (s.drop 1) with
      | error f => rw [hr] at hrec; exact hrec
      | ok s1 =>
        rw [hr] at hrec
        have hl1 := advanced_length hrec.1
        have h2 := ih s1 (by omega)
        simp only []
        cases hr2 : advance_doctype_ignore_loop fuel s1 with
        | error f => rw [hr2] at h2; exact h2
        | ok s2 =>
          rw [hr2] at h2
          exact ⟨advanced_trans ad (advanced_trans hrec.1 h2.1),
            fun _ => by have := advanced_length h2.1; omega⟩
    · split
      · rename_i hend
        refine ⟨advanced_drop 3 s (fun i hi => ?_), fun _ => by simp; omega⟩
        have : i = 0 ∨ i = 1 ∨ i = 2 := by omega
        rcases this with rfl | rfl | rfl
        · rw [hend.1]; decide
        · rw [hend.2.1]; decide
        · rw [hend.2.2]; decide
      · cases hr : advance_doctype_ignore_loop fuel (s.drop 1) with
        | error f => rw [hr] at hrec; exact hrec
        | ok s1 =>
          rw [hr] at hrec
          exact ⟨advanced_trans ad hrec.1,
            fun _ => by have := advanced_length hrec.1; omega⟩

theorem advance_doctype_primitive_ok (s : List Nat)
    (hnot : ¬ (peek s 0 = 60 ∧ peek s 1 = 33)) (hq : peek s 0 ≠ 0) :
    scan_ok s True .status_bad_doctype (advance_doctype_primitive s) := by
  have hpos := length_pos_of_peek s hq
  unfold advance_doctype_primitive
  split
  · simp only []
    have a1 : advanced s (SCANFOR (fun s1 => peek s1 0 == peek s 0) (s.drop 1)) :=
      advanced_trans (advanced_drop_one s hq) (advanced_SCANFOR _ _)
    have hl : (SCANFOR (fun s1 => peek s1 0 == peek s 0) (s.drop 1)).length < s.length := by
      have := (SCANFOR_suffix (fun s1 => peek s1 0 == peek s 0) (s.drop 1)).length_le
      rw [List.length_drop] at this; omega
    generalize SCANFOR (fun s1 => peek s1 0 == peek s 0) (s.drop 1) = s1 at a1 hl ⊢
    split
    · rfl
    · rename_i hne
      exact ⟨advanced_trans a1 (advanced_drop_one s1 hne), fun _ => by simp; omega⟩
  · split
    · rename_i hpi
      simp only []
      have a1 : advanced s (SCANFOR (fun s => peek s 0 == 63 && peek s 1 == 62) (s.drop 2)) := by
        refine advanced_trans (advanced_drop 2 s (fun i hi => ?_)) (advanced_SCANFOR _ _)
        have : i = 0 ∨ i = 1 := by omega
        rcases this with rfl | rfl
        · rw [hpi.1]; decide
        · rw [hpi.2]; decide
      have hstop := SCANFOR_stop (fun s => peek s 0 == 63 && peek s 1 == 62) (s.drop 2)
      have hl : (SCANFOR (fun s => peek s 0 == 63 && peek s 1 == 62) (s.drop 2)).length
          < s.length := by
        have := (SCANFOR_suffix (fun s => peek s 0 == 63 && peek s 1 == 62) (s.drop 2)).length_le
        rw [List.length_drop] at this; omega
      generalize SCANFOR (fun s => peek s 0 == 63 && peek s 1 == 62) (s.drop 2) = s1
        at a1 hl hstop ⊢
      split
      · rfl
      · rename_i hne
        rcases hstop with h0 | hx
        · exact absurd h0 hne
        · simp at hx
          refine ⟨advanced_trans a1 (advanced_drop 2 s1 (fun i hi => ?_)),
            fun _ => by simp; omega⟩
          have : i = 0 ∨ i = 1 := by omega
          rcases this with rfl | rfl
          · rw [hx.1]; decide
          · rw [hx.2]; decide
    · split
      · rename_i hcom
        exact absurd ⟨hcom.1, hcom.2.1⟩ hnot
      · rfl

theorem advance_doctype_group_loop_ok (endch : Nat) :
    ∀ (fuel : Nat) (s : List Nat) (top_level : Bool), s.length < fuel →
      scan_ok s (endch ≠ 62) .status_bad_doctype
        (advance_doctype_group_loop endch fuel s top_level) := by
  intro fuel
  induction fuel with
  | zero => intro s _ h; omega
  | succ fuel ih =>
    intro s tl hlen
    rw [advance_doctype_group_loop]
    by_cases h0 : peek s 0 = 0
    · rw [if_pos h0]
      split
      · rfl
      · rename_i hn
        exact ⟨advanced_refl s, fun he => absurd (Or.inr he) hn⟩
    rw [if_neg h0]
    have hpos := length_pos_of_peek s h0
    have hd : (s.drop 1).length < fuel := by simp; omega
    have hdl : (s.drop 1).length < s.length := by simp; omega
    have ad : advanced s (s.drop 1) := advanced_drop_one s h0
    -- what the loop does after a nested scanner returned `s1`
    have hcont : ∀ s1 : List Nat, advanced s s1 → s1.length < s.length →
        scan_ok s (endch ≠ 62) .status_bad_doctype
          (advance_doctype_group_loop endch fuel s1 tl) := by
      intro s1 a1 l1
      have h2 := ih s1 tl (by omega)
      cases hr2 : advance_doctype_group_loop endch fuel s1 tl with
      | error f => rw [hr2] at h2; exact h2
      | ok s2 =>
        rw [hr2] at h2
        exact ⟨advanced_trans a1 h2.1, fun _ => by have := advanced_length h2.1; omega⟩
    split
    · split
      · have hi := advance_doctype_ignore_loop_ok fuel (s.drop 1) hd
        unfold advance_doctype_ignore
        cases hr : advance_doctype_ignore_loop fuel (s.drop 1) with
        | error f => rw [hr] at hi; exact hi
        | ok s1 =>
          rw [hr] at hi
          exact hcont s1 (advanced_trans ad hi.1) (by have := advanced_length hi.1; omega)
      · have hg := ih (s.drop 1) false hd
        cases hr : advance_doctype_group_loop endch fuel (s.drop 1) false with
        | error f => rw [hr] at hg; exact hg
        | ok s1 =>
          rw [hr] at hg
          exact hcont s1 (advanced_trans ad hg.1) (by have := advanced_length hg.1; omega)
    · rename_i hnot
      split
      · have hp := advance_doctype_primitive_ok s hnot h0
        cases hr : advance_doctype_primitive s with
        | error f => rw [hr] at hp; exact hp
        | ok s1 =>
          rw [hr] at hp
          exact hcont s1 hp.1 (hp.2 trivial)
      · split
        · exact ⟨ad, fun _ => hdl⟩
        · exact hcont (s.drop 1) ad hdl

theorem advance_doctype_group_ok (fuel : Nat) (s : List Nat) (endch : Nat) (top_level : Bool)
    (h0 : peek s 0 ≠ 0) (hf : s.length ≤ fuel) :
    scan_ok s True .status_bad_doctype (advance_doctype_group fuel s endch top_level) := by
  have hpos := length_pos_of_peek s h0
  have hl := advance_doctype_group_loop_ok endch fuel (s.drop 1) top_level (by simp; omega)
  unfold advance_doctype_group
  cases hr : advance_doctype_group_loop endch fuel (s.drop 1) top_level with
  | error f => rw [hr] at hl; exact hl
  | ok s1 =>
    rw [hr] at hl
    exact ⟨advanced_trans (advanced_drop_one s h0) hl.1,
      fun _ => by have := advanced_length hl.1; simp at this; omega⟩

theorem advance_doctype_ignore_ok (fuel : Nat) (s : List Nat)
    (h0 : peek s 0 ≠ 0) (hf : s.length ≤ fuel) :
    scan_ok s True .status_bad_doctype (advance_doctype_ignore fuel s) := by
  have hpos := length_pos_of_peek s h0
  have hl := advance_doctype_ignore_loop_ok fuel (s.drop 1) (by simp; omega)
  unfold advance_doctype_ignore
  cases hr : advance_doctype_ignore_loop fuel (s.drop 1) with
  | error f => rw [hr] at hl; exact hl
  | ok s1 =>
    rw [hr] at hl
    exact ⟨advanced_trans (advanced_drop_one s h0) hl.1,
      fun _ => by have := advanced_length hl.1; simp at this; omega⟩

theorem peek_drop (s : List Nat) (n i : Nat) : peek (s.drop n) i = peek s (n + i) := by
  induction n generalizing s with
  | zero => simp
  | succ n ih =>
    cases s with
    | nil => simp [peek]
    | cons c s =>
      rw [List.drop_succ_cons, ih, show n + 1 + i = (n + i) + 1 by omega, peek_cons_succ]

theorem ENDSWITH_default (c e : Nat) (he : e ≠ 0) :
    ENDSWITH default_endch c e = true ↔ c = e := by
  unfold ENDSWITH default_endch
  constructor
  · intro h
    simp at h
    rcases h with h | h
    · exact h
    · exact absurd h.2.symm he
  · intro h; simp [h]

/-- What `parse_exclamation` yields when entered at `<!`: a cursor moved forward from
the `!`, and `current_node_` with at most one new child that holds a value and no name;
or one of four statuses thrown by `THROW_ERROR`. -/
theorem parse_exclamation_ok (o : parse_options) (cur : node) (s0 : List Nat)
    (h33 : peek s0 1 = 33) :
    match parse_exclamation o cur s0 default_endch with
    | .ok r => advanced (s0.drop 1) r.1
        ∧ (r.2 = cur ∨ ∃ (t : node_type) (v : string_type), t ≠ .node_element
            ∧ r.2 = cur.append_child ((node.create t).set_value v))
    | .error f => ∃ status, f = .thrown (.of_status status)
        ∧ (status = .status_unrecognized_tag ∨ status = .status_bad_comment
            ∨ status = .status_bad_cdata ∨ status = .status_bad_doctype) := by
  have hcur : ∀ (b : Bool) (t : node_type) (v : string_type), t ≠ .node_element →
      ((if b = true then cur.append_child ((node.create t).set_value v) else cur) = cur
        ∨ ∃ (t' : node_type) (v' : string_type), t' ≠ .node_element
          ∧ (if b = true then cur.append_child ((node.create t).set_value v) else cur)
              = cur.append_child ((node.create t').set_value v')) := by
    intro b t v ht
    cases b
    · left; rfl
    · right; exact ⟨t, v, ht, rfl⟩
  have a2 : advanced (s0.drop 1) (s0.drop 2) := by
    have := advanced_drop_one (s0.drop 1) (by rw [peek_drop]; rw [h33]; decide)
    simpa using this
  unfold parse_exclamation
  simp only []
  generalize hs : s0.drop 2 = s at a2 ⊢
  by_cases c1 : peek s 0 = 45
  · rw [if_pos c1]
    by_cases c2 : peek (s.drop 1) 0 ≠ 45
    · rw [if_pos c2]
      exact ⟨_, rfl, Or.inr (Or.inl rfl)⟩
    · rw [if_neg c2]
      have c2' : peek s 1 = 45 := by
        have := peek_drop s 1 0
        rw [this] at c2
        simpa using c2
      have a3 : advanced s ((s.drop 1).drop 1) := by
        have := advanced_drop 2 s (fun i hi => by
          have : i = 0 ∨ i = 1 := by omega
          rcases this with rfl | rfl
          · rw [c1]; decide
          · rw [c2']; decide)
        simpa using this
      generalize (s.drop 1).drop 1 = s3 at a3 ⊢
      have a4 := advanced_SCANFOR (fun s => peek s 0 == 45 && peek s 1 == 45
        && ENDSWITH default_endch (peek s 2) 62) s3
      have hstop := SCANFOR_stop (fun s => peek s 0 == 45 && peek s 1 == 45
        && ENDSWITH default_endch (peek s 2) 62) s3
      generalize SCANFOR (fun s => peek s 0 == 45 && peek s 1 == 45
        && ENDSWITH default_endch (peek s 2) 62) s3 = s4 at a4 hstop ⊢
      by_cases c3 : peek s4 0 = 0
      · rw [if_pos c3]
        exact ⟨_, rfl, Or.inr (Or.inl rfl)⟩
      · rw [if_neg c3]
        rcases hstop with hz | hx
        · exact absurd hz c3
        · simp only [Bool.and_eq_true, beq_iff_eq] at hx
          have h2 : peek s4 2 = 62 := (ENDSWITH_default _ 62 (by decide)).1 hx.2
          refine ⟨?_, hcur _ _ _ (by decide)⟩
          rw [if_pos h2]
          refine advanced_trans a2 (advanced_trans a3 (advanced_trans a4
            (advanced_drop 3 s4 (fun i hi => ?_))))
          have : i = 0 ∨ i = 1 ∨ i = 2 := by omega
          rcases this with rfl | rfl | rfl
          · rw [hx.1.1]; decide
          · rw [hx.1.2]; decide
          · rw [h2]; decide
  · rw [if_neg c1]
    by_cases c2 : peek s 0 = 91
    · rw [if_pos c2]
      by_cases c3 : ¬ (peek s 1 = 67 ∧ peek s 2 = 68 ∧ peek s 3 = 65 ∧ peek s 4 = 84
          ∧ peek s 5 = 65 ∧ peek s 6 = 91)
      · rw [if_pos c3]
        exact ⟨_, rfl, Or.inr (Or.inr (Or.inl rfl))⟩
      · rw [if_neg c3]
        have c3' := not_not.1 c3
        have a3 : advanced s ((s.drop 6).drop 1) := by
          have := advanced_drop 7 s (fun i hi => by
            have : i = 0 ∨ i = 1 ∨ i = 2 ∨ i = 3 ∨ i = 4 ∨ i = 5 ∨ i = 6 := by omega
            rcases this with rfl | rfl | rfl | rfl | rfl | rfl | rfl
            · rw [c2]; decide
            · rw [c3'.1]; decide
            · rw [c3'.2.1]; decide
            · rw [c3'.2.2.1]; decide
            · rw [c3'.2.2.2.1]; decide
            · rw [c3'.2.2.2.2.1]; decide
            · rw [c3'.2.2.2.2.2]; decide)
          simpa using this
        generalize (s.drop 6).drop 1 = s3 at a3 ⊢
        have a4 := advanced_SCANFOR (fun s => peek s 0 == 93 && peek s 1 == 93
          && ENDSWITH default_endch (peek s 2) 62) s3
        have hstop := SCANFOR_stop (fun s => peek s 0 == 93 && peek s 1 == 93
          && ENDSWITH default_endch (peek s 2) 62) s3
        generalize SCANFOR (fun s => peek s 0 == 93 && peek s 1 == 93
          && ENDSWITH default_endch (peek s 2) 62) s3 = s4 at a4 hstop ⊢
        by_cases c4 : peek s4 0 = 0
        · rw [if_pos c4]
          exact ⟨_, rfl, Or.inr (Or.inr (Or.inl rfl))⟩
        · rw [if_neg c4]
          rcases hstop with hz | hx
          · exact absurd hz c4
          · simp only [Bool.and_eq_true, beq_iff_eq] at hx
            have h2 : peek s4 2 = 62 := (ENDSWITH_default _ 62 (by decide)).1 hx.2
            refine ⟨?_, hcur _ _ _ (by decide)⟩
            have h2' : peek (s4.drop 1) 1 = 62 := by rw [peek_drop]; exact h2
            rw [if_pos h2']
            have : (s4.drop 1).drop 2 = s4.drop 3 := by simp
            rw [this]
            refine advanced_trans a2 (advanced_trans a3 (advanced_trans a4
              (advanced_drop 3 s4 (fun i hi => ?_))))
            have : i = 0 ∨ i = 1 ∨ i = 2 := by omega
            rcases this with rfl | rfl | rfl
            · rw [hx.1.1]; decide
            · rw [hx.1.2]; decide
            · rw [h2]; decide
    · rw [if_neg c2]
      by_cases c3 : peek s 0 = 68 ∧ peek s 1 = 79 ∧ peek s 2 = 67 ∧ peek s 3 = 84
          ∧ peek s 4 = 89 ∧ peek s 5 = 80 ∧ ENDSWITH default_endch (peek s 6) 69 = true
      · rw [if_pos c3]
        have hg := advance_doctype_group_loop_ok default_endch (s0.length + 1) (s0.drop 1)
          default_top_level (by simp; omega)
        unfold advance_doctype_group
        cases hr : advance_doctype_group_loop default_endch (s0.length + 1) (s0.drop 1)
            default_top_level with
        | error f =>
          rw [hr] at hg
          exact ⟨_, hg, Or.inr (Or.inr (Or.inr rfl))⟩
        | ok s1 =>
          rw [hr] at hg
          exact ⟨hg.1, hcur _ _ _ (by decide)⟩
      · rw [if_neg c3]
        split_ifs
        · exact ⟨_, rfl, Or.inr (Or.inl rfl)⟩
        · exact ⟨_, rfl, Or.inr (Or.inr (Or.inl rfl))⟩
        · exact ⟨_, rfl, Or.inl rfl⟩

theorem on_self_closing_start_tag_state_gt (html : string_type) (st st1 : parse_state)
    (h : on_self_closing_start_tag_state html st = .ok st1) : peek st1.s 0 = 62 := by
  unfold on_self_closing_start_tag_state at h
  simp only [] at h
  split at h
  · cases h
  · rename_i hc
    cases h
    exact not_not.1 hc

theorem attribute_loop_gt (html : string_type) :
    ∀ (fuel : Nat) (st st1 : parse_state), attribute_loop html fuel st = .ok st1 →
      peek st1.s 0 = 62 := by
  intro fuel
  induction fuel with
  | zero => intro st st1 h; simp [attribute_loop] at h
  | succ fuel ih =>
    intro st st1 h
    rw [attribute_loop] at h
    simp only [] at h
    split at h
    · cases hr : on_attribute_name_state html { st with s := skip_white_spaces st.s } with
      | fail f st2 => rw [hr] at h; simp [outcome.and_then] at h
      | ok st2 =>
        rw [hr] at h
        exact ih st2 st1 h
    · split at h
      · exact on_self_closing_start_tag_state_gt html _ st1 h
      · split at h
        · rename_i hc
          cases h
          exact hc
        · cases h

theorem and_then_ok (st : parse_state) (k : parse_state → outcome) :
    (outcome.ok st).and_then k = k st := rfl

theorem on_tag_open_state_ok {html : string_type} {st : parse_state} (o : parse_options)
    (h : state_ok html st) (hc : peek st.s 0 = 60) :
    outcome_ok html (st.s.drop 1) (on_tag_open_state o html st) := by
  have hd : advanced st.s (st.s.drop 1) := advanced_drop_one _ (by rw [hc]; decide)
  unfold on_tag_open_state
  simp only []
  generalize hs : st.s.drop 1 = s at hd ⊢
  have hfinal : ∀ r : outcome, outcome_ok html s r →
      (∀ st1, r = .ok st1 → peek st1.s 0 = 62) →
      outcome_ok html s (r.and_then fun st => .ok { st with s := st.s.drop 1 }) := by
    intro r hr hgt
    cases r with
    | fail f st1 => exact hr
    | ok st1 =>
      have a1 : advanced st1.s (st1.s.drop 1) :=
        advanced_drop_one _ (by rw [hgt st1 rfl]; decide)
      exact ⟨state_ok_cursor hr.1 a1, advanced_trans hr.2 a1⟩
  by_cases c1 : is_chartype (peek s 0) ct_start_symbol = true
  · rw [if_pos c1]
    have a1 : advanced s (SCANWHILE (fun c => is_chartype c ct_symbol) s) :=
      advanced_SCANWHILE (fun c => is_chartype c ct_symbol) (by decide) s
    have hname := uppercase_of_input_scan (advanced_trans h.cursor hd) a1
    generalize SCANWHILE (fun c => is_chartype c ct_symbol) s = s1 at a1 hname ⊢
    obtain ⟨st1, e1, hok1, hs1, hanc1⟩ :=
      on_tag_start_ok (state_ok_cursor h (advanced_trans hd a1)) _ hname
    rw [e1, and_then_ok]
    have hs1' : st1.s = s1 := hs1
    have a1' : advanced s st1.s := by rw [hs1']; exact a1
    apply hfinal
    · by_cases c2 : peek st1.s 0 = 62
      · rw [if_pos c2]
        exact ⟨state_ok_flag hok1 _ (fun _ => hanc1), a1'⟩
      · rw [if_neg c2]
        by_cases c3 : is_chartype (peek st1.s 0) ct_space = true
        · rw [if_pos c3]
          exact outcome_ok_weaken (attribute_loop_ok _ st1 hok1 hanc1 (by omega)) a1'
        · rw [if_neg c3]
          by_cases c4 : peek st1.s 0 = 47
          · rw [if_pos c4]
            exact outcome_ok_weaken (on_self_closing_start_tag_state_ok hok1 c4 hanc1)
              (advanced_trans a1' (advanced_drop_one _ (by rw [c4]; decide)))
          · rw [if_neg c4]
            have := leaf_fail_at hok1 s st1.s (advanced_refl _)
              .status_bad_start_element [] (Or.inr (Or.inl rfl))
            exact this
    · intro st2 hst2
      by_cases c2 : peek st1.s 0 = 62
      · rw [if_pos c2] at hst2
        cases hst2
        exact c2
      · rw [if_neg c2] at hst2
        by_cases c3 : is_chartype (peek st1.s 0) ct_space = true
        · rw [if_pos c3] at hst2
          exact attribute_loop_gt html _ st1 st2 hst2
        · rw [if_neg c3] at hst2
          by_cases c4 : peek st1.s 0 = 47
          · rw [if_pos c4] at hst2
            exact on_self_closing_start_tag_state_gt html st1 st2 hst2
          · rw [if_neg c4] at hst2
            cases hst2
  · rw [if_neg c1]
    by_cases c2 : peek s 0 = 47
    · rw [if_pos c2]
      have a1 : advanced s (SCANWHILE (fun c => is_chartype c ct_symbol) (s.drop 1)) :=
        advanced_trans (advanced_drop_one s (by rw [c2]; decide))
          (advanced_SCANWHILE (fun c => is_chartype c ct_symbol) (by decide) _)
      generalize SCANWHILE (fun c => is_chartype c ct_symbol) (s.drop 1) = s1 at a1 ⊢
      have hst1 := state_ok_cursor h (advanced_trans hd a1)
      have hcl := outcome_ok_weaken (on_closing_tag_ok hst1
        (str_toupper (mk_string (s.drop 1) (ptr_sub s1 (s.drop 1) - 1 + 1)))) a1
      apply outcome_ok_and_then hcl
      intro st2 hok2 ha2
      have a3 : advanced st2.s (skip_white_spaces st2.s) := advanced_skip_white_spaces _
      split
      · exact ⟨state_ok_cursor hok2 a3, Or.inr (Or.inr (Or.inr (Or.inr rfl)))⟩
      · rename_i hgt
        have a4 : advanced (skip_white_spaces st2.s) ((skip_white_spaces st2.s).drop 1) :=
          advanced_drop_one _ (by rw [not_not.1 hgt]; decide)
        exact ⟨state_ok_cursor hok2 (advanced_trans a3 a4),
          advanced_trans ha2 (advanced_trans a3 a4)⟩
    · rw [if_neg c2]
      by_cases c3 : peek s 0 = 33
      · rw [if_pos c3]
        have h33 : peek st.s 1 = 33 := by
          have := peek_drop st.s 1 0
          rw [hs] at this
          rw [← this]; exact c3
        have hpe := parse_exclamation_ok o st.current_node_ st.s h33
        cases hr : parse_exclamation o st.current_node_ st.s default_endch with
        | error f =>
          rw [hr] at hpe
          obtain ⟨status, hf, hst⟩ := hpe
          simp only []
          refine ⟨state_ok_cursor h hd, ?_⟩
          rw [hf]
          rcases hst with h1 | h1 | h1 | h1
          · exact Or.inl h1
          · exact Or.inr (Or.inl h1)
          · exact Or.inr (Or.inr (Or.inl h1))
          · exact Or.inr (Or.inr (Or.inr (Or.inl h1)))
        | ok r =>
          rw [hr] at hpe
          simp only []
          rw [hs] at hpe
          refine ⟨?_, hpe.1⟩
          have hcurs := state_ok_cursor h (advanced_trans hd hpe.1)
          rcases hpe.2 with h1 | ⟨t, v, ht, h1⟩
          · rw [h1]; exact hcurs
          · rw [h1]; exact state_ok_append_value hcurs t v ht
      · rw [if_neg c3]
        exact leaf_fail_at h _ _ hd _ _ (Or.inl rfl)

/-! ## The loop of `parse` keeps the state fine and ends -/

theorem parse_pcdata_ok {html : string_type} {st : parse_state} (h : state_ok html st)
    (h0 : peek st.s 0 ≠ 0) (h60 : peek st.s 0 ≠ 60) :
    outcome_ok html (st.s.drop 1) (parse_pcdata st) := by
  have hp : (fun c => !is_chartype c ct_parse_pcdata) (peek st.s 0) = true := by
    simp [is_chartype_pcdata _ h0 h60]
  have hz : (fun c => !is_chartype c ct_parse_pcdata) 0 = false := by decide
  have a1 : advanced (st.s.drop 1) (SCANWHILE (fun c => !is_chartype c ct_parse_pcdata) st.s) := by
    rw [SCANWHILE_head (fun c => !is_chartype c ct_parse_pcdata) st.s hp hz]
    exact advanced_SCANWHILE (fun c => !is_chartype c ct_parse_pcdata) hz _
  unfold parse_pcdata
  simp only []
  generalize SCANWHILE (fun c => !is_chartype c ct_parse_pcdata) st.s = s1 at a1 ⊢
  exact outcome_ok_weaken
    (on_pcdata_ok (state_ok_cursor h (advanced_trans (advanced_drop_one _ h0) a1)) _) a1

theorem advanced_parse_script_loop (start : List Nat) :
    ∀ s : List Nat, advanced s (parse_script_loop start s).1 := by
  intro s
  induction s with
  | nil => exact advanced_refl _
  | cons c s ih =>
    rw [parse_script_loop]
    split
    · exact advanced_refl _
    · rename_i hc
      split
      · exact advanced_refl _
      · exact advanced_trans (advanced_cons c s hc) ih

theorem parse_script_loop_head (start s : List Nat) (h0 : peek s 0 ≠ 0) (h60 : peek s 0 ≠ 60) :
    parse_script_loop start s = parse_script_loop start (s.drop 1) := by
  cases s with
  | nil => simp [peek] at h0
  | cons c s =>
    simp only [peek_cons_zero] at h0 h60
    rw [parse_script_loop, if_neg h0, if_neg (by
      intro h
      have : ((c :: s).take 9).head? = (ascii "</script>").head? := by rw [h]
      simp [ascii_script_end] at this
      exact h60 this)]
    simp

theorem parse_script_ok {html : string_type} {st : parse_state} (h : state_ok html st)
    (h0 : peek st.s 0 ≠ 0) (h60 : peek st.s 0 ≠ 60) :
    outcome_ok html (st.s.drop 1) (parse_script st) := by
  have a1 : advanced (st.s.drop 1) (parse_script_loop st.s st.s).1 := by
    rw [parse_script_loop_head st.s st.s h0 h60]
    exact advanced_parse_script_loop _ _
  unfold parse_script
  simp only []
  exact outcome_ok_weaken
    (on_script_ok (state_ok_cursor h (advanced_trans (advanced_drop_one _ h0) a1)) _) a1

theorem parse_step_ok {html : string_type} {st : parse_state} (o : parse_options)
    (h : state_ok html st) (h0 : peek st.s 0 ≠ 0) :
    outcome_ok html (st.s.drop 1) (parse_step o html st) := by
  unfold parse_step
  split
  · rename_i hc
    exact on_tag_open_state_ok o h hc
  · rename_i hc
    split
    · exact parse_script_ok h h0 hc
    · exact parse_pcdata_ok h h0 hc

theorem drop_one_shorter (s : List Nat) (h0 : peek s 0 ≠ 0) :
    (s.drop 1).length < s.length := by
  have := length_pos_of_peek s h0
  simp; omega

theorem parse_loop_ok {html : string_type} (o : parse_options) :
    ∀ (fuel : Nat) (st : parse_state), state_ok html st → st.s.length < fuel →
      outcome_ok html st.s (parse_loop o html fuel st) := by
  intro fuel
  induction fuel with
  | zero => intro st _ hf; omega
  | succ fuel ih =>
    intro st h hf
    rw [parse_loop]
    split
    · exact ⟨h, advanced_refl _⟩
    · rename_i h0
      have hstep := parse_step_ok o h h0
      have hsh := drop_one_shorter st.s h0
      cases hr : parse_step o html st with
      | fail f st1 => rw [hr] at hstep; exact hstep
      | ok st1 =>
        rw [hr] at hstep
        rw [and_then_ok]
        have hl := advanced_length hstep.2
        exact outcome_ok_weaken (ih st1 hstep.1 (by omega))
          (advanced_trans (advanced_drop_one _ h0) hstep.2)

theorem parse_loop_end (o : parse_options) (html : string_type) :
    ∀ (fuel : Nat) (st st1 : parse_state), parse_loop o html fuel st = .ok st1 →
      peek st1.s 0 = 0 := by
  intro fuel
  induction fuel with
  | zero => intro st st1 h; simp [parse_loop] at h
  | succ fuel ih =>
    intro st st1 h
    rw [parse_loop] at h
    split at h
    · rename_i h0
      cases h
      exact h0
    · cases hr : parse_step o html st with
      | fail f st2 => rw [hr] at h; simp [outcome.and_then] at h
      | ok st2 =>
        rw [hr, and_then_ok] at h
        exact ih st2 st1 h

theorem initial_state_ok (html : string_type) : state_ok html (initial_state html) := by
  refine ⟨advanced_refl _, ⟨rfl, rfl⟩, fun h => by simp [initial_state] at h, ?_⟩
  intro n hn
  simp [initial_state, document.create, node.create, node.names, names_of_children] at hn

theorem parse_run_ok (o : parse_options) (html : string_type) :
    outcome_ok html html (parse_run o html) := by
  unfold parse_run
  split
  · exact ⟨initial_state_ok html, advanced_refl _⟩
  · exact parse_loop_ok o _ _ (initial_state_ok html) (by simp [initial_state])

theorem parse_run_end (o : parse_options) (html : string_type) (st : parse_state)
    (h : parse_run o html = .ok st) : peek st.s 0 = 0 := by
  unfold parse_run at h
  split at h
  · rename_i hl
    cases h
    have : html = [] := List.length_eq_zero.1 hl
    rw [this]; rfl
  · exact parse_loop_end o html _ _ st h

/-! ## C12: names are uppercase -/

theorem parse_step_advances {html : string_type} {st : parse_state} (o : parse_options)
    (h : state_ok html st) (h0 : peek st.s 0 ≠ 0) :
    (∃ st1, parse_step o html st = .ok st1 ∧ state_ok html st1 ∧ advanced st.s st1.s
        ∧ st1.s.length < st.s.length)
    ∨ (∃ e st1, parse_step o html st = .fail (.thrown e) st1 ∧ state_ok html st1) := by
  have hs := parse_step_ok o h h0
  cases hr : parse_step o html st with
  | ok st1 =>
    rw [hr] at hs
    refine Or.inl ⟨st1, rfl, hs.1, advanced_trans (advanced_drop_one _ h0) hs.2, ?_⟩
    exact Nat.lt_of_le_of_lt (advanced_length hs.2) (drop_one_shorter _ h0)
  | fail f st1 =>
    rw [hr] at hs
    cases f with
    | thrown e => exact Or.inr ⟨e, st1, rfl, hs.1⟩
    | null_deref => exact absurd hs.2 (by simp [fault_ok])
    | out_of_fuel => exact absurd hs.2 (by simp [fault_ok])

theorem parse_run_terminates (o : parse_options) (html : string_type) :
    (∃ st, parse_run o html = .ok st ∧ peek st.s 0 = 0 ∧ advanced html st.s)
    ∨ (∃ e st, parse_run o html = .fail (.thrown e) st ∧ advanced html st.s) := by
  have hs := parse_run_ok o html
  cases hr : parse_run o html with
  | ok st =>
    rw [hr] at hs
    exact Or.inl ⟨st, rfl, parse_run_end o html st hr, hs.2⟩
  | fail f st =>
    rw [hr] at hs
    cases f with
    | thrown e => exact Or.inr ⟨e, st, rfl, hs.1.cursor⟩
    | null_deref => exact absurd hs.2 (by simp [fault_ok])
    | out_of_fuel => exact absurd hs.2 (by simp [fault_ok])

/-! ## Bytes after the terminating NUL are not read -/

theorem peek_beyond (j s : List Nat) (i : Nat) (h : i ≤ s.length) :
    peek (s ++ 0 :: j) i = peek s i := by
  unfold peek
  rcases Nat.lt_or_eq_of_le h with h1 | h1
  · rw [List.getD_append _ _ _ _ h1]
  · subst h1
    rw [List.getD_append_right _ _ _ _ (Nat.le_refl _)]
    simp

theorem peek_beyond_zero (j s : List Nat) : peek (s ++ 0 :: j) 0 = peek s 0 :=
  peek_beyond j s 0 (Nat.zero_le _)

theorem drop_beyond (j s : List Nat) (n : Nat) (h : n ≤ s.length) :
    (s ++ 0 :: j).drop n = s.drop n ++ 0 :: j :=
  List.drop_append_of_le_length h

theorem take_beyond (j s : List Nat) (n : Nat) (h : n ≤ s.length) :
    (s ++ 0 :: j).take n = s.take n :=
  List.take_append_of_le_length h

theorem ptr_sub_beyond (j p q : List Nat) :
    ptr_sub (p ++ 0 :: j) (q ++ 0 :: j) = ptr_sub p q := by
  unfold ptr_sub
  simp only [List.length_append, List.length_cons]
  push_cast
  omega

theorem offset_beyond (j html s : List Nat) :
    offset (html ++ 0 :: j) (s ++ 0 :: j) = offset html s := by
  unfold offset
  simp only [List.length_append, List.length_cons]
  omega

theorem lt_of_peek_ne_zero (s : List Nat) (i : Nat) (h : peek s i ≠ 0) : i < s.length := by
  by_contra hn
  apply h
  unfold peek
  exact List.getD_eq_default _ _ (Nat.le_of_not_lt hn)

theorem SCANWHILE_beyond (j : List Nat) (p : Nat → Bool) (h0 : p 0 = false) :
    ∀ s : List Nat, SCANWHILE p (s ++ 0 :: j) = SCANWHILE p s ++ 0 :: j := by
  intro s
  induction s with
  | nil => simp [SCANWHILE, h0]
  | cons c s ih =>
    simp only [List.cons_append, SCANWHILE]
    split
    · exact ih
    · rfl

theorem skip_white_spaces_beyond (j : List Nat) :
    ∀ s : List Nat, skip_white_spaces (s ++ 0 :: j) = skip_white_spaces s ++ 0 :: j := by
  intro s
  induction s with
  | nil =>
    have : is_chartype 0 ct_space = false := by decide
    simp [skip_white_spaces, this]
  | cons c s ih =>
    simp only [List.cons_append, skip_white_spaces]
    split
    · exact ih
    · rfl

theorem SCANFOR_beyond (j : List Nat) (X : List Nat → Bool)
    (hX : ∀ s : List Nat, X (s ++ 0 :: j) = X s) :
    ∀ s : List Nat, SCANFOR X (s ++ 0 :: j) = SCANFOR X s ++ 0 :: j := by
  intro s
  induction s with
  | nil => simp [SCANFOR]
  | cons c s ih =>
    have hx := hX (c :: s)
    rw [List.cons_append] at hx ⊢
    rw [SCANFOR, SCANFOR, hx]
    by_cases hc : c ≠ 0 ∧ X (c :: s) = false
    · rw [if_pos hc, if_pos hc]; exact ih
    · rw [if_neg hc, if_neg hc]; rfl

theorem to_parent_beyond (j : List Nat) (st : parse_state) :
    to_parent (st.beyond j) = (to_parent st).map (parse_state.beyond j) := by
  unfold to_parent parse_state.beyond
  cases st.ancestors <;> rfl

theorem leave_void_element_beyond (j : List Nat) (st : parse_state) :
    leave_void_element (st.beyond j) = (leave_void_element st).map (parse_state.beyond j) := by
  unfold leave_void_element
  rw [to_parent_beyond]
  cases hv : st.last_element_void
  · simp [parse_state.beyond, hv]
  · cases hp : to_parent st <;> simp [parse_state.beyond, hv]

theorem on_tag_start_beyond (j : List Nat) (t : string_type) (st : parse_state) :
    on_tag_start t (st.beyond j) = (on_tag_start t st).beyond j := by
  unfold on_tag_start
  rw [leave_void_element_beyond]
  cases leave_void_element st <;> rfl

theorem on_pcdata_beyond (j : List Nat) (t : string_type) (st : parse_state) :
    on_pcdata t (st.beyond j) = (on_pcdata t st).beyond j := by
  unfold on_pcdata
  rw [leave_void_element_beyond]
  cases leave_void_element st <;> rfl

theorem autoclose_on_closing_tag_beyond (j : List Nat) (t : string_type) (st : parse_state) :
    autoclose_on_closing_tag t (st.beyond j)
      = (autoclose_on_closing_tag t st).map (parse_state.beyond j) := by
  unfold autoclose_on_closing_tag
  rw [to_parent_beyond]
  simp only [parse_state.beyond]
  split
  · split
    · cases to_parent st <;> rfl
    · cases autoclose_walk st.current_node_ st.ancestors <;> rfl
  · rfl

theorem on_closing_tag_beyond (j : List Nat) (html t : string_type) (st : parse_state) :
    on_closing_tag (html ++ 0 :: j) t (st.beyond j) = (on_closing_tag html t st).beyond j := by
  unfold on_closing_tag
  rw [autoclose_on_closing_tag_beyond]
  cases autoclose_on_closing_tag t st with
  | none => rfl
  | some st1 =>
    simp only [Option.map]
    rw [to_parent_beyond]
    have ho : offset (html ++ 0 :: j) (st1.beyond j).s = offset html st1.s :=
      offset_beyond j html st1.s
    have hn : (st1.beyond j).current_node_ = st1.current_node_ := rfl
    rw [ho, hn]
    split
    · rfl
    · cases to_parent st1 <;> rfl

theorem and_then_beyond (j : List Nat) (r : outcome) (k k1 : parse_state → outcome)
    (h : ∀ st, r = .ok st → k1 (st.beyond j) = (k st).beyond j) :
    (r.beyond j).and_then k1 = (r.and_then k).beyond j := by
  cases r with
  | ok st => exact h st rfl
  | fail f st => rfl

theorem mk_string_beyond (j start : List Nat) (len : Int) (h : len ≤ start.length) :
    mk_string (start ++ 0 :: j) len = mk_string start len := by
  unfold mk_string
  exact take_beyond j start _ (by omega)

theorem mk_string_scan_beyond (j start s : List Nat) :
    mk_string (start ++ 0 :: j) (ptr_sub (s ++ 0 :: j) (start ++ 0 :: j) - 1 + 1)
      = mk_string start (ptr_sub s start - 1 + 1) := by
  rw [ptr_sub_beyond]
  exact mk_string_beyond j start _ (by unfold ptr_sub; omega)

theorem drop_one_beyond (j s : List Nat) (h : peek s 0 ≠ 0) :
    (s ++ 0 :: j).drop 1 = s.drop 1 ++ 0 :: j :=
  drop_beyond j s 1 (length_pos_of_peek s h)

theorem fail_at_beyond (j html s : List Nat) (st : parse_state) (status : parse_status)
    (msg : string_type) :
    outcome.fail (.thrown (.at_pos status (html ++ 0 :: j)
        (offset (html ++ 0 :: j) (s ++ 0 :: j)) msg))
      { s := s ++ 0 :: j, current_node_ := st.current_node_, ancestors := st.ancestors,
        last_element_void := st.last_element_void }
    = (outcome.fail (.thrown (.at_pos status html (offset html s) msg))
        { st with s := s }).beyond j := by
  rw [offset_beyond]; rfl

theorem on_attribute_name_state_beyond (j html : List Nat) (st : parse_state) :
    on_attribute_name_state (html ++ 0 :: j) (st.beyond j)
      = (on_attribute_name_state html st).beyond j := by
  have h0 : is_chartype 0 ct_symbol = false := by decide
  unfold on_attribute_name_state
  simp only [parse_state.beyond]
  rw [SCANWHILE_beyond j (fun c => is_chartype c ct_symbol) h0, mk_string_scan_beyond]
  generalize SCANWHILE (fun c => is_chartype c ct_symbol) st.s = s1
  generalize str_toupper (mk_string st.s (ptr_sub s1 st.s - 1 + 1)) = name
  rw [peek_beyond_zero, skip_white_spaces_beyond]
  generalize skip_white_spaces s1 = s2
  rw [peek_beyond_zero]
  by_cases c1 : peek s1 0 = 0
  · rw [if_pos c1, if_pos c1]; exact fail_at_beyond j html s1 st _ _
  rw [if_neg c1, if_neg c1]
  by_cases c2 : peek s2 0 = 0
  · rw [if_pos c2, if_pos c2]; exact fail_at_beyond j html s2 st _ _
  rw [if_neg c2, if_neg c2]
  by_cases c3 : peek s2 0 = 61
  · rw [if_pos c3, if_pos c3, drop_one_beyond j s2 c2, skip_white_spaces_beyond]
    generalize skip_white_spaces (s2.drop 1) = s3
    rw [peek_beyond_zero]
    by_cases c4 : peek s3 0 = 34 ∨ peek s3 0 = 39
    · rw [if_pos c4, if_pos c4]
      have q0 : peek s3 0 ≠ 0 := by rcases c4 with h | h <;> rw [h] <;> decide
      rw [drop_one_beyond j s3 q0,
        SCANWHILE_beyond j (fun c => c != 0 && c != peek s3 0) (by simp),
        mk_string_scan_beyond]
      generalize SCANWHILE (fun c => c != 0 && c != peek s3 0) (s3.drop 1) = s4
      rw [peek_beyond_zero]
      by_cases c5 : peek s4 0 ≠ peek s3 0
      · rw [if_pos c5, if_pos c5]; exact fail_at_beyond j html s4 st _ _
      · rw [if_neg c5, if_neg c5]
        have q4 : peek s4 0 ≠ 0 := by
          have : peek s4 0 = peek s3 0 := by simpa using c5
          rw [this]; exact q0
        rw [drop_one_beyond j s4 q4]
        rfl
    · rw [if_neg c4, if_neg c4,
        SCANWHILE_beyond j (fun c => !is_chartype c ct_parse_attr) (by decide),
        mk_string_scan_beyond, skip_white_spaces_beyond]
      rfl
  · rw [if_neg c3, if_neg c3, skip_white_spaces_beyond]
    generalize skip_white_spaces s2 = s3
    rw [peek_beyond_zero]
    by_cases c4 : peek s3 0 = 0
    · rw [if_pos c4, if_pos c4]; exact fail_at_beyond j html s3 st _ _
    · rw [if_neg c4, if_neg c4]; rfl

theorem on_self_closing_start_tag_state_beyond (j html : List Nat) (st : parse_state)
    (h : peek st.s 0 ≠ 0) :
    on_self_closing_start_tag_state (html ++ 0 :: j) (st.beyond j)
      = (on_self_closing_start_tag_state html st).beyond j := by
  unfold on_self_closing_start_tag_state
  simp only [parse_state.beyond]
  rw [drop_one_beyond j st.s h, peek_beyond_zero]
  by_cases c : peek (st.s.drop 1) 0 ≠ 62
  · rw [if_pos c, if_pos c]; exact fail_at_beyond j html _ st _ _
  · rw [if_neg c, if_neg c]; rfl

theorem attribute_loop_beyond (j : List Nat) {html : string_type} :
    ∀ (fuel fuel1 : Nat) (st : parse_state), state_ok html st → st.ancestors ≠ [] →
      st.s.length < fuel → st.s.length < fuel1 →
      attribute_loop (html ++ 0 :: j) fuel (st.beyond j)
        = (attribute_loop html fuel1 st).beyond j := by
  intro fuel
  induction fuel with
  | zero => intro _ st _ _ hf; omega
  | succ fuel ih =>
    intro fuel1 st h ha hf hf1
    cases fuel1 with
    | zero => omega
    | succ fuel1 =>
      have a1 : advanced st.s (skip_white_spaces st.s) := advanced_skip_white_spaces _
      have h1 : state_ok html { st with s := skip_white_spaces st.s } := state_ok_cursor h a1
      have ha1 : ({ st with s := skip_white_spaces st.s } : parse_state).ancestors ≠ [] := ha
      have hlen := advanced_length a1
      have e1 : parse_state.mk (skip_white_spaces st.s ++ 0 :: j) st.current_node_
          st.ancestors st.last_element_void
          = ({ st with s := skip_white_spaces st.s } : parse_state).beyond j := rfl
      rw [attribute_loop, attribute_loop]
      simp only [parse_state.beyond]
      rw [skip_white_spaces_beyond, peek_beyond_zero, e1]
      by_cases c1 : is_chartype (peek (skip_white_spaces st.s) 0) ct_start_symbol = true
      · rw [if_pos c1, if_pos c1, on_attribute_name_state_beyond]
        have hattr := on_attribute_name_state_ok h1 c1
        have hne : peek (skip_white_spaces st.s) 0 ≠ 0 := (start_symbol_is_symbol _ c1).2
        have hdrop : ((skip_white_spaces st.s).drop 1).length
            < (skip_white_spaces st.s).length := drop_one_shorter _ hne
        apply and_then_beyond
        intro st2 hr
        rw [hr] at hattr
        have hanc := on_attribute_name_state_ancestors html _ st2 hr
        have hlen2 := advanced_length hattr.2
        have e : ({ st with s := skip_white_spaces st.s } : parse_state).s
            = skip_white_spaces st.s := rfl
        rw [e] at hlen2
        exact ih fuel1 st2 hattr.1 (hanc ▸ ha1) (by omega) (by omega)
      · rw [if_neg c1, if_neg c1]
        by_cases c2 : peek (skip_white_spaces st.s) 0 = 47
        · rw [if_pos c2, if_pos c2]
          exact on_self_closing_start_tag_state_beyond j html _ (by
            show peek (skip_white_spaces st.s) 0 ≠ 0
            rw [c2]; decide)
        · rw [if_neg c2, if_neg c2]
          by_cases c3 : peek (skip_white_spaces st.s) 0 = 62
          · rw [if_pos c3, if_pos c3]; rfl
          · rw [if_neg c3, if_neg c3]
            exact fail_at_beyond j html _ st _ _

theorem peek_beyond_succ (j s : List Nat) (i : Nat) (h : peek s i ≠ 0) :
    peek (s ++ 0 :: j) (i + 1) = peek s (i + 1) :=
  peek_beyond j s (i + 1) (lt_of_peek_ne_zero s i h)

theorem drop_beyond_succ (j s : List Nat) (i : Nat) (h : peek s i ≠ 0) :
    (s ++ 0 :: j).drop (i + 1) = s.drop (i + 1) ++ 0 :: j :=
  drop_beyond j s (i + 1) (lt_of_peek_ne_zero s i h)

theorem lookahead2_beyond (j : List Nat) (a b : Nat) (ha : a ≠ 0) (s : List Nat) :
    (peek (s ++ 0 :: j) 0 == a && peek (s ++ 0 :: j) 1 == b)
      = (peek s 0 == a && peek s 1 == b) := by
  rw [peek_beyond_zero]
  by_cases h : peek s 0 = a
  · rw [peek_beyond_succ j s 0 (by rw [h]; exact ha)]
  · rw [beq_false_of_ne h, Bool.false_and, Bool.false_and]

theorem lookahead3_beyond (j : List Nat) (a b : Nat) (ha : a ≠ 0) (hb : b ≠ 0)
    (f : Nat → Bool) (s : List Nat) :
    (peek (s ++ 0 :: j) 0 == a && peek (s ++ 0 :: j) 1 == b && f (peek (s ++ 0 :: j) 2))
      = (peek s 0 == a && peek s 1 == b && f (peek s 2)) := by
  rw [peek_beyond_zero]
  by_cases h : peek s 0 = a
  · rw [peek_beyond_succ j s 0 (by rw [h]; exact ha)]
    by_cases h1 : peek s 1 = b
    · rw [peek_beyond_succ j s 1 (by rw [h1]; exact hb)]
    · rw [beq_false_of_ne h1, Bool.and_false, Bool.false_and, Bool.false_and]
  · rw [beq_false_of_ne h, Bool.false_and, Bool.false_and, Bool.false_and, Bool.false_and]

theorem advance_doctype_primitive_beyond (j s : List Nat)
    (hnot : ¬ (peek s 0 = 60 ∧ peek s 1 = 33)) (hq : peek s 0 ≠ 0) :
    advance_doctype_primitive (s ++ 0 :: j) = scan_beyond j (advance_doctype_primitive s) := by
  unfold advance_doctype_primitive
  simp only []
  rw [peek_beyond_zero, peek_beyond_succ j s 0 hq]
  by_cases c1 : peek s 0 = 34 ∨ peek s 0 = 39
  · rw [if_pos c1, if_pos c1, drop_one_beyond j s hq,
      SCANFOR_beyond j (fun s1 => peek s1 0 == peek s 0) (fun t => by
        show (peek (t ++ 0 :: j) 0 == peek s 0) = (peek t 0 == peek s 0)
        rw [peek_beyond_zero])]
    generalize SCANFOR (fun s1 => peek s1 0 == peek s 0) (s.drop 1) = s1
    rw [peek_beyond_zero]
    by_cases c2 : peek s1 0 = 0
    · rw [if_pos c2, if_pos c2]; rfl
    · rw [if_neg c2, if_neg c2, drop_one_beyond j s1 c2]; rfl
  · rw [if_neg c1, if_neg c1]
    by_cases c2 : peek s 0 = 60 ∧ peek s 1 = 63
    · rw [if_pos c2, if_pos c2, drop_beyond_succ j s 1 (by rw [c2.2]; decide),
        SCANFOR_beyond j (fun s => peek s 0 == 63 && peek s 1 == 62)
          (lookahead2_beyond j 63 62 (by decide))]
      have hstop := SCANFOR_stop (fun s => peek s 0 == 63 && peek s 1 == 62) (s.drop 2)
      generalize SCANFOR (fun s => peek s 0 == 63 && peek s 1 == 62) (s.drop 2) = s1
        at hstop ⊢
      rw [peek_beyond_zero]
      by_cases c3 : peek s1 0 = 0
      · rw [if_pos c3, if_pos c3]; rfl
      · rw [if_neg c3, if_neg c3]
        rcases hstop with h0 | hx
        · exact absurd h0 c3
        · simp at hx
          rw [drop_beyond_succ j s1 1 (by rw [hx.2]; decide)]; rfl
    · rw [if_neg c2, if_neg c2]
      have c3 : ¬ (peek s 0 = 60 ∧ peek s 1 = 33 ∧ peek s 2 = 45 ∧ peek s 3 = 45) :=
        fun h => hnot ⟨h.1, h.2.1⟩
      have c4 : ¬ (peek s 0 = 60 ∧ peek s 1 = 33 ∧ peek (s ++ 0 :: j) 2 = 45
          ∧ peek (s ++ 0 :: j) 3 = 45) := fun h => hnot ⟨h.1, h.2.1⟩
      rw [if_neg c3, if_neg c4]; rfl

theorem chain3_beyond (j : List Nat) (a b c : Nat) (ha : a ≠ 0) (hb : b ≠ 0) (s : List Nat) :
    (peek (s ++ 0 :: j) 0 = a ∧ peek (s ++ 0 :: j) 1 = b ∧ peek (s ++ 0 :: j) 2 = c)
      ↔ (peek s 0 = a ∧ peek s 1 = b ∧ peek s 2 = c) := by
  rw [peek_beyond_zero]
  constructor
  · rintro ⟨h0, h1, h2⟩
    rw [peek_beyond_succ j s 0 (by rw [h0]; exact ha)] at h1
    rw [peek_beyond_succ j s 1 (by rw [h1]; exact hb)] at h2
    exact ⟨h0, h1, h2⟩
  · rintro ⟨h0, h1, h2⟩
    rw [peek_beyond_succ j s 0 (by rw [h0]; exact ha),
      peek_beyond_succ j s 1 (by rw [h1]; exact hb)]
    exact ⟨h0, h1, h2⟩

theorem advance_doctype_ignore_loop_beyond (j : List Nat) :
    ∀ (fuel fuel1 : Nat) (s : List Nat), s.length < fuel → s.length < fuel1 →
      advance_doctype_ignore_loop fuel (s ++ 0 :: j)
        = scan_beyond j (advance_doctype_ignore_loop fuel1 s) := by
  intro fuel
  induction fuel with
  | zero => intro _ s h; omega
  | succ fuel ih =>
    intro fuel1 s hf hf1
    cases fuel1 with
    | zero => omega
    | succ fuel1 =>
      rw [advance_doctype_ignore_loop, advance_doctype_ignore_loop]
      simp only [chain3_beyond j 60 33 91 (by decide) (by decide),
        chain3_beyond j 93 93 62 (by decide) (by decide)]
      rw [peek_beyond_zero]
      by_cases h0 : peek s 0 = 0
      · rw [if_pos h0, if_pos h0]; rfl
      rw [if_neg h0, if_neg h0]
      have hpos := length_pos_of_peek s h0
      have hdl : (s.drop 1).length < s.length := drop_one_shorter s h0
      rw [drop_one_beyond j s h0]
      by_cases c1 : peek s 0 = 60 ∧ peek s 1 = 33 ∧ peek s 2 = 91
      · rw [if_pos c1, if_pos c1, ih fuel1 (s.drop 1) (by omega) (by omega)]
        have hi := advance_doctype_ignore_loop_ok fuel1 (s.drop 1) (by omega)
        cases hr : advance_doctype_ignore_loop fuel1 (s.drop 1) with
        | error f => rfl
        | ok s1 =>
          rw [hr] at hi
          have := hi.2 trivial
          exact ih fuel1 s1 (by omega) (by omega)
      · rw [if_neg c1, if_neg c1]
        by_cases c2 : peek s 0 = 93 ∧ peek s 1 = 93 ∧ peek s 2 = 62
        · rw [if_pos c2, if_pos c2, drop_beyond_succ j s 2 (by rw [c2.2.2]; decide)]; rfl
        · rw [if_neg c2, if_neg c2]
          exact ih fuel1 (s.drop 1) (by omega) (by omega)

theorem advance_doctype_group_loop_beyond (j : List Nat) (endch : Nat) :
    ∀ (fuel fuel1 : Nat) (s : List Nat) (top_level : Bool), s.length < fuel →
      s.length < fuel1 →
      advance_doctype_group_loop endch fuel (s ++ 0 :: j) top_level
        = scan_beyond j (advance_doctype_group_loop endch fuel1 s top_level) := by
  intro fuel
  induction fuel with
  | zero => intro _ s _ h; omega
  | succ fuel ih =>
    intro fuel1 s tl hf hf1
    cases fuel1 with
    | zero => omega
    | succ fuel1 =>
      rw [advance_doctype_group_loop, advance_doctype_group_loop]
      rw [peek_beyond_zero]
      by_cases h0 : peek s 0 = 0
      · rw [if_pos h0, if_pos h0]
        split <;> rfl
      rw [if_neg h0, if_neg h0]
      have hpos := length_pos_of_peek s h0
      have hdl : (s.drop 1).length < s.length := drop_one_shorter s h0
      rw [peek_beyond_succ j s 0 h0]
      by_cases c1 : peek s 0 = 60 ∧ peek s 1 = 33
      · rw [if_pos c1, if_pos c1, peek_beyond_succ j s 1 (by rw [c1.2]; decide)]
        by_cases c2 : peek s 2 = 91
        · rw [if_pos c2, if_pos c2]
          unfold advance_doctype_ignore
          rw [drop_one_beyond j s h0,
            advance_doctype_ignore_loop_beyond j fuel fuel1 (s.drop 1) (by omega) (by omega)]
          have hi := advance_doctype_ignore_loop_ok fuel1 (s.drop 1) (by omega)
          cases hr : advance_doctype_ignore_loop fuel1 (s.drop 1) with
          | error f => rfl
          | ok s1 =>
            rw [hr] at hi
            have := hi.2 trivial
            exact ih fuel1 s1 tl (by omega) (by omega)
        · rw [if_neg c2, if_neg c2, drop_one_beyond j s h0,
            ih fuel1 (s.drop 1) false (by omega) (by omega)]
          have hg := advance_doctype_group_loop_ok endch fuel1 (s.drop 1) false (by omega)
          cases hr : advance_doctype_group_loop endch fuel1 (s.drop 1) false with
          | error f => rfl
          | ok s1 =>
            rw [hr] at hg
            have := advanced_length hg.1
            exact ih fuel1 s1 tl (by omega) (by omega)
      · rw [if_neg c1, if_neg c1]
        by_cases c2 : peek s 0 = 60 ∨ peek s 0 = 34 ∨ peek s 0 = 39
        · rw [if_pos c2, if_pos c2, advance_doctype_primitive_beyond j s c1 h0]
          have hp := advance_doctype_primitive_ok s c1 h0
          cases hr : advance_doctype_primitive s with
          | error f => rfl
          | ok s1 =>
            rw [hr] at hp
            have := hp.2 trivial
            exact ih fuel1 s1 tl (by omega) (by omega)
        · rw [if_neg c2, if_neg c2]
          by_cases c3 : peek s 0 = 62
          · rw [if_pos c3, if_pos c3, drop_one_beyond j s h0]; rfl
          · rw [if_neg c3, if_neg c3, drop_one_beyond j s h0]
            exact ih fuel1 (s.drop 1) tl (by omega) (by omega)

theorem advance_doctype_group_beyond (j : List Nat) (fuel fuel1 : Nat) (s : List Nat)
    (endch : Nat) (top_level : Bool) (h0 : peek s 0 ≠ 0) (hf : s.length ≤ fuel)
    (hf1 : s.length ≤ fuel1) :
    advance_doctype_group fuel (s ++ 0 :: j) endch top_level
      = scan_beyond j (advance_doctype_group fuel1 s endch top_level) := by
  unfold advance_doctype_group
  have := drop_one_shorter s h0
  rw [drop_one_beyond j s h0]
  exact advance_doctype_group_loop_beyond j endch fuel fuel1 _ top_level (by omega) (by omega)

theorem cdata_chain_beyond (j s : List Nat) (h0 : peek s 0 ≠ 0) :
    (peek (s ++ 0 :: j) 1 = 67 ∧ peek (s ++ 0 :: j) 2 = 68 ∧ peek (s ++ 0 :: j) 3 = 65
      ∧ peek (s ++ 0 :: j) 4 = 84 ∧ peek (s ++ 0 :: j) 5 = 65 ∧ peek (s ++ 0 :: j) 6 = 91)
    ↔ (peek s 1 = 67 ∧ peek s 2 = 68 ∧ peek s 3 = 65 ∧ peek s 4 = 84 ∧ peek s 5 = 65
      ∧ peek s 6 = 91) := by
  rw [peek_beyond_succ j s 0 h0]
  refine and_congr_right (fun h1 => ?_)
  rw [peek_beyond_succ j s 1 (by rw [h1]; decide)]
  refine and_congr_right (fun h2 => ?_)
  rw [peek_beyond_succ j s 2 (by rw [h2]; decide)]
  refine and_congr_right (fun h3 => ?_)
  rw [peek_beyond_succ j s 3 (by rw [h3]; decide)]
  refine and_congr_right (fun h4 => ?_)
  rw [peek_beyond_succ j s 4 (by rw [h4]; decide)]
  refine and_congr_right (fun h5 => ?_)
  rw [peek_beyond_succ j s 5 (by rw [h5]; decide)]

theorem doctype_chain_beyond (j s : List Nat) (P : Nat → Prop) :
    (peek (s ++ 0 :: j) 0 = 68 ∧ peek (s ++ 0 :: j) 1 = 79 ∧ peek (s ++ 0 :: j) 2 = 67
      ∧ peek (s ++ 0 :: j) 3 = 84 ∧ peek (s ++ 0 :: j) 4 = 89 ∧ peek (s ++ 0 :: j) 5 = 80
      ∧ P (peek (s ++ 0 :: j) 6))
    ↔ (peek s 0 = 68 ∧ peek s 1 = 79 ∧ peek s 2 = 67 ∧ peek s 3 = 84 ∧ peek s 4 = 89
      ∧ peek s 5 = 80 ∧ P (peek s 6)) := by
  rw [peek_beyond_zero]
  refine and_congr_right (fun h0 => ?_)
  rw [peek_beyond_succ j s 0 (by rw [h0]; decide)]
  refine and_congr_right (fun h1 => ?_)
  rw [peek_beyond_succ j s 1 (by rw [h1]; decide)]
  refine and_congr_right (fun h2 => ?_)
  rw [peek_beyond_succ j s 2 (by rw [h2]; decide)]
  refine and_congr_right (fun h3 => ?_)
  rw [peek_beyond_succ j s 3 (by rw [h3]; decide)]
  refine and_congr_right (fun h4 => ?_)
  rw [peek_beyond_succ j s 4 (by rw [h4]; decide)]
  refine and_congr_right (fun h5 => ?_)
  rw [peek_beyond_succ j s 5 (by rw [h5]; decide)]

theorem parse_exclamation_beyond (j : List Nat) (o : parse_options) (cur : node)
    (s0 : List Nat) (h0 : peek s0 0 ≠ 0) (h33 : peek s0 1 = 33) :
    parse_exclamation o cur (s0 ++ 0 :: j) default_endch
      = match parse_exclamation o cur s0 default_endch with
        | .ok r => .ok (r.1 ++ 0 :: j, r.2)
        | .error f => .error f := by
  have hd2 : (s0 ++ 0 :: j).drop 2 = s0.drop 2 ++ 0 :: j :=
    drop_beyond_succ j s0 1 (by rw [h33]; decide)
  unfold parse_exclamation
  simp only []
  rw [hd2]
  generalize hs : s0.drop 2 = s
  rw [peek_beyond_zero]
  by_cases c1 : peek s 0 = 45
  · rw [if_pos c1, if_pos c1, drop_one_beyond j s (by rw [c1]; decide), peek_beyond_zero]
    by_cases c2 : peek (s.drop 1) 0 ≠ 45
    · rw [if_pos c2, if_pos c2]
    · rw [if_neg c2, if_neg c2]
      have c2' : peek (s.drop 1) 0 = 45 := not_not.1 c2
      rw [drop_one_beyond j (s.drop 1) (by rw [c2']; decide)]
      generalize (s.drop 1).drop 1 = s3
      rw [SCANFOR_beyond j (fun s => peek s 0 == 45 && peek s 1 == 45
        && ENDSWITH default_endch (peek s 2) 62)
        (fun t => lookahead3_beyond j 45 45 (by decide) (by decide)
          (fun c => ENDSWITH default_endch c 62) t)]
      have hstop := SCANFOR_stop (fun s => peek s 0 == 45 && peek s 1 == 45
        && ENDSWITH default_endch (peek s 2) 62) s3
      generalize SCANFOR (fun s => peek s 0 == 45 && peek s 1 == 45
        && ENDSWITH default_endch (peek s 2) 62) s3 = s4 at hstop ⊢
      rw [peek_beyond_zero]
      by_cases c3 : peek s4 0 = 0
      · rw [if_pos c3, if_pos c3]
      · rw [if_neg c3, if_neg c3]
        rcases hstop with hz | hx
        · exact absurd hz c3
        · simp only [Bool.and_eq_true, beq_iff_eq] at hx
          have h2 : peek s4 2 = 62 := (ENDSWITH_default _ 62 (by decide)).1 hx.2
          rw [mk_string_scan_beyond, peek_beyond_succ j s4 1 (by rw [hx.1.2]; decide),
            if_pos h2, drop_beyond_succ j s4 2 (by rw [h2]; decide)]
  · rw [if_neg c1, if_neg c1]
    by_cases c2 : peek s 0 = 91
    · rw [if_pos c2, if_pos c2]
      have hiff := cdata_chain_beyond j s (by rw [c2]; decide)
      by_cases c3 : peek s 1 = 67 ∧ peek s 2 = 68 ∧ peek s 3 = 65 ∧ peek s 4 = 84
          ∧ peek s 5 = 65 ∧ peek s 6 = 91
      · rw [if_neg (not_not.2 c3), if_neg (not_not.2 (hiff.2 c3))]
        rw [drop_beyond_succ j s 5 (by rw [c3.2.2.2.2.1]; decide)]
        have c6 : peek (s.drop 6) 0 ≠ 0 := by
          rw [peek_drop]; rw [c3.2.2.2.2.2]; decide
        rw [drop_one_beyond j (s.drop 6) c6]
        generalize (s.drop 6).drop 1 = s3
        rw [SCANFOR_beyond j (fun s => peek s 0 == 93 && peek s 1 == 93
          && ENDSWITH default_endch (peek s 2) 62)
          (fun t => lookahead3_beyond j 93 93 (by decide) (by decide)
            (fun c => ENDSWITH default_endch c 62) t)]
        have hstop := SCANFOR_stop (fun s => peek s 0 == 93 && peek s 1 == 93
          && ENDSWITH default_endch (peek s 2) 62) s3
        generalize SCANFOR (fun s => peek s 0 == 93 && peek s 1 == 93
          && ENDSWITH default_endch (peek s 2) 62) s3 = s4 at hstop ⊢
        rw [peek_beyond_zero]
        by_cases c4 : peek s4 0 = 0
        · rw [if_pos c4, if_pos c4]
        · rw [if_neg c4, if_neg c4]
          rcases hstop with hz | hx
          · exact absurd hz c4
          · simp only [Bool.and_eq_true, beq_iff_eq] at hx
            have h2 : peek s4 2 = 62 := (ENDSWITH_default _ 62 (by decide)).1 hx.2
            have h2' : peek (s4.drop 1) 1 = 62 := by rw [peek_drop]; exact h2
            have h1' : peek (s4.drop 1) 0 ≠ 0 := by
              rw [peek_drop]; rw [hx.1.2]; decide
            have hlen : (mk_string (s3 ++ 0 :: j) (ptr_sub (s4 ++ 0 :: j) (s3 ++ 0 :: j) + 1))
                = mk_string s3 (ptr_sub s4 s3 + 1) := by
              rw [ptr_sub_beyond]
              have := lt_of_peek_ne_zero s4 0 c4
              exact mk_string_beyond j s3 _ (by unfold ptr_sub; omega)
            rw [hlen, drop_one_beyond j s4 c4, peek_beyond_succ j (s4.drop 1) 0 h1',
              if_pos h2', drop_beyond_succ j (s4.drop 1) 1 (by rw [h2']; decide)]
      · rw [if_pos c3, if_pos (fun h => c3 (hiff.1 h))]
    · rw [if_neg c2, if_neg c2]
      have hiff := doctype_chain_beyond j s (fun c => ENDSWITH default_endch c 69 = true)
      rw [peek_beyond_zero] at hiff
      by_cases c3 : peek s 0 = 68 ∧ peek s 1 = 79 ∧ peek s 2 = 67 ∧ peek s 3 = 84
          ∧ peek s 4 = 89 ∧ peek s 5 = 80 ∧ ENDSWITH default_endch (peek s 6) 69 = true
      · rw [if_pos c3, if_pos (hiff.2 c3)]
        have h6 : peek s 6 = 69 := (ENDSWITH_default _ 69 (by decide)).1 c3.2.2.2.2.2.2
        have h8 : peek s0 8 ≠ 0 := by
          have := peek_drop s0 2 6
          rw [hs, h6] at this
          rw [← this]; decide
        rw [drop_beyond_succ j s0 8 h8,
          advance_doctype_group_beyond j _ (s0.length + 1) s0 _ _ h0 (by simp; omega)
            (by omega)]
        cases hr : advance_doctype_group (s0.length + 1) s0 default_endch default_top_level with
        | error f => rfl
        | ok s1 =>
          simp only [scan_beyond]
          rw [skip_white_spaces_beyond, ptr_sub_beyond,
            mk_string_beyond j _ _ (by unfold ptr_sub; omega)]
      · rw [if_neg c3, if_neg (fun h => c3 (hiff.1 h))]
        split_ifs <;> rfl

theorem beyond_ok (j : List Nat) (st : parse_state) :
    (outcome.ok st).beyond j = .ok (st.beyond j) := rfl

theorem final_beyond (j : List Nat) (r : outcome)
    (hgt : ∀ st1, r = .ok st1 → peek st1.s 0 = 62) :
    (r.beyond j).and_then (fun st => .ok { st with s := st.s.drop 1 })
      = (r.and_then fun st => .ok { st with s := st.s.drop 1 }).beyond j := by
  cases r with
  | fail f st1 => rfl
  | ok st1 =>
    have := drop_one_beyond j st1.s (by rw [hgt st1 rfl]; decide)
    simp only [outcome.and_then, outcome.beyond, parse_state.beyond]
    rw [this]

theorem on_tag_open_state_beyond (j : List Nat) {html : string_type} {st : parse_state}
    (o : parse_options) (h : state_ok html st) (hc : peek st.s 0 = 60) :
    on_tag_open_state o (html ++ 0 :: j) (st.beyond j)
      = (on_tag_open_state o html st).beyond j := by
  have hd : advanced st.s (st.s.drop 1) := advanced_drop_one _ (by rw [hc]; decide)
  unfold on_tag_open_state
  simp only [parse_state.beyond]
  rw [drop_one_beyond j st.s (by rw [hc]; decide)]
  generalize hs : st.s.drop 1 = s at hd ⊢
  rw [peek_beyond_zero]
  by_cases c1 : is_chartype (peek s 0) ct_start_symbol = true
  · rw [if_pos c1, if_pos c1,
      SCANWHILE_beyond j (fun c => is_chartype c ct_symbol) (by decide), mk_string_scan_beyond]
    have a1 : advanced s (SCANWHILE (fun c => is_chartype c ct_symbol) s) :=
      advanced_SCANWHILE (fun c => is_chartype c ct_symbol) (by decide) s
    have hname := uppercase_of_input_scan (advanced_trans h.cursor hd) a1
    generalize SCANWHILE (fun c => is_chartype c ct_symbol) s = s1 at a1 hname ⊢
    obtain ⟨st1, e1, hok1, hs1, hanc1⟩ :=
      on_tag_start_ok (state_ok_cursor h (advanced_trans hd a1)) _ hname
    have e0 : parse_state.mk (s1 ++ 0 :: j) st.current_node_ st.ancestors
        st.last_element_void = ({ st with s := s1 } : parse_state).beyond j := rfl
    rw [e0, on_tag_start_beyond, e1, beyond_ok, and_then_ok, and_then_ok]
    have hgt : ∀ st2, (if peek st1.s 0 = 62 then
          outcome.ok { st1 with last_element_void := is_void_element st1.current_node_.name }
        else if is_chartype (peek st1.s 0) ct_space then
          attribute_loop html (st1.s.length + 1) st1
        else if peek st1.s 0 = 47 then on_self_closing_start_tag_state html st1
        else
          .fail (.thrown (.at_pos .status_bad_start_element html (offset html st1.s) []))
            st1) = .ok st2 → peek st2.s 0 = 62 := by
      intro st2 hst2
      by_cases c2 : peek st1.s 0 = 62
      · rw [if_pos c2] at hst2
        cases hst2
        exact c2
      · rw [if_neg c2] at hst2
        by_cases c3 : is_chartype (peek st1.s 0) ct_space = true
        · rw [if_pos c3] at hst2
          exact attribute_loop_gt html _ st1 st2 hst2
        · rw [if_neg c3] at hst2
          by_cases c4 : peek st1.s 0 = 47
          · rw [if_pos c4] at hst2
            exact on_self_closing_start_tag_state_gt html st1 st2 hst2
          · rw [if_neg c4] at hst2
            cases hst2
    rw [← final_beyond j _ hgt]
    congr 1
    simp only [parse_state.beyond]
    rw [peek_beyond_zero]
    by_cases c2 : peek st1.s 0 = 62
    · rw [if_pos c2, if_pos c2]; rfl
    · rw [if_neg c2, if_neg c2]
      by_cases c3 : is_chartype (peek st1.s 0) ct_space = true
      · rw [if_pos c3, if_pos c3]
        exact attribute_loop_beyond j _ _ st1 hok1 hanc1 (by simp; omega) (by omega)
      · rw [if_neg c3, if_neg c3]
        by_cases c4 : peek st1.s 0 = 47
        · rw [if_pos c4, if_pos c4]
          exact on_self_closing_start_tag_state_beyond j html st1 (by rw [c4]; decide)
        · rw [if_neg c4, if_neg c4]
          exact fail_at_beyond j html st1.s st1 _ _
  · rw [if_neg c1, if_neg c1]
    by_cases c2 : peek s 0 = 47
    · rw [if_pos c2, if_pos c2, drop_one_beyond j s (by rw [c2]; decide),
        SCANWHILE_beyond j (fun c => is_chartype c ct_symbol) (by decide),
        mk_string_scan_beyond]
      generalize SCANWHILE (fun c => is_chartype c ct_symbol) (s.drop 1) = s1
      generalize str_toupper (mk_string (s.drop 1) (ptr_sub s1 (s.drop 1) - 1 + 1)) = name
      have e0 : parse_state.mk (s1 ++ 0 :: j) st.current_node_ st.ancestors
          st.last_element_void = ({ st with s := s1 } : parse_state).beyond j := rfl
      rw [e0, on_closing_tag_beyond]
      apply and_then_beyond
      intro st2 _
      simp only [parse_state.beyond]
      rw [skip_white_spaces_beyond, peek_beyond_zero]
      by_cases c3 : peek (skip_white_spaces st2.s) 0 ≠ 62
      · rw [if_pos c3, if_pos c3]; rfl
      · rw [if_neg c3, if_neg c3,
          drop_one_beyond j _ (by rw [not_not.1 c3]; decide)]
        rfl
    · rw [if_neg c2, if_neg c2]
      by_cases c3 : peek s 0 = 33
      · rw [if_pos c3, if_pos c3]
        have h33 : peek st.s 1 = 33 := by
          have := peek_drop st.s 1 0
          rw [hs] at this
          rw [← this]; exact c3
        rw [parse_exclamation_beyond j o st.current_node_ st.s (by rw [hc]; decide) h33]
        cases hr : parse_exclamation o st.current_node_ st.s default_endch with
        | error f =>
          obtain ⟨status, hf, _⟩ : ∃ status, f = .thrown (.of_status status)
              ∧ (status = .status_unrecognized_tag ∨ status = .status_bad_comment
                ∨ status = .status_bad_cdata ∨ status = .status_bad_doctype) := by
            have hpe := parse_exclamation_ok o st.current_node_ st.s h33
            rw [hr] at hpe
            exact hpe
          rw [hf]
          rfl
        | ok r => rfl
      · rw [if_neg c3, if_neg c3]
        exact fail_at_beyond j html s st _ _

theorem parse_pcdata_beyond (j : List Nat) (st : parse_state) :
    parse_pcdata (st.beyond j) = (parse_pcdata st).beyond j := by
  unfold parse_pcdata
  simp only [parse_state.beyond]
  rw [SCANWHILE_beyond j (fun c => !is_chartype c ct_parse_pcdata) (by decide),
    mk_string_scan_beyond]
  exact on_pcdata_beyond j _ { st with s := SCANWHILE (fun c => !is_chartype c ct_parse_pcdata) st.s }

theorem take_literal_beyond (j w t : List Nat) (hw : 0 ∉ w) :
    (t ++ 0 :: j).take w.length = w ↔ t.take w.length = w := by
  by_cases hl : w.length ≤ t.length
  · rw [take_beyond j t _ hl]
  · have hlt : t.length < w.length := Nat.lt_of_not_le hl
    constructor
    · intro h
      exfalso
      apply hw
      rw [← h, List.take_append_eq_append_take]
      obtain ⟨k, hk⟩ : ∃ k, w.length - t.length = k + 1 := ⟨w.length - t.length - 1, by omega⟩
      rw [hk]
      simp
    · intro h
      exfalso
      have := congrArg List.length h
      rw [List.length_take] at this
      omega

theorem parse_script_loop_beyond (j start : List Nat) :
    ∀ s : List Nat, parse_script_loop (start ++ 0 :: j) (s ++ 0 :: j)
      = ((parse_script_loop start s).1 ++ 0 :: j, (parse_script_loop start s).2) := by
  intro s
  induction s with
  | nil => simp [parse_script_loop]
  | cons c s ih =>
    have hw : (0 : Nat) ∉ ascii "</script>" := by decide
    have hlit := take_literal_beyond j (ascii "</script>") (c :: s) hw
    have h9 : (ascii "</script>").length = 9 := by decide
    rw [h9, List.cons_append] at hlit
    rw [List.cons_append, parse_script_loop, parse_script_loop]
    by_cases c0 : c = 0
    · rw [if_pos c0, if_pos c0]; rfl
    · rw [if_neg c0, if_neg c0]
      by_cases c1 : (c :: s).take 9 = ascii "</script>"
      · rw [if_pos c1, if_pos (hlit.2 c1)]
        have := ptr_sub_beyond j (c :: s) start
        rw [List.cons_append] at this
        rw [this]
        rfl
      · rw [if_neg c1, if_neg (fun h => c1 (hlit.1 h))]
        exact ih

theorem parse_script_loop_len (start : List Nat) :
    ∀ s : List Nat, (parse_script_loop start s).2 = 0
      ∨ (parse_script_loop start s).2 + 1 ≤ start.length := by
  intro s
  induction s with
  | nil => left; rfl
  | cons c s ih =>
    rw [parse_script_loop]
    split
    · left; rfl
    · split
      · right
        show ptr_sub (c :: s) start - 1 + 1 ≤ _
        unfold ptr_sub
        omega
      · exact ih

theorem parse_script_beyond (j : List Nat) (st : parse_state) (h0 : peek st.s 0 ≠ 0) :
    parse_script (st.beyond j) = (parse_script st).beyond j := by
  unfold parse_script
  simp only [parse_state.beyond]
  rw [parse_script_loop_beyond]
  simp only []
  have hlen : (parse_script_loop st.s st.s).2 + 1 ≤ st.s.length := by
    have hpos := length_pos_of_peek st.s h0
    rcases parse_script_loop_len st.s st.s with h | h
    · rw [h]; omega
    · exact h
  rw [mk_string_beyond j st.s _ hlen]
  rfl

theorem parse_step_beyond (j : List Nat) {html : string_type} {st : parse_state}
    (o : parse_options) (h : state_ok html st) (h0 : peek st.s 0 ≠ 0) :
    parse_step o (html ++ 0 :: j) (st.beyond j) = (parse_step o html st).beyond j := by
  have e : peek (st.beyond j).s 0 = peek st.s 0 := peek_beyond_zero j st.s
  have en : (st.beyond j).current_node_ = st.current_node_ := rfl
  unfold parse_step
  rw [e, en]
  by_cases c1 : peek st.s 0 = 60
  · rw [if_pos c1, if_pos c1]
    exact on_tag_open_state_beyond j o h c1
  · rw [if_neg c1, if_neg c1]
    split
    · exact parse_script_beyond j st h0
    · exact parse_pcdata_beyond j st

theorem parse_loop_beyond (j : List Nat) {html : string_type} (o : parse_options) :
    ∀ (fuel fuel1 : Nat) (st : parse_state), state_ok html st → st.s.length < fuel →
      st.s.length < fuel1 →
      parse_loop o (html ++ 0 :: j) fuel (st.beyond j)
        = (parse_loop o html fuel1 st).beyond j := by
  intro fuel
  induction fuel with
  | zero => intro _ st _ hf; omega
  | succ fuel ih =>
    intro fuel1 st h hf hf1
    cases fuel1 with
    | zero => omega
    | succ fuel1 =>
      have e : peek (st.beyond j).s 0 = peek st.s 0 := peek_beyond_zero j st.s
      rw [parse_loop, parse_loop, e]
      by_cases h0 : peek st.s 0 = 0
      · rw [if_pos h0, if_pos h0]; rfl
      · rw [if_neg h0, if_neg h0, parse_step_beyond j o h h0]
        apply and_then_beyond
        intro st1 hr
        have hs := parse_step_ok o h h0
        rw [hr] at hs
        have h1 := advanced_length hs.2
        have h2 := drop_one_shorter st.s h0
        exact ih fuel1 st1 hs.1 (by omega) (by omega)

theorem parse_run_beyond (j : List Nat) (o : parse_options) (html : string_type) :
    parse_run o (html ++ 0 :: j) = (parse_run o html).beyond j := by
  have e : parse_run o html = parse_loop o html (html.length + 1) (initial_state html) := by
    unfold parse_run
    split
    · rename_i hl
      have : html = [] := List.length_eq_zero.1 hl
      subst this
      rfl
    · rfl
  have e1 : parse_run o (html ++ 0 :: j)
      = parse_loop o (html ++ 0 :: j) ((html ++ 0 :: j).length + 1)
          ((initial_state html).beyond j) := by
    unfold parse_run
    rw [if_neg (by simp)]
    rfl
  rw [e, e1]
  exact parse_loop_beyond j o _ _ _ (initial_state_ok html) (by simp [initial_state]; omega)
    (by simp [initial_state])

/-! ## C20: termination and the cursor -/

/-- C20: parsing terminates and the cursor stays inside the buffer.  For every input and
every option set (1) `parse` ends, returning the document with the cursor on a NUL or
raising one `parse_error`, the loop never running out of the `size + 1` iterations and
no null parent being followed; (2) from every state the loop can be in, with the cursor
not on a NUL, one iteration raises a `parse_error` or moves the cursor strictly
forward; (3) every call of the doctype group scanner and of the ignore-section scanner,
the recursive ones included, raises `status_bad_doctype` or moves the cursor strictly
forward; (4) the cursor only ever moves forward over bytes that are not NUL, so it
never passes the terminating NUL; (5) no byte after the terminating NUL is read: with
any bytes `junk` after that NUL the parse is the same, up to the buffer itself. -/
theorem C20_parse_terminates_inside_buffer (o : parse_options) (html : string_type) :
    ((∃ st, parse_run o html = .ok st ∧ parse o html = .returned (get_document st)
        ∧ peek st.s 0 = 0 ∧ advanced html st.s)
      ∨ (∃ e st, parse_run o html = .fail (.thrown e) st
        ∧ parse o html = .failed (.thrown e) (get_document st) ∧ advanced html st.s))
    ∧ (∀ st : parse_state, state_ok html st → peek st.s 0 ≠ 0 →
        (∃ st1, parse_step o html st = .ok st1 ∧ state_ok html st1 ∧ advanced st.s st1.s
          ∧ st1.s.length < st.s.length)
        ∨ (∃ e st1, parse_step o html st = .fail (.thrown e) st1 ∧ state_ok html st1))
    ∧ state_ok html (initial_state html)
    ∧ (∀ (fuel : Nat) (s : List Nat) (endch : Nat) (top_level : Bool),
        peek s 0 ≠ 0 → s.length ≤ fuel →
        (∃ s1, advance_doctype_group fuel s endch top_level = .ok s1 ∧ advanced s s1
          ∧ s1.length < s.length)
        ∨ advance_doctype_group fuel s endch top_level
            = .error (.thrown (.of_status .status_bad_doctype)))
    ∧ (∀ (fuel : Nat) (s : List Nat), peek s 0 ≠ 0 → s.length ≤ fuel →
        (∃ s1, advance_doctype_ignore fuel s = .ok s1 ∧ advanced s s1
          ∧ s1.length < s.length)
        ∨ advance_doctype_ignore fuel s = .error (.thrown (.of_status .status_bad_doctype)))
    ∧ (∀ junk : List Nat,
        parse_run o (html ++ 0 :: junk) = (parse_run o html).beyond junk) := by
  refine ⟨?_, fun st h h0 => parse_step_advances o h h0, initial_state_ok html, ?_, ?_,
    fun junk => parse_run_beyond junk o html⟩
  · rcases parse_run_terminates o html with ⟨st, h, h1, h2⟩ | ⟨e, st, h, h1⟩
    · exact Or.inl ⟨st, h, by unfold parse; rw [h], h1, h2⟩
    · exact Or.inr ⟨e, st, h, by unfold parse; rw [h], h1⟩
  · intro fuel s endch tl h0 hf
    have hg := advance_doctype_group_ok fuel s endch tl h0 hf
    cases hr : advance_doctype_group fuel s endch tl with
    | ok s1 => rw [hr] at hg; exact Or.inl ⟨s1, rfl, hg.1, hg.2 trivial⟩
    | error f => rw [hr] at hg; exact Or.inr (congrArg _ hg)
  · intro fuel s h0 hf
    have hg := advance_doctype_ignore_ok fuel s h0 hf
    cases hr : advance_doctype_ignore fuel s with
    | ok s1 => rw [hr] at hg; exact Or.inl ⟨s1, rfl, hg.1, hg.2 trivial⟩
    | error f => rw [hr] at hg; exact Or.inr (congrArg _ hg)

/-- C20 at the buffer `<p>a`, NUL, `</p><b>`: the parse ends at the NUL with P left open
and the text `a` in it, exactly as on `<p>a` alone; the bytes after the NUL play no
part. -/
theorem C20_parse_terminates_inside_buffer_witness :
    parse_run ⟨false, false, false⟩ (ascii "<p>a" ++ 0 :: ascii "</p><b>")
      = .ok { s := 0 :: ascii "</p><b>",
              current_node_ := element_node (ascii "P") [text_node (ascii "a")],
              ancestors := [document_node []], last_element_void := false } :=
  have h := (C20_parse_terminates_inside_buffer ⟨false, false, false⟩ (ascii "<p>a")).2.2.2.2.2
    (ascii "</p><b>")
  have e : parse_run ⟨false, false, false⟩ (ascii "<p>a")
      = .ok { s := [],
              current_node_ := element_node (ascii "P") [text_node (ascii "a")],
              ancestors := [document_node []], last_element_void := false } := by rfl
  h.trans (by rw [e]; rfl)

/-! ## C22: SCRIPT content that is not closed -/

theorem parse_script_loop_unterminated (start : List Nat) :
    ∀ c : List Nat, 0 ∉ c →
      (∀ i < c.length, (c.drop i).take 9 ≠ ascii "</script>") →
      parse_script_loop start c = ([], 0) := by
  intro c
  induction c with
  | nil => intro _ _; rfl
  | cons x c ih =>
    intro h0 hX
    have hx : x ≠ 0 := fun h => h0 (by simp [h])
    have h1 : (x :: c).take 9 ≠ ascii "</script>" := by
      simpa using hX 0 (by simp)
    rw [parse_script_loop, if_neg hx, if_neg h1]
    apply ih (fun h => h0 (by simp [h]))
    intro i hi
    simpa using hX (i + 1) (by simpa using hi)

/-- C22.  For every non-empty content `c` that does not begin with `<` and holds neither
the literal `</script>` nor NUL, parsing `<script>` followed by `c` completes without a
failure with the cursor at the end of the input; `SCRIPT`, still the current node, has
exactly one child, a cdata-kind node whose value is the first byte of `c` alone, and
that is all the returned document holds. -/
theorem C22_unterminated_script_keeps_one_byte (o : parse_options) (c : List Nat)
    (hne : c ≠ []) (hlt : c.head? ≠ some 60) (h0 : 0 ∉ c)
    (hc : ¬ ascii "</script>" <:+: c) :
    parse_run o (ascii "<script>" ++ c)
      = .ok { s := [],
              current_node_ := element_node (ascii "SCRIPT") [text_node (c.take 1)],
              ancestors := [document_node []], last_element_void := false }
    ∧ parse o (ascii "<script>" ++ c)
      = .returned (document_node [element_node (ascii "SCRIPT") [text_node (c.take 1)]]) := by
  obtain ⟨x, c, rfl⟩ : ∃ x c', c = x :: c' := by
    cases c with
    | nil => exact absurd rfl hne
    | cons x c' => exact ⟨x, c', rfl⟩
  have hx60 : x ≠ 60 := fun h => hlt (by simp [h])
  have hx0 : x ≠ 0 := fun h => h0 (by simp [h])
  generalize hh : ascii "<script>" ++ (x :: c) = html
  have hhtml : html = 60 :: 115 :: ([99, 114, 105, 112, 116] ++ 62 :: (x :: c)) := by
    rw [← hh, ascii_script_start]; simp
  have hlen : html.length = c.length + 9 := by
    rw [hhtml]; simp
  have hrun : parse_run o html = .ok
      { s := [],
        current_node_ := element_node (ascii "SCRIPT") [text_node ((x :: c).take 1)],
        ancestors := [document_node []], last_element_void := false } := by
    unfold parse_run
    rw [if_neg (by omega)]
    obtain ⟨f, hf⟩ : ∃ g, html.length + 1 = g + 3 := ⟨html.length - 2, by omega⟩
    rw [hf]
    unfold initial_state
    rw [parse_loop_step o html (f + 2) _
      { s := x :: c,
        current_node_ := element_node (ascii "SCRIPT") [],
        ancestors := [document_node []], last_element_void := false }
      (by rw [hhtml]; simp [peek])]
    · rw [parse_loop_step o html (f + 1) _
        { s := [],
          current_node_ := element_node (ascii "SCRIPT") [text_node ((x :: c).take 1)],
          ancestors := [document_node []], last_element_void := false }
        (by simpa [peek] using hx0)]
      · exact parse_loop_done _ _ _ _ (by rfl)
      · unfold parse_step
        rw [if_neg (by simpa [peek] using hx60), if_pos (by rfl)]
        unfold parse_script
        simp only []
        rw [parse_script_loop_unterminated _ (x :: c) h0
          (fun i _ h => hc (isInfix_of_drop _ _ i (h ▸ List.take_prefix 9 _)))]
        rfl
    · unfold parse_step
      rw [if_pos (by rw [hhtml]; rfl)]
      rw [on_tag_open_state_start o html 115 [99, 114, 105, 112, 116] _ _ (by decide)
        (by decide) hhtml]
      rfl
  refine ⟨hrun, ?_⟩
  unfold parse
  rw [hrun]
  rfl

/-- C22 at the content `var a = 1;`: the value kept is `v`. -/
theorem C22_unterminated_script_keeps_one_byte_witness :
    parse_run ⟨false, false, false⟩ (ascii "<script>" ++ ascii "var a = 1;")
      = .ok { s := [],
              current_node_ := element_node (ascii "SCRIPT") [text_node (ascii "v")],
              ancestors := [document_node []], last_element_void := false }
    ∧ parse ⟨false, false, false⟩ (ascii "<script>" ++ ascii "var a = 1;")
      = .returned (document_node [element_node (ascii "SCRIPT") [text_node (ascii "v")]]) :=
  C22_unterminated_script_keeps_one_byte ⟨false, false, false⟩ (ascii "var a = 1;")
    (by decide) (by decide) (by decide) (by decide)

/-! ## The flag `last_element_void` and the node it is set on -/

theorem children_append_attribute (p : node) (x : attr) :
    (p.append_attribute x).children = p.children := by
  cases p; rfl

theorem children_append_child (p c : node) :
    (p.append_child c).children = p.children ++ [c] := by
  cases p; rfl

theorem type_value_node (t : node_type) (v : string_type) :
    ((node.create t).set_value v).type = t := rfl

theorem on_tag_start_fresh (tn : string_type) (st st1 : parse_state)
    (h : on_tag_start tn st = .ok st1) :
    st1.current_node_.type = .node_element ∧ st1.current_node_.children = []
      ∧ st1.ancestors ≠ [] := by
  unfold on_tag_start at h
  cases hl : leave_void_element st with
  | none => rw [hl] at h; cases h
  | some st0 =>
    rw [hl] at h
    cases h
    exact ⟨rfl, rfl, by simp⟩

theorem on_attribute_name_state_shape (html : string_type) (st st1 : parse_state)
    (h : on_attribute_name_state html st = .ok st1) :
    st1.current_node_.type = st.current_node_.type
      ∧ st1.current_node_.children = st.current_node_.children
      ∧ st1.ancestors = st.ancestors := by
  unfold on_attribute_name_state at h
  simp only [on_attribute] at h
  split_ifs at h <;>
    (cases h; exact ⟨type_append_attribute _ _, children_append_attribute _ _, rfl⟩)

theorem on_self_closing_start_tag_state_shape (html : string_type) (st st1 : parse_state)
    (h : on_self_closing_start_tag_state html st = .ok st1) :
    st1.current_node_ = st.current_node_ ∧ st1.ancestors = st.ancestors := by
  unfold on_self_closing_start_tag_state at h
  simp only [] at h
  split at h
  · cases h
  · cases h; exact ⟨rfl, rfl⟩

theorem attribute_loop_shape (html : string_type) :
    ∀ (fuel : Nat) (st st1 : parse_state), attribute_loop html fuel st = .ok st1 →
      st1.current_node_.type = st.current_node_.type
        ∧ st1.current_node_.children = st.current_node_.children
        ∧ st1.ancestors = st.ancestors := by
  intro fuel
  induction fuel with
  | zero => intro st st1 h; simp [attribute_loop] at h
  | succ fuel ih =>
    intro st st1 h
    rw [attribute_loop] at h
    simp only [] at h
    split at h
    · cases hr : on_attribute_name_state html { st with s := skip_white_spaces st.s } with
      | fail f st2 => rw [hr] at h; simp [outcome.and_then] at h
      | ok st2 =>
        rw [hr] at h
        have h1 := on_attribute_name_state_shape html _ st2 hr
        have h2 := ih st2 st1 h
        exact ⟨h2.1.trans h1.1, h2.2.1.trans h1.2.1, h2.2.2.trans h1.2.2⟩
    · split at h
      · have := on_self_closing_start_tag_state_shape html _ st1 h
        exact ⟨by rw [this.1], by rw [this.1], this.2⟩
      · split at h
        · cases h
          exact ⟨rfl, rfl, rfl⟩
        · cases h

theorem on_closing_tag_flag {html : string_type} {st st1 : parse_state}
    (h : state_ok html st) (tn : string_type) (hr : on_closing_tag html tn st = .ok st1) :
    st1.last_element_void = false := by
  obtain ⟨st0, h0, hok, _⟩ := autoclose_on_closing_tag_ok h tn
  unfold on_closing_tag at hr
  rw [h0] at hr
  simp only [] at hr
  split at hr
  · cases hr
  · cases ha : st0.ancestors with
    | nil =>
      have : to_parent st0 = none := by simp [to_parent, ha]
      rw [this] at hr
      have hf : st0.last_element_void = false := by
        cases hv : st0.last_element_void with
        | false => rfl
        | true => exact absurd ha (hok.void hv)
      cases hr
      exact hf
    | cons p r =>
      have : to_parent st0 = some { st0 with
          current_node_ := p.append_child st0.current_node_, ancestors := r } := by
        simp [to_parent, ha]
      rw [this] at hr
      cases hr
      rfl

theorem on_pcdata_flag {html : string_type} {st st1 : parse_state}
    (h : state_ok html st) (v : string_type) (hr : on_pcdata v st = .ok st1) :
    st1.last_element_void = false := by
  obtain ⟨st0, h0, _, _, hv⟩ := leave_void_element_ok h
  unfold on_pcdata at hr
  rw [h0] at hr
  cases hr
  exact hv

theorem on_tag_open_state_flag {html : string_type} {st st1 : parse_state}
    (o : parse_options) (h : state_ok html st) (hc : peek st.s 0 = 60)
    (hr : on_tag_open_state o html st = .ok st1) (hv : st1.last_element_void = true) :
    (st1.current_node_.type = .node_element ∧ st1.current_node_.children = []
        ∧ st1.ancestors ≠ [])
    ∨ (st.last_element_void = true ∧ st1.ancestors = st.ancestors
        ∧ (st1.current_node_ = st.current_node_
          ∨ ∃ (t : node_type) (v : string_type), t ≠ .node_element
            ∧ st1.current_node_ = st.current_node_.append_child
                ((node.create t).set_value v))) := by
  unfold on_tag_open_state at hr
  simp only [] at hr
  generalize hs : st.s.drop 1 = s at hr
  by_cases c1 : is_chartype (peek s 0) ct_start_symbol = true
  · rw [if_pos c1] at hr
    left
    cases e1 : on_tag_start (str_toupper (mk_string s
        (ptr_sub (SCANWHILE (fun c => is_chartype c ct_symbol) s) s - 1 + 1)))
        { st with s := SCANWHILE (fun c => is_chartype c ct_symbol) s } with
    | fail f st2 => rw [e1] at hr; cases hr
    | ok st2 =>
      rw [e1, and_then_ok] at hr
      have hf := on_tag_start_fresh _ _ st2 e1
      by_cases c2 : peek st2.s 0 = 62
      · rw [if_pos c2] at hr
        cases hr
        exact hf
      · rw [if_neg c2] at hr
        by_cases c3 : is_chartype (peek st2.s 0) ct_space = true
        · rw [if_pos c3] at hr
          cases e2 : attribute_loop html (st2.s.length + 1) st2 with
          | fail f st3 => rw [e2] at hr; cases hr
          | ok st3 =>
            rw [e2] at hr
            cases hr
            have hsh := attribute_loop_shape html _ st2 st3 e2
            exact ⟨hsh.1.trans hf.1, hsh.2.1.trans hf.2.1, by
              show st3.ancestors ≠ []
              rw [hsh.2.2]; exact hf.2.2⟩
        · rw [if_neg c3] at hr
          by_cases c4 : peek st2.s 0 = 47
          · rw [if_pos c4] at hr
            cases e2 : on_self_closing_start_tag_state html st2 with
            | fail f st3 => rw [e2] at hr; cases hr
            | ok st3 =>
              rw [e2] at hr
              cases hr
              have hsh := on_self_closing_start_tag_state_shape html st2 st3 e2
              exact ⟨by show st3.current_node_.type = _; rw [hsh.1]; exact hf.1,
                by show st3.current_node_.children = _; rw [hsh.1]; exact hf.2.1,
                by show st3.ancestors ≠ []; rw [hsh.2]; exact hf.2.2⟩
          · rw [if_neg c4] at hr
            cases hr
  · rw [if_neg c1] at hr
    by_cases c2 : peek s 0 = 47
    · rw [if_pos c2] at hr
      exfalso
      have a1 : advanced st.s (SCANWHILE (fun c => is_chartype c ct_symbol) (s.drop 1)) := by
        rw [← hs]
        refine advanced_trans (advanced_drop_one _ (by rw [hc]; decide))
          (advanced_trans (advanced_drop_one _ (by rw [hs, c2]; decide))
            (advanced_SCANWHILE (fun c => is_chartype c ct_symbol) (by decide) _))
      have hst1 := state_ok_cursor h a1
      cases e1 : on_closing_tag html (str_toupper (mk_string (s.drop 1)
          (ptr_sub (SCANWHILE (fun c => is_chartype c ct_symbol) (s.drop 1)) (s.drop 1)
            - 1 + 1)))
          { st with s := SCANWHILE (fun c => is_chartype c ct_symbol) (s.drop 1) } with
      | fail f st2 => rw [e1] at hr; cases hr
      | ok st2 =>
        rw [e1, and_then_ok] at hr
        have hf := on_closing_tag_flag hst1 _ e1
        split at hr
        · cases hr
        · cases hr
          rw [hf] at hv
          cases hv
    · rw [if_neg c2] at hr
      by_cases c3 : peek s 0 = 33
      · rw [if_pos c3] at hr
        right
        have h33 : peek st.s 1 = 33 := by
          have := peek_drop st.s 1 0
          rw [hs] at this
          rw [← this]; exact c3
        have hpe := parse_exclamation_ok o st.current_node_ st.s h33
        cases e1 : parse_exclamation o st.current_node_ st.s default_endch with
        | error f => rw [e1] at hr; cases hr
        | ok r =>
          rw [e1] at hr hpe
          cases hr
          exact ⟨hv, rfl, hpe.2⟩
      · rw [if_neg c3] at hr
        cases hr

theorem parse_step_flag {html : string_type} {st st1 : parse_state}
    (o : parse_options) (h : state_ok html st)
    (hr : parse_step o html st = .ok st1) (hv : st1.last_element_void = true) :
    (st1.current_node_.type = .node_element ∧ st1.current_node_.children = []
        ∧ st1.ancestors ≠ [])
    ∨ (st.last_element_void = true ∧ st1.ancestors = st.ancestors
        ∧ (st1.current_node_ = st.current_node_
          ∨ ∃ (t : node_type) (v : string_type), t ≠ .node_element
            ∧ st1.current_node_ = st.current_node_.append_child
                ((node.create t).set_value v))) := by
  unfold parse_step at hr
  split at hr
  · rename_i hc
    exact on_tag_open_state_flag o h hc hr hv
  · split at hr
    · unfold parse_script on_script at hr
      cases hr
      exact Or.inr ⟨hv, rfl, Or.inr ⟨.node_cdata, _, by decide, rfl⟩⟩
    · exfalso
      unfold parse_pcdata at hr
      have a1 : advanced st.s (SCANWHILE (fun c => !is_chartype c ct_parse_pcdata) st.s) :=
        advanced_SCANWHILE (fun c => !is_chartype c ct_parse_pcdata) (by decide) _
      have := on_pcdata_flag (state_ok_cursor h a1) _ hr
      rw [this] at hv
      cases hv

/-! ## The states the loop is entered in -/

theorem reachable_ok {o : parse_options} {html : string_type} {st : parse_state}
    (h : reachable o html st) : state_ok html st := by
  induction h with
  | start => exact initial_state_ok html
  | step st st1 _ h0 hstep ih =>
    have := parse_step_ok o ih h0
    rw [hstep] at this
    exact this.1

theorem reachable_just_created {o : parse_options} {html : string_type} {st : parse_state}
    (h : reachable o html st) : st.last_element_void = true → just_created st := by
  induction h with
  | start => intro hv; cases hv
  | step st st1 hst h0 hstep ih =>
    intro hv
    rcases parse_step_flag o (reachable_ok hst) hstep hv with ⟨ht, hc, ha⟩ | ⟨hv0, ha, hcur⟩
    · exact ⟨ht, ha, by rw [hc]; intro c hm; cases hm⟩
    · obtain ⟨ht, hne, hch⟩ := ih hv0
      rcases hcur with e | ⟨t, v, htv, e⟩
      · exact ⟨by rw [e]; exact ht, by rw [ha]; exact hne, by rw [e]; exact hch⟩
      · refine ⟨by rw [e, type_append_child]; exact ht, by rw [ha]; exact hne, ?_⟩
        rw [e, children_append_child]
        intro c hm
        rcases List.mem_append.1 hm with h1 | h1
        · exact hch c h1
        · rw [List.mem_singleton.1 h1, type_value_node]
          exact htv

theorem parse_loop_reachable (o : parse_options) (html : string_type) :
    ∀ (fuel : Nat) (st : parse_state), reachable o html st →
      (∀ st1, parse_loop o html fuel st = .ok st1 → reachable o html st1)
      ∧ (∀ f st1, parse_loop o html fuel st = .fail f st1 → f = .out_of_fuel
          ∨ ∃ st0, reachable o html st0 ∧ peek st0.s 0 ≠ 0
              ∧ parse_step o html st0 = .fail f st1) := by
  intro fuel
  induction fuel with
  | zero =>
    intro st _
    refine ⟨fun st1 h => (by simp [parse_loop] at h), fun f st1 h => ?_⟩
    simp only [parse_loop] at h
    cases h
    exact Or.inl rfl
  | succ fuel ih =>
    intro st hst
    rw [parse_loop]
    by_cases h0 : peek st.s 0 = 0
    · rw [if_pos h0]
      exact ⟨fun st1 h => (by cases h; exact hst), fun f st1 h => (by cases h)⟩
    · rw [if_neg h0]
      cases hr : parse_step o html st with
      | ok st2 =>
        rw [and_then_ok]
        exact ih st2 (reachable.step st st2 hst h0 hr)
      | fail f st2 =>
        refine ⟨fun st1 h => (by cases h), fun f1 st1 h => ?_⟩
        cases h
        exact Or.inr ⟨st, hst, h0, hr⟩

theorem parse_run_reachable (o : parse_options) (html : string_type) :
    (∀ st, parse_run o html = .ok st → reachable o html st)
    ∧ (∀ f st, parse_run o html = .fail f st →
        ∃ st0, reachable o html st0 ∧ peek st0.s 0 ≠ 0
          ∧ parse_step o html st0 = .fail f st) := by
  have hok := parse_run_ok o html
  unfold parse_run at hok ⊢
  split
  · exact ⟨fun st h => (by cases h; exact reachable.start), fun f st h => (by cases h)⟩
  · rename_i hl
    rw [if_neg hl] at hok
    have hl := parse_loop_reachable o html (html.length + 1) _ (reachable.start)
    refine ⟨hl.1, fun f st h => ?_⟩
    rcases hl.2 f st h with h1 | h1
    · rw [h, h1] at hok
      exact absurd hok.2 (by simp [fault_ok])
    · exact h1

theorem get_document_type :
    ∀ (anc : List node) (cur : node), chain_ok cur anc →
      (attach_chain cur anc).type = .node_document := by
  intro anc
  induction anc with
  | nil => intro cur h; exact h.1
  | cons p r ih => intro cur h; exact ih _ (chain_ok_parent h)

theorem autoclose_last_child_nil : autoclose_last_child [] = false := by decide

theorem lookup_snd_mem (k : string_type) :
    ∀ (l : List (string_type × List string_type)) (v : List string_type),
      l.lookup k = some v → v ∈ l.map Prod.snd := by
  intro l
  induction l with
  | nil => intro v h; simp [List.lookup] at h
  | cons x l ih =>
    intro v h
    obtain ⟨a, b⟩ := x
    simp only [List.lookup] at h
    split at h
    · cases h; simp
    · exact List.mem_cons_of_mem _ (ih v h)

theorem autoclose_prev_sibling_nil (tag_name : string_type) :
    autoclose_prev_sibling tag_name [] = false := by
  have hall : ∀ l ∈ no_end_tag_by_sibling.map Prod.snd,
      l.contains ([] : string_type) = false := by decide
  unfold autoclose_prev_sibling
  cases h : no_end_tag_by_sibling.lookup tag_name with
  | none => rfl
  | some siblings => exact hall siblings (lookup_snd_mem tag_name _ _ h)

/-! ## C21: the current node always exists -/

/-- C21: the current open element always exists.  For every input and every option set
(1) in every state in which the loop of `parse` is entered, the current node is the
document or an element whose chain of parents, all elements, ends at the document; it
is the document exactly when it has no parent, and the tree it hangs from is a
document; (2) the flag `last_element_void` is set only while the current node is an
element that has a parent and in which no element was opened since it was created;
(3) in every such state, with the cursor anywhere further on, the step to the parent
behind the flag in `on_tag_start` and `on_pcdata`, and the steps of `on_closing_tag`
(the flag and the auto-close walk), find that parent, and `find_parent_node_for_new_tag`
ends at a node of the chain; (4) the empty name of the document is in neither
auto-close table; (5) no iteration and no run of `parse` follows a null parent; (6) the
state `parse` ends in, returning or failing, is one of these states or is left by a
failing iteration from one of them, and (1) and (2) hold of it as well. -/
theorem C21_current_node_always_exists (o : parse_options) (html : string_type) :
    (∀ st : parse_state, reachable o html st →
        chain_ok st.current_node_ st.ancestors
        ∧ (st.current_node_.type = .node_document ↔ st.ancestors = [])
        ∧ (get_document st).type = .node_document
        ∧ (st.last_element_void = true → just_created st))
    ∧ (∀ st : parse_state, reachable o html st → ∀ (s1 : List Nat) (tag_name : string_type),
        advanced st.s s1 →
        (∃ st1, leave_void_element { st with s := s1 } = some st1
          ∧ chain_ok st1.current_node_ st1.ancestors ∧ st1.last_element_void = false)
        ∧ (∃ st1, autoclose_on_closing_tag tag_name { st with s := s1 } = some st1
          ∧ chain_ok st1.current_node_ st1.ancestors)
        ∧ (∀ st1, leave_void_element { st with s := s1 } = some st1 →
            chain_ok (find_parent_node_for_new_tag st1.current_node_ st1.ancestors tag_name).1
              (find_parent_node_for_new_tag st1.current_node_ st1.ancestors tag_name).2))
    ∧ (document.create.name = [] ∧ autoclose_last_child [] = false
        ∧ ∀ tag_name : string_type, autoclose_prev_sibling tag_name [] = false)
    ∧ (∀ st : parse_state, reachable o html st → peek st.s 0 ≠ 0 →
        ∀ st1, parse_step o html st ≠ .fail .null_deref st1)
    ∧ (∀ st1, parse_run o html ≠ .fail .null_deref st1)
    ∧ (∀ st, parse_run o html = .ok st → reachable o html st)
    ∧ (∀ f st, parse_run o html = .fail f st →
        (∃ st0, reachable o html st0 ∧ peek st0.s 0 ≠ 0
          ∧ parse_step o html st0 = .fail f st)
        ∧ chain_ok st.current_node_ st.ancestors
        ∧ (st.last_element_void = true → st.current_node_.type = .node_element
            ∧ st.ancestors ≠ [])) := by
  refine ⟨fun st h => ?_, fun st h s1 tn ha => ?_,
    ⟨rfl, autoclose_last_child_nil, autoclose_prev_sibling_nil⟩,
    fun st h h0 st1 he => ?_, fun st1 he => ?_, (parse_run_reachable o html).1,
    fun f st he => ?_⟩
  · have hok := reachable_ok h
    exact ⟨hok.chain, chain_ok_type_iff hok.chain, get_document_type _ _ hok.chain,
      reachable_just_created h⟩
  · have hok := state_ok_cursor (reachable_ok h) ha
    obtain ⟨st1, e1, hok1, _, hv1⟩ := leave_void_element_ok hok
    obtain ⟨st2, e2, hok2, _⟩ := autoclose_on_closing_tag_ok hok tn
    refine ⟨⟨st1, e1, hok1.chain, hv1⟩, ⟨st2, e2, hok2.chain⟩, fun st3 e3 => ?_⟩
    rw [e1] at e3
    cases e3
    exact (find_parent_node_for_new_tag_ok tn _ _ hok1.chain).1
  · have hs := parse_step_ok o (reachable_ok h) h0
    rw [he] at hs
    exact hs.2
  · have hs := parse_run_ok o html
    rw [he] at hs
    exact hs.2
  · have hs := parse_run_ok o html
    rw [he] at hs
    refine ⟨(parse_run_reachable o html).2 f st he, hs.1.chain, fun hv => ?_⟩
    have hne := hs.1.void hv
    refine ⟨?_, hne⟩
    cases ha : st.ancestors with
    | nil => exact absurd ha hne
    | cons p r =>
      have := hs.1.chain
      rw [ha] at this
      exact this.1

/-- C21 at `<br>x`: the state after `<br>` is one the loop is entered in; its flag is
set, and `BR` is an element with the document as its parent and with no children. -/
theorem C21_current_node_always_exists_witness :
    reachable ⟨false, false, false⟩ (ascii "<br>x")
        { s := ascii "x", current_node_ := element_node (ascii "BR") [],
          ancestors := [document_node []], last_element_void := true }
    ∧ just_created
        { s := ascii "x", current_node_ := element_node (ascii "BR") [],
          ancestors := [document_node []], last_element_void := true } :=
  have hr : reachable ⟨false, false, false⟩ (ascii "<br>x")
      { s := ascii "x", current_node_ := element_node (ascii "BR") [],
        ancestors := [document_node []], last_element_void := true } :=
    reachable.step (initial_state (ascii "<br>x")) _ reachable.start (by decide) (by rfl)
  ⟨hr, ((C21_current_node_always_exists ⟨false, false, false⟩ (ascii "<br>x")).1 _ hr).2.2.2
    rfl⟩

/-! ## The detail of a failure -/

theorem toupper_ne_zero (c : Nat) (h : c ≠ 0) : toupper c ≠ 0 := by
  unfold toupper
  split <;> omega

theorem str_toupper_clean (w : List Nat) (h : 0 ∉ w) : 0 ∉ str_toupper w := by
  unfold str_toupper
  intro hm
  obtain ⟨d, hd, e⟩ := List.mem_map.1 hm
  exact toupper_ne_zero d (fun h0 => h (h0 ▸ hd)) e

theorem scanned_name_clean (p : Nat → Bool) (h0 : p 0 = false) (start : List Nat) :
    0 ∉ str_toupper (mk_string start (ptr_sub (SCANWHILE p start) start - 1 + 1)) := by
  obtain ⟨pre, e, hpre⟩ := advanced_SCANWHILE p h0 start
  apply str_toupper_clean
  generalize SCANWHILE p start = s1 at e
  subst e
  rw [mk_string_scan]
  exact hpre

theorem on_closing_tag_detail (html tn : string_type) (st st1 : parse_state) (f : fault)
    (h0 : 0 ∉ tn) (h : on_closing_tag html tn st = .fail f st1) : detail_ok st1 f := by
  unfold on_closing_tag at h
  cases ha : autoclose_on_closing_tag tn st with
  | none => rw [ha] at h; cases h; trivial
  | some st0 =>
    rw [ha] at h
    simp only [] at h
    split at h
    · cases h
      exact Or.inl ⟨rfl, tn, h0, rfl⟩
    · cases hp : to_parent st0 with
      | none => rw [hp] at h; cases h
      | some st2 => rw [hp] at h; cases h

theorem on_attribute_name_state_detail (html : string_type) (st st1 : parse_state) (f : fault)
    (h : on_attribute_name_state html st = .fail f st1) : detail_ok st1 f := by
  unfold on_attribute_name_state at h
  simp only [on_attribute] at h
  split_ifs at h <;> cases h <;>
    first
    | exact Or.inr (Or.inl ⟨rfl, Or.inl rfl⟩)
    | exact Or.inr (Or.inl ⟨rfl, Or.inr rfl⟩)

theorem on_self_closing_start_tag_state_detail (html : string_type) (st st1 : parse_state)
    (f : fault) (h : on_self_closing_start_tag_state html st = .fail f st1) :
    detail_ok st1 f := by
  unfold on_self_closing_start_tag_state at h
  simp only [] at h
  split at h
  · cases h
    exact Or.inr (Or.inr ⟨Or.inr rfl, rfl⟩)
  · cases h

theorem attribute_loop_detail (html : string_type) :
    ∀ (fuel : Nat) (st st1 : parse_state) (f : fault),
      attribute_loop html fuel st = .fail f st1 → detail_ok st1 f := by
  intro fuel
  induction fuel with
  | zero =>
    intro st st1 f h
    simp only [attribute_loop] at h
    cases h
    trivial
  | succ fuel ih =>
    intro st st1 f h
    rw [attribute_loop] at h
    simp only [] at h
    split at h
    · cases hr : on_attribute_name_state html { st with s := skip_white_spaces st.s } with
      | fail f2 st2 =>
        rw [hr] at h
        cases h
        exact on_attribute_name_state_detail html _ _ _ hr
      | ok st2 =>
        rw [hr] at h
        exact ih st2 st1 f h
    · split at h
      · exact on_self_closing_start_tag_state_detail html _ st1 f h
      · split at h
        · cases h
        · cases h
          exact Or.inr (Or.inr ⟨Or.inr rfl, rfl⟩)

theorem on_tag_open_state_detail (o : parse_options) (html : string_type)
    (st st1 : parse_state) (f : fault)
    (h : on_tag_open_state o html st = .fail f st1) : detail_ok st1 f := by
  unfold on_tag_open_state at h
  simp only [] at h
  generalize hs : st.s.drop 1 = s at h
  by_cases c1 : is_chartype (peek s 0) ct_start_symbol = true
  · rw [if_pos c1] at h
    cases e1 : on_tag_start (str_toupper (mk_string s
        (ptr_sub (SCANWHILE (fun c => is_chartype c ct_symbol) s) s - 1 + 1)))
        { st with s := SCANWHILE (fun c => is_chartype c ct_symbol) s } with
    | fail f2 st2 =>
      rw [e1] at h
      cases h
      unfold on_tag_start at e1
      split at e1
      · cases e1; trivial
      · cases e1
    | ok st2 =>
      rw [e1, and_then_ok] at h
      by_cases c2 : peek st2.s 0 = 62
      · rw [if_pos c2] at h
        cases h
      · rw [if_neg c2] at h
        by_cases c3 : is_chartype (peek st2.s 0) ct_space = true
        · rw [if_pos c3] at h
          cases e2 : attribute_loop html (st2.s.length + 1) st2 with
          | fail f3 st3 =>
            rw [e2] at h
            cases h
            exact attribute_loop_detail html _ st2 _ _ e2
          | ok st3 => rw [e2] at h; cases h
        · rw [if_neg c3] at h
          by_cases c4 : peek st2.s 0 = 47
          · rw [if_pos c4] at h
            cases e2 : on_self_closing_start_tag_state html st2 with
            | fail f3 st3 =>
              rw [e2] at h
              cases h
              exact on_self_closing_start_tag_state_detail html st2 _ _ e2
            | ok st3 => rw [e2] at h; cases h
          · rw [if_neg c4] at h
            cases h
            exact Or.inr (Or.inr ⟨Or.inr rfl, rfl⟩)
  · rw [if_neg c1] at h
    by_cases c2 : peek s 0 = 47
    · rw [if_pos c2] at h
      cases e1 : on_closing_tag html (str_toupper (mk_string (s.drop 1)
          (ptr_sub (SCANWHILE (fun c => is_chartype c ct_symbol) (s.drop 1)) (s.drop 1)
            - 1 + 1)))
          { st with s := SCANWHILE (fun c => is_chartype c ct_symbol) (s.drop 1) } with
      | fail f2 st2 =>
        rw [e1] at h
        cases h
        exact on_closing_tag_detail html _ _ _ _
          (scanned_name_clean (fun c => is_chartype c ct_symbol) (by decide) _) e1
      | ok st2 =>
        rw [e1, and_then_ok] at h
        split at h
        · cases h; trivial
        · cases h
    · rw [if_neg c2] at h
      by_cases c3 : peek s 0 = 33
      · rw [if_pos c3] at h
        have h33 : peek st.s 1 = 33 := by
          have := peek_drop st.s 1 0
          rw [hs] at this
          rw [← this]; exact c3
        have hpe := parse_exclamation_ok o st.current_node_ st.s h33
        cases e1 : parse_exclamation o st.current_node_ st.s default_endch with
        | error f2 =>
          rw [e1] at h hpe
          cases h
          obtain ⟨status, hf, _⟩ := hpe
          rw [hf]
          trivial
        | ok r => rw [e1] at h; cases h
      · rw [if_neg c3] at h
        cases h
        exact Or.inr (Or.inr ⟨Or.inl rfl, rfl⟩)

theorem parse_step_detail (o : parse_options) (html : string_type) (st st1 : parse_state)
    (f : fault) (h : parse_step o html st = .fail f st1) : detail_ok st1 f := by
  unfold parse_step at h
  split at h
  · exact on_tag_open_state_detail o html st st1 f h
  · split at h
    · unfold parse_script on_script at h
      cases h
    · unfold parse_pcdata on_pcdata at h
      simp only [] at h
      split at h
      · cases h; trivial
      · cases h

theorem parse_loop_detail (o : parse_options) (html : string_type) :
    ∀ (fuel : Nat) (st st1 : parse_state) (f : fault),
      parse_loop o html fuel st = .fail f st1 → detail_ok st1 f := by
  intro fuel
  induction fuel with
  | zero =>
    intro st st1 f h
    simp only [parse_loop] at h
    cases h
    trivial
  | succ fuel ih =>
    intro st st1 f h
    rw [parse_loop] at h
    split at h
    · cases h
    · cases hr : parse_step o html st with
      | ok st2 =>
        rw [hr, and_then_ok] at h
        exact ih st2 st1 f h
      | fail f2 st2 =>
        rw [hr] at h
        cases h
        exact parse_step_detail o html st _ _ hr

theorem parse_run_detail (o : parse_options) (html : string_type) (st : parse_state)
    (f : fault) (h : parse_run o html = .fail f st) : detail_ok st f := by
  unfold parse_run at h
  split at h
  · cases h
  · exact parse_loop_detail o html _ _ _ _ h

/-- The names of the open nodes hold no NUL byte when the input holds none. -/
theorem current_name_clean_of_clean {html : string_type} {st : parse_state}
    (h : state_ok html st) (h0 : 0 ∉ html) : 0 ∉ st.current_node_.name := by
  cases ha : st.ancestors with
  | nil =>
    have := h.chain
    rw [ha] at this
    rw [this.2]
    simp
  | cons p r =>
    have hc := h.chain
    rw [ha] at hc
    have ht := hc.1
    have hmem : st.current_node_.name ∈ st.current_node_.names := by
      cases hn : st.current_node_ with
      | mk t n v a c =>
        rw [hn] at ht
        simp only [node.type] at ht
        subst ht
        simp [node.names, node.name]
    obtain ⟨w, hw, e⟩ := h.names _ (Or.inl hmem)
    rw [e]
    apply str_toupper_clean
    intro hm
    exact h0 (hw.subset hm)

theorem split_at_first_nul : ∀ html : List Nat, 0 ∈ html →
    ∃ h1 junk, html = h1 ++ 0 :: junk ∧ 0 ∉ h1 := by
  intro html
  induction html with
  | nil => intro h; cases h
  | cons c t ih =>
    intro h
    by_cases hc : c = 0
    · exact ⟨[], t, by rw [hc]; rfl, by simp⟩
    · have ht : 0 ∈ t := by
        rcases List.mem_cons.1 h with e | e
        · exact absurd e.symm hc
        · exact e
      obtain ⟨h1, junk, e, hn⟩ := ih ht
      refine ⟨c :: h1, junk, by rw [e]; rfl, ?_⟩
      intro hm
      rcases List.mem_cons.1 hm with e1 | e1
      · exact hc e1.symm
      · exact hn e1

/-- The name of the node a failure leaves as the current one holds no NUL byte. -/
theorem current_name_clean (o : parse_options) (html : string_type) (st : parse_state)
    (f : fault) (h : parse_run o html = .fail f st) : 0 ∉ st.current_node_.name := by
  by_cases h0 : 0 ∈ html
  · obtain ⟨h1, junk, e, hn⟩ := split_at_first_nul html h0
    rw [e, parse_run_beyond] at h
    have hok := parse_run_ok o h1
    cases hr : parse_run o h1 with
    | ok st0 => rw [hr] at h; cases h
    | fail f0 st0 =>
      rw [hr] at h hok
      cases h
      show 0 ∉ st0.current_node_.name
      exact current_name_clean_of_clean hok.1 hn
  · have hok := parse_run_ok o html
    rw [h] at hok
    exact current_name_clean_of_clean hok.1 h0

/-! ## C17: what a failure carries -/

theorem c_str_clean (s : List Nat) (h : 0 ∉ s) : c_str s = s := by
  unfold c_str
  rw [List.takeWhile_eq_self_iff]
  intro c hc
  simp only [bne_iff_ne, ne_eq]
  exact fun e => h (e ▸ hc)

theorem c_str_append_clean (a b : List Nat) (h : 0 ∉ a) : c_str (a ++ b) = a ++ c_str b := by
  induction a with
  | nil => rfl
  | cons x a ih =>
    have hx : x ≠ 0 := fun e => h (by simp [e])
    have ha : 0 ∉ a := fun hm => h (List.mem_cons_of_mem _ hm)
    have := ih ha
    unfold c_str at this ⊢
    rw [List.cons_append, List.takeWhile_cons_of_pos (by simpa using hx), this]
    rfl

theorem c_str_append_cut (a b : List Nat) (h : 0 ∈ a) : c_str (a ++ b) = c_str a := by
  induction a with
  | nil => cases h
  | cons x a ih =>
    unfold c_str at ih ⊢
    by_cases hx : x = 0
    · subst hx
      rfl
    · have ha : 0 ∈ a := by
        rcases List.mem_cons.1 h with e | e
        · exact absurd e.symm hx
        · exact e
      rw [List.cons_append, List.takeWhile_cons_of_pos (by simpa using hx),
        List.takeWhile_cons_of_pos (by simpa using hx), ih ha]

theorem digitChar_ne_zero (d : Nat) (h : d < 10) : (Nat.digitChar d).toNat ≠ 0 := by
  interval_cases d <;> decide

theorem toDigitsCore_clean :
    ∀ (fuel n : Nat) (acc : List Char), (∀ c ∈ acc, c.toNat ≠ 0) →
      ∀ c ∈ Nat.toDigitsCore 10 fuel n acc, c.toNat ≠ 0 := by
  intro fuel
  induction fuel with
  | zero => intro n acc h; simpa [Nat.toDigitsCore] using h
  | succ fuel ih =>
    intro n acc h
    have hacc : ∀ c ∈ Nat.digitChar (n % 10) :: acc, c.toNat ≠ 0 := by
      intro c hc
      rcases List.mem_cons.1 hc with e | e
      · rw [e]; exact digitChar_ne_zero _ (Nat.mod_lt _ (by decide))
      · exact h c e
    rw [Nat.toDigitsCore]
    split
    · exact hacc
    · exact ih _ _ hacc

theorem decimal_clean (n : Nat) : 0 ∉ decimal n := by
  unfold decimal Nat.toDigits
  intro hm
  obtain ⟨c, hc, e⟩ := List.mem_map.1 hm
  exact toDigitsCore_clean _ _ [] (fun _ h => by cases h) c hc e

theorem status_description_clean (status : parse_status) : 0 ∉ status_description status := by
  cases status <;> decide

theorem message_head_clean (status : parse_status) (a b : Nat) :
    0 ∉ status_description status ++ ascii " Line: " ++ decimal a ++ ascii ", column: "
      ++ decimal b ++ ascii ": '" := by
  have h1 := status_description_clean status
  have h2 := decimal_clean a
  have h3 := decimal_clean b
  have h4 : (0 : Nat) ∉ ascii " Line: " := by decide
  have h5 : (0 : Nat) ∉ ascii ", column: " := by decide
  have h6 : (0 : Nat) ∉ ascii ": '" := by decide
  simp only [List.mem_append, not_or]
  exact ⟨⟨⟨⟨⟨h1, h4⟩, h2⟩, h5⟩, h3⟩, h6⟩

/-- C17, the claim as stated fails: on `<!DOCTYPE html [` the failure is raised by
`THROW_ERROR`, which drops the position; its message is the description of the status
alone, with no line, column or context. -/
theorem C17_throw_error_drops_position :
    parse ⟨false, false, false⟩ (ascii "<!DOCTYPE html [")
      = .failed (.thrown (.of_status .status_bad_doctype)) (document_node [])
    ∧ (parse_error.of_status .status_bad_doctype).what
      = ascii "Error parsing document type declaration." := by
  exact ⟨by rfl, by rfl⟩

/-- C17, amended.  Every failure of `parse` is a `parse_error` of one of two forms.  One
raised with the position (statuses `unrecognized_tag`, `bad_start_element`,
`bad_attribute`, `end_element_mismatch`) carries the input and the offset of the cursor
where it arose, and a detail that holds no NUL byte: the expected and the found name
for a mismatch, nothing or the remark on the closing quote for a bad attribute,
nothing for the other two.  Its message `what()`, a C string, is the description of the
status, the line and the column of that offset, the up to 20 bytes of input from that
offset on and the detail, when these bytes of input hold no NUL; when they hold one,
the message ends there, with the input up to that NUL.  One raised through
`THROW_ERROR` (statuses `unrecognized_tag` inside a `<!` declaration, `bad_comment`,
`bad_cdata`, `bad_doctype`, `bad_end_element`) carries no position: its message is the
description of the status alone. -/
theorem C17_what_a_failure_carries (o : parse_options) (html : string_type) (f : fault)
    (st : parse_state) (h : parse_run o html = .fail f st) :
    (∃ (status : parse_status) (msg : string_type),
        f = .thrown (.at_pos status html (offset html st.s) msg)
        ∧ offset html st.s ≤ html.length ∧ html.drop (offset html st.s) = st.s
        ∧ ((status = .status_end_element_mismatch
              ∧ ∃ tag_name : string_type, 0 ∉ tag_name
                ∧ msg = ascii "Expected: '" ++ st.current_node_.name
                    ++ ascii "', found: '" ++ tag_name ++ ascii "'")
            ∨ (status = .status_bad_attribute
              ∧ (msg = [] ∨ msg = ascii "Bad attribute value closing symbol."))
            ∨ ((status = .status_unrecognized_tag ∨ status = .status_bad_start_element)
              ∧ msg = []))
        ∧ 0 ∉ msg
        ∧ (0 ∉ st.s.take 20 →
            (parse_error.at_pos status html (offset html st.s) msg).what
              = status_description status ++ ascii " Line: "
                ++ decimal (line_of html (offset html st.s)) ++ ascii ", column: "
                ++ decimal (column_of html (offset html st.s)) ++ ascii ": '"
                ++ st.s.take 20 ++ ascii "...'. " ++ msg)
        ∧ (0 ∈ st.s.take 20 →
            (parse_error.at_pos status html (offset html st.s) msg).what
              = status_description status ++ ascii " Line: "
                ++ decimal (line_of html (offset html st.s)) ++ ascii ", column: "
                ++ decimal (column_of html (offset html st.s)) ++ ascii ": '"
                ++ c_str (st.s.take 20)))
    ∨ (∃ status : parse_status,
        f = .thrown (.of_status status)
        ∧ (status = .status_unrecognized_tag ∨ status = .status_bad_comment
            ∨ status = .status_bad_cdata ∨ status = .status_bad_doctype
            ∨ status = .status_bad_end_element)
        ∧ (parse_error.of_status status).what = status_description status) := by
  have hrun := parse_run_ok o html
  have hdet := parse_run_detail o html st f h
  have hname := current_name_clean o html st f h
  rw [h] at hrun
  obtain ⟨hst, hf⟩ := hrun
  have hoff := offset_of_advanced hst.cursor
  cases f with
  | null_deref => exact absurd hf (by simp [fault_ok])
  | out_of_fuel => exact absurd hf (by simp [fault_ok])
  | thrown e =>
    cases e with
    | of_status status =>
      exact Or.inr ⟨status, rfl, hf, c_str_clean _ (status_description_clean status)⟩
    | at_pos status h' p msg =>
      obtain ⟨e1, e2, _⟩ := hf
      subst e1 e2
      have hmsg : 0 ∉ msg := by
        rcases hdet with ⟨_, tn, htn, e⟩ | ⟨_, e | e⟩ | ⟨_, e⟩
        · rw [e]
          have h1 : (0 : Nat) ∉ ascii "Expected: '" := by decide
          have h2 : (0 : Nat) ∉ ascii "', found: '" := by decide
          have h3 : (0 : Nat) ∉ ascii "'" := by decide
          simp only [List.mem_append, not_or]
          exact ⟨⟨⟨⟨h1, hname⟩, h2⟩, htn⟩, h3⟩
        · rw [e]; simp
        · rw [e]; decide
        · rw [e]; simp
      have hhead := message_head_clean status (line_of h' (offset h' st.s))
        (column_of h' (offset h' st.s))
      have hwhat : (parse_error.at_pos status h' (offset h' st.s) msg).what
          = c_str ((status_description status ++ ascii " Line: "
              ++ decimal (line_of h' (offset h' st.s)) ++ ascii ", column: "
              ++ decimal (column_of h' (offset h' st.s)) ++ ascii ": '")
              ++ (st.s.take 20 ++ (ascii "...'. " ++ msg))) := by
        show c_str (format_error_msg status h' (offset h' st.s) msg) = _
        rw [format_error_msg_spec, hoff.2]
        simp only [List.append_assoc]
      refine Or.inl ⟨status, msg, rfl, hoff.1, hoff.2, hdet, hmsg, fun hc => ?_, fun hc => ?_⟩
      · rw [hwhat, c_str_append_clean _ _ hhead, c_str_append_clean _ _ hc, c_str_clean]
        · simp only [List.append_assoc]
        · have h1 : (0 : Nat) ∉ ascii "...'. " := by decide
          simp only [List.mem_append, not_or]
          exact ⟨h1, hmsg⟩
      · rw [hwhat, c_str_append_clean _ _ hhead, c_str_append_cut _ _ hc]

/-- C17 amended, at `</x>ab`, NUL, `cd` and at `<div></span>`.  On the first the run
fails at offset 3 with the context `>ab`, NUL, `cd`, and the message ends with `>ab`;
on the second it fails at offset 11 and the message has the description, line 0,
column 11, the context `>` and the detail. -/
theorem C17_what_a_failure_carries_witness :
    (parse_run ⟨false, false, false⟩ (ascii "</x>ab" ++ 0 :: ascii "cd")
        = .fail (.thrown (.at_pos .status_end_element_mismatch
            (ascii "</x>ab" ++ 0 :: ascii "cd") 3 (ascii "Expected: '', found: 'X'")))
          { s := ascii ">ab" ++ 0 :: ascii "cd", current_node_ := document_node [],
            ancestors := [], last_element_void := false }
      ∧ (parse_error.at_pos .status_end_element_mismatch
            (ascii "</x>ab" ++ 0 :: ascii "cd") 3 (ascii "Expected: '', found: 'X'")).what
          = ascii "Start-end tags mismatch. Line: 0, column: 3: '>ab")
    ∧ (parse_run ⟨false, false, false⟩ (ascii "<div></span>")
        = .fail (.thrown (.at_pos .status_end_element_mismatch (ascii "<div></span>") 11
            (ascii "Expected: 'DIV', found: 'SPAN'")))
          { s := ascii ">", current_node_ := element_node (ascii "DIV") [],
            ancestors := [document_node []], last_element_void := false }
      ∧ (parse_error.at_pos .status_end_element_mismatch (ascii "<div></span>") 11
            (ascii "Expected: 'DIV', found: 'SPAN'")).what
          = ascii "Start-end tags mismatch. Line: 0, column: 11: '>...'. Expected: 'DIV', found: 'SPAN'") := by
  have hrun1 : parse_run ⟨false, false, false⟩ (ascii "</x>ab" ++ 0 :: ascii "cd")
      = .fail (.thrown (.at_pos .status_end_element_mismatch
          (ascii "</x>ab" ++ 0 :: ascii "cd") 3 (ascii "Expected: '', found: 'X'")))
        { s := ascii ">ab" ++ 0 :: ascii "cd", current_node_ := document_node [],
          ancestors := [], last_element_void := false } := by rfl
  have hrun2 : parse_run ⟨false, false, false⟩ (ascii "<div></span>")
      = .fail (.thrown (.at_pos .status_end_element_mismatch (ascii "<div></span>") 11
          (ascii "Expected: 'DIV', found: 'SPAN'")))
        { s := ascii ">", current_node_ := element_node (ascii "DIV") [],
          ancestors := [document_node []], last_element_void := false } := by rfl
  refine ⟨⟨hrun1, ?_⟩, ⟨hrun2, ?_⟩⟩
  · rcases C17_what_a_failure_carries _ _ _ _ hrun1 with
      ⟨status, msg, hf, _, _, _, _, _, hcut⟩ | ⟨status, hf, _⟩
    · injection hf with hf
      injection hf with h1 _ _ h4
      subst h1 h4
      exact (hcut (by decide)).trans (by rfl)
    · cases hf
  · rcases C17_what_a_failure_carries _ _ _ _ hrun2 with
      ⟨status, msg, hf, _, _, _, _, hfull, _⟩ | ⟨status, hf, _⟩
    · injection hf with hf
      injection hf with h1 _ _ h4
      subst h1 h4
      exact (hfull (by decide)).trans (by rfl)
    · cases hf

/-! ## Runs of the loop -/

theorem runs_trans {o : parse_options} {html : string_type} {a b c : parse_state}
    (h1 : runs o html a b) (h2 : runs o html b c) : runs o html a c := by
  induction h1 with
  | refl st => exact h2
  | step st st1 st2 h0 hs _ ih => exact runs.step st st1 c h0 hs (ih h2)

theorem runs_parse_loop {o : parse_options} {html : string_type} {st st2 : parse_state}
    (h : runs o html st st2) : state_ok html st → peek st2.s 0 = 0 →
      ∀ fuel, st.s.length < fuel → parse_loop o html fuel st = .ok st2 := by
  induction h with
  | refl st =>
    intro _ h0 fuel hf
    cases fuel with
    | zero => omega
    | succ fuel => exact parse_loop_done o html fuel st h0
  | step st st1 st2 h0 hs _ ih =>
    intro hok hend fuel hf
    cases fuel with
    | zero => omega
    | succ fuel =>
      rw [parse_loop_step o html fuel st st1 h0 hs]
      have h1 := parse_step_ok o hok h0
      rw [hs] at h1
      have h2 := advanced_length h1.2
      have h3 := drop_one_shorter st.s h0
      exact ih h1.1 hend fuel (by omega)

theorem runs_parse_run {o : parse_options} {html : string_type} {st2 : parse_state}
    (h : runs o html (initial_state html) st2) (h0 : peek st2.s 0 = 0) :
    parse_run o html = .ok st2 := by
  unfold parse_run
  split
  · rename_i hl
    have he : html = [] := List.length_eq_zero.1 hl
    cases h with
    | refl => rfl
    | step _ st1 _ hne _ _ =>
      exfalso
      apply hne
      rw [he]
      rfl
  · exact runs_parse_loop h (initial_state_ok html) h0 _ (by simp [initial_state])

/-! ## One step from a node -/

theorem pcdata_stop (x : List Nat) (h : peek x 0 = 0 ∨ peek x 0 = 60) :
    SCANWHILE (fun c => !is_chartype c ct_parse_pcdata) x = x := by
  cases x with
  | nil => rfl
  | cons d r =>
    rw [peek_cons_zero] at h
    rcases h with h | h <;> rw [h] <;> exact SCANWHILE_stop _ _ r (by decide)

theorem append_children_mk (t : node_type) (n v : string_type) (a : List attr)
    (c cs : List node) :
    (node.mk t n v a c).append_children cs = .mk t n v a (c ++ cs) := by
  induction cs generalizing c with
  | nil => simp [node.append_children]
  | cons x cs ih =>
    have := ih (c ++ [x])
    simp only [node.append_children, List.foldl_cons, node.append_child] at this ⊢
    rw [this]
    simp

theorem step_text (o : parse_options) (html : string_type) (st : parse_state) (E : node)
    (anc : List node) (t x : List Nat) (hst : stands_at st E anc (t ++ x))
    (hne : t ≠ []) (ht : ∀ c ∈ t, c ≠ 0 ∧ c ≠ 60)
    (hx : peek x 0 = 0 ∨ peek x 0 = 60) (hn : E.name ≠ ascii "SCRIPT") :
    peek st.s 0 ≠ 0
    ∧ parse_step o html st
      = .ok { s := x, current_node_ := E.append_child (text_node t), ancestors := anc,
              last_element_void := false } := by
  obtain ⟨c, t, rfl⟩ : ∃ c t', t = c :: t' := by
    cases t with
    | nil => exact absurd rfl hne
    | cons c t' => exact ⟨c, t', rfl⟩
  have hc0 := (ht c (by simp)).1
  rcases hst with rfl | ⟨V, E0, hV, rfl, rfl⟩
  · refine ⟨by simpa [peek] using hc0, ?_⟩
    rw [parse_step_text o html c t x _ _ _ ht (pcdata_stop x hx) hn]
    simp [on_pcdata, leave_void_element, node.create, node.set_value, text_node]
  · obtain ⟨_, _, _, hscript⟩ := void_names_upper _ ((is_void_element_iff _).1 hV)
    refine ⟨by simpa [peek, after_void_element] using hc0, ?_⟩
    unfold after_void_element
    rw [parse_step_text o html c t x _ _ _ ht (pcdata_stop x hx)
      (by simpa [element_node, node.name] using hscript)]
    simp [on_pcdata, leave_void_element, to_parent, node.create, node.set_value, text_node]

theorem step_open (o : parse_options) (html : string_type) (st : parse_state) (E : node)
    (anc : List node) (a : Nat) (nm x : List Nat)
    (hst : stands_at st E anc (ascii "<" ++ (a :: nm) ++ ascii ">" ++ x))
    (ha : is_chartype a ct_start_symbol = true)
    (hnm : ∀ c ∈ a :: nm, is_chartype c ct_symbol = true)
    (hsib : autoclose_prev_sibling (str_toupper (a :: nm)) E.name = false) :
    peek st.s 0 ≠ 0
    ∧ parse_step o html st
      = .ok { s := x, current_node_ := element_node (str_toupper (a :: nm)) [],
              ancestors := E :: anc,
              last_element_void := is_void_element (str_toupper (a :: nm)) } := by
  rcases hst with rfl | ⟨V, E0, hV, rfl, rfl⟩
  · refine ⟨by simp [peek, ascii_lt], ?_⟩
    unfold parse_step
    rw [if_pos (by rw [ascii_lt]; rfl)]
    rw [on_tag_open_state_start o html a nm x _ ha hnm (by simp [ascii_lt, ascii_gt])]
    simp [on_tag_start, leave_void_element, find_parent_node_for_new_tag_self _ _ _ hsib,
      outcome.and_then, node.create, node.set_name, node.name, element_node]
  · refine ⟨by simp [peek, ascii_lt, after_void_element], ?_⟩
    have hf := find_parent_node_for_new_tag_self _ anc _ hsib
    unfold element_node at hf
    unfold parse_step after_void_element
    rw [if_pos (by rw [ascii_lt]; rfl)]
    rw [on_tag_open_state_start o html a nm x _ ha hnm (by simp [ascii_lt, ascii_gt])]
    simp [on_tag_start, leave_void_element, to_parent, hf,
      outcome.and_then, node.create, node.set_name, node.name, element_node]

theorem step_close (o : parse_options) (html : string_type) (st : parse_state)
    (C E : node) (anc : List node) (m x : List Nat)
    (hst : stands_at st C (E :: anc) (ascii "</" ++ m ++ ascii ">" ++ x))
    (hm : ∀ c ∈ m, is_chartype c ct_symbol = true)
    (hname : C.name = str_toupper m) (hvoid : is_void_element C.name = false) :
    peek st.s 0 ≠ 0
    ∧ parse_step o html st
      = .ok { s := x, current_node_ := E.append_child C, ancestors := anc,
              last_element_void := false } := by
  rcases hst with rfl | ⟨V, C0, hV, rfl, rfl⟩
  · refine ⟨by simp [peek, ascii_lt_slash], ?_⟩
    unfold parse_step
    rw [if_pos (by rw [ascii_lt_slash]; rfl)]
    rw [on_tag_open_state_close o html m x _ hm (by simp [ascii_lt_slash, ascii_gt])]
    simp [on_closing_tag, autoclose_on_closing_tag, to_parent, outcome.and_then, hname]
  · rw [name_append_child] at hname hvoid
    have hne : str_toupper m ≠ V := by
      intro e
      rw [← e, ← hname, hvoid] at hV
      cases hV
    refine ⟨by simp [peek, ascii_lt_slash, after_void_element], ?_⟩
    unfold parse_step after_void_element
    rw [if_pos (by rw [ascii_lt_slash]; rfl)]
    rw [on_tag_open_state_close o html m x _ hm (by simp [ascii_lt_slash, ascii_gt])]
    simp [on_closing_tag, autoclose_on_closing_tag, to_parent, outcome.and_then,
      name_element_node, hne, hname, name_append_child]

/-! ## C14: where the cursor is when `parse` returns -/

theorem well_nested_runs (o : parse_options) (html : string_type) :
    ∀ {pn : string_type} {c : List Nat} {trees : List node}, well_nested pn c trees →
      pn ≠ ascii "SCRIPT" →
      ∀ (st : parse_state) (E : node) (anc : List node) (tail : List Nat),
        stands_at st E anc (c ++ tail) → E.name = pn →
        (peek tail 0 = 0 ∨ peek tail 0 = 60) →
        ∃ st1, runs o html st st1
          ∧ (c = [] → st1 = st ∧ trees = [])
          ∧ (c ≠ [] → stands_at st1 (E.append_children trees) anc tail
              ∧ (pn = [] → st1 = { s := tail, current_node_ := E.append_children trees,
                                    ancestors := anc, last_element_void := false })) := by
  intro pn c trees h
  induction h with
  | nil pn =>
    intro _ st E anc tail _ _ _
    exact ⟨st, runs.refl st, fun _ => ⟨rfl, rfl⟩, fun h => absurd rfl h⟩
  | text pn t rest trees hne ht hrest _ ih =>
    intro hpn st E anc tail hst hE htail
    have hx : peek (rest ++ tail) 0 = 0 ∨ peek (rest ++ tail) 0 = 60 := by
      rcases hrest with hr | hr
      · rw [hr]; exact htail
      · cases rest with
        | nil => cases hr
        | cons d r =>
          simp at hr
          rw [hr]; right; rfl
    rw [List.append_assoc] at hst
    obtain ⟨h0, hstep⟩ := step_text o html st E anc t (rest ++ tail) hst hne ht hx
      (by rw [hE]; exact hpn)
    obtain ⟨st1, hr1, hnil, hcons⟩ := ih hpn _ (E.append_child (text_node t)) anc tail
      (Or.inl rfl) (by rw [name_append_child]; exact hE) htail
    refine ⟨st1, runs.step _ _ _ h0 hstep hr1, fun hc => ?_, fun _ => ?_⟩
    · exfalso
      cases t with
      | nil => exact hne rfl
      | cons c t => cases hc
    · by_cases hre : rest = []
      · obtain ⟨e1, e2⟩ := hnil hre
        rw [e1, e2, hre]
        exact ⟨Or.inl rfl, fun _ => rfl⟩
      · exact hcons hre
  | element pn a nm m body rest children trees ha hnm hm hmu hvoid hscript hsib _ _ ihb ihr =>
    intro hpn st E anc tail hst hE htail
    have hcur : ascii "<" ++ (a :: nm) ++ ascii ">" ++ body ++ ascii "</" ++ m ++ ascii ">"
        ++ rest ++ tail
        = ascii "<" ++ (a :: nm) ++ ascii ">"
          ++ (body ++ (ascii "</" ++ m ++ ascii ">" ++ (rest ++ tail))) := by
      simp only [List.append_assoc]
    rw [hcur] at hst
    obtain ⟨h0, hstep⟩ := step_open o html st E anc a nm _ hst ha hnm (by rw [hE]; exact hsib)
    rw [hvoid] at hstep
    obtain ⟨st1, hr1, hnil1, hcons1⟩ := ihb hscript _ (element_node (str_toupper (a :: nm)) [])
      (E :: anc) (ascii "</" ++ m ++ ascii ">" ++ (rest ++ tail)) (Or.inl rfl) rfl
      (Or.inr (by rw [ascii_lt_slash]; rfl))
    have hst1 : stands_at st1 (element_node (str_toupper (a :: nm)) children) (E :: anc)
        (ascii "</" ++ m ++ ascii ">" ++ (rest ++ tail)) := by
      by_cases hb : body = []
      · obtain ⟨e1, e2⟩ := hnil1 hb
        rw [e1, e2, hb]
        exact Or.inl rfl
      · have := (hcons1 hb).1
        unfold element_node at this ⊢
        rw [append_children_mk] at this
        exact this
    obtain ⟨h1, hclose⟩ := step_close o html st1
      (element_node (str_toupper (a :: nm)) children) E anc m (rest ++ tail) hst1 hm
      (by rw [hmu]; rfl) hvoid
    obtain ⟨st2, hr2, hnil2, hcons2⟩ := ihr hpn _
      (E.append_child (element_node (str_toupper (a :: nm)) children)) anc tail
      (Or.inl rfl) (by rw [name_append_child]; exact hE) htail
    refine ⟨st2, ?_, fun hc => ?_, fun _ => ?_⟩
    · exact runs.step _ _ _ h0 hstep (runs_trans hr1 (runs.step _ _ _ h1 hclose hr2))
    · exfalso
      simp [ascii_lt] at hc
    · by_cases hre : rest = []
      · obtain ⟨e1, e2⟩ := hnil2 hre
        rw [e1, e2, hre]
        exact ⟨Or.inl rfl, fun _ => rfl⟩
      · exact hcons2 hre
  | void pn v rest trees hv hlast _ ih =>
    intro hpn st E anc tail hst hE htail
    obtain ⟨a, nm, rfl, ha, hnm⟩ := void_name_bytes v hv
    rw [List.append_assoc] at hst
    obtain ⟨h0, hstep⟩ := step_open o html st E anc a nm _ hst ha hnm
      (void_no_sibling_rule _ _ hv)
    rw [hv] at hstep
    obtain ⟨st1, hr1, hnil, hcons⟩ := ih hpn
      (after_void_element (str_toupper (a :: nm)) E anc (rest ++ tail))
      (E.append_child (element_node (str_toupper (a :: nm)) [])) anc tail
      (Or.inr ⟨_, E, hv, rfl, rfl⟩) (by rw [name_append_child]; exact hE) htail
    refine ⟨st1, runs.step _ _ _ h0 hstep hr1, fun hc => ?_, fun _ => ?_⟩
    · exfalso
      simp [ascii_lt] at hc
    · by_cases hre : rest = []
      · obtain ⟨e1, e2⟩ := hnil hre
        rw [e1, e2, hre]
        refine ⟨Or.inr ⟨_, E, hv, rfl, rfl⟩, fun hp => ?_⟩
        rcases hlast with h | h
        · exact absurd hre h
        · exact absurd hp h
      · exact hcons hre

/-- C14, the claim as stated fails: `parse` completes on `<div>` without raising a
failure, and `DIV` is still the current node when it returns; on `<br>` it completes
with the void element `BR` still the current node. -/
theorem C14_element_left_open :
    parse_run ⟨false, false, false⟩ (ascii "<div>")
      = .ok { s := [], current_node_ := element_node (ascii "DIV") [],
              ancestors := [document_node []], last_element_void := false }
    ∧ parse ⟨false, false, false⟩ (ascii "<div>")
      = .returned (document_node [element_node (ascii "DIV") []])
    ∧ parse_run ⟨false, false, false⟩ (ascii "<br>")
      = .ok { s := [], current_node_ := element_node (ascii "BR") [],
              ancestors := [document_node []], last_element_void := true } := by
  exact ⟨by rfl, by rfl, by rfl⟩

/-- C14, amended.  Let `c` be a content in which every element is closed: text runs,
elements `<n>...</m>` closed by their own closing tag around such a content, and void
elements (`well_nested`).  From every state that stands at a node `E`, the loop of
`parse` reads `c` without raising a failure and comes back to `E`, with the nodes of
`c` appended to it and the chain of its parents as it was.  So for every input that is
such a content `parse` completes without raising a failure, the cursor at the end of
the input, and the current node at the end is the document, which holds the nodes of
the input. -/
theorem C14_well_nested_input_returns_to_document (o : parse_options) (pn : string_type)
    (c : List Nat) (trees : List node) (h : well_nested pn c trees)
    (hpn : pn ≠ ascii "SCRIPT") :
    (∀ (html : string_type) (st : parse_state) (E : node) (anc : List node)
        (tail : List Nat), stands_at st E anc (c ++ tail) → E.name = pn →
        (peek tail 0 = 0 ∨ peek tail 0 = 60) →
        ∃ st1, runs o html st st1 ∧ stands_at st1 (E.append_children trees) anc tail)
    ∧ (pn = [] →
        parse_run o c
          = .ok { s := [], current_node_ := document_node trees, ancestors := [],
                  last_element_void := false }
        ∧ parse o c = .returned (document_node trees)) := by
  refine ⟨fun html st E anc tail hst hE htail => ?_, fun hp => ?_⟩
  · obtain ⟨st1, hr, hnil, hcons⟩ := well_nested_runs o html h hpn st E anc tail hst hE htail
    refine ⟨st1, hr, ?_⟩
    by_cases hne : c = []
    · obtain ⟨e1, e2⟩ := hnil hne
      rw [e1, e2]
      rw [hne] at hst
      exact hst
    · exact (hcons hne).1
  · have hrun : parse_run o c
        = .ok { s := [], current_node_ := document_node trees, ancestors := [],
                last_element_void := false } := by
      obtain ⟨st1, hr, hnil, hcons⟩ := well_nested_runs o c h hpn (initial_state c)
        document.create [] [] (Or.inl (by rw [List.append_nil]; rfl)) (by rw [hp]; rfl)
        (Or.inl rfl)
      by_cases hne : c = []
      · rw [(hnil hne).2, hne]
        rfl
      · have e : document.create.append_children trees = document_node trees := by
          unfold document.create node.create document_node
          rw [append_children_mk]
          rfl
        have hs := (hcons hne).2 hp
        rw [e] at hs
        rw [hs] at hr
        exact runs_parse_run hr rfl
    refine ⟨hrun, ?_⟩
    unfold parse
    rw [hrun]
    rfl

/-- C14 amended, at `<div>a<br></div>`: the closing tag leaves the void element and
closes `DIV`, and the parse returns with the document as the current node. -/
theorem C14_well_nested_input_returns_to_document_witness :
    well_nested [] (ascii "<div>a<br></div>")
        [element_node (ascii "DIV") [text_node (ascii "a"), element_node (ascii "BR") []]]
    ∧ parse_run ⟨false, false, false⟩ (ascii "<div>a<br></div>")
      = .ok { s := [],
              current_node_ := document_node [element_node (ascii "DIV")
                [text_node (ascii "a"), element_node (ascii "BR") []]],
              ancestors := [], last_element_void := false }
    ∧ parse ⟨false, false, false⟩ (ascii "<div>a<br></div>")
      = .returned (document_node [element_node (ascii "DIV")
          [text_node (ascii "a"), element_node (ascii "BR") []]]) :=
  have hbody : well_nested (str_toupper (100 :: ascii "iv"))
      (ascii "a" ++ (ascii "<" ++ ascii "br" ++ ascii ">" ++ []))
      [text_node (ascii "a"), element_node (str_toupper (ascii "br")) []] :=
    well_nested.text _ (ascii "a") _ _ (by decide) (by decide) (Or.inr rfl)
      (well_nested.void _ (ascii "br") _ _ (by decide) (Or.inr (by decide))
        (well_nested.nil _))
  have hw : well_nested [] (ascii "<div>a<br></div>")
      [element_node (ascii "DIV") [text_node (ascii "a"), element_node (ascii "BR") []]] :=
    well_nested.element [] 100 (ascii "iv") (ascii "div") _ [] _ [] (by decide) (by decide)
      (by decide) (by decide) (by decide) (by decide) (by decide) hbody (well_nested.nil _)
  ⟨hw, (C14_well_nested_input_returns_to_document ⟨false, false, false⟩ [] _ _ hw
    (by decide)).2 rfl⟩

end cpphtml
